import Mathlib

/-!
Gator cookie subsystem: shallow embedding and verification.

Embedding of `gator_cookies.c` (the per-CPU symbol cookie cache, the deferred
translate queue and `get_cookie`).  Machine integers are natural numbers with an
explicit reduction modulo `2^32` wherever the C code truncates or can overflow;
C arrays are functions from the index to the stored word; every `DEFINE_PER_CPU`
variable is a function of the CPU number, and the executing CPU
(`raw_smp_processor_id()`) is an explicit argument.
-/

namespace Gator

/-! ## Constants of `gator_cookies.c` -/

/-- Constant `#define COOKIEMAP_ENTRIES 1024` (must be a power of two). -/
def COOKIEMAP_ENTRIES : Nat := 1024

/-- Constant `#define TRANSLATE_SIZE 256`. -/
def TRANSLATE_SIZE : Nat := 256

/-- Constant `#define MAX_COLLISIONS 2`. -/
def MAX_COLLISIONS : Nat := 2

/-- Modelled from the spec: `NO_COOKIE` is defined in `gator.h`, which is not among
the sources; the spec gives `NO_COOKIE = 0`, which is also the value
`cookiemap_exists` returns on a miss (`retval = 0`). -/
def NO_COOKIE : Nat := 0

/-- Kernel page size used by `translate_app_process` (`PAGE_SIZE`, 4 KiB pages). -/
def PAGE_SIZE : Nat := 4096

/-! ## Memory model -/

/-- Array store `m[i] = v`. -/
def store {α : Type} (m : Nat → α) (i : Nat) (v : α) : Nat → α :=
  fun j => if j = i then v else m j

/-- One write into a unit's output buffer.  The byte encoding performed by
`gator_buffer_write_packed_int` and `gator_buffer_write_string` is kept abstract:
the buffer is the sequence of values written. -/
inductive BufItem where
  | packed_int (v : Nat)
  | string (text : List Nat)
  deriving DecidableEq, Repr

/-- The static and per-CPU variables of `gator_cookies.c`, together with the
per-CPU output buffer written through `gator_buffer_write_*`. -/
structure State where
  /-- Variable `static uint32_t *gator_crc32_table` -/
  gator_crc32_table : Nat → Nat
  /-- Variable `static uint32_t translate_buffer_mask` -/
  translate_buffer_mask : Nat
  /-- Variable `DEFINE_PER_CPU(char *, translate_text)`: bytes of the per-CPU text buffer -/
  translate_text : Nat → Nat → Nat
  /-- Variable `DEFINE_PER_CPU(uint32_t, cookie_next_key)` -/
  cookie_next_key : Nat → Nat
  /-- Variable `DEFINE_PER_CPU(uint64_t *, cookie_keys)` -/
  cookie_keys : Nat → Nat → Nat
  /-- Variable `DEFINE_PER_CPU(uint32_t *, cookie_values)` -/
  cookie_values : Nat → Nat → Nat
  /-- Variable `DEFINE_PER_CPU(int, translate_buffer_read)` -/
  translate_buffer_read : Nat → Nat
  /-- Variable `DEFINE_PER_CPU(int, translate_buffer_write)` -/
  translate_buffer_write : Nat → Nat
  /-- Variable `DEFINE_PER_CPU(unsigned int *, translate_buffer)` -/
  translate_buffer : Nat → Nat → Nat
  /-- per-CPU output buffer: the writes made so far, oldest first -/
  gator_buffer : Nat → List BufItem
  /-- whether `schedule_work(&cookie_work)` has been called -/
  cookie_work_scheduled : Bool

/-! ## The cookie map -/

/-- Function `cookiemap_code`, lines 29-37: index of the first slot of the key's bucket. -/
def cookiemap_code (value64 : Nat) : Nat :=
  let value := ((value64 >>> 32) + value64) % 2 ^ 32
  let cookiecode := (value >>> 24) &&& 0xff
  let cookiecode := (cookiecode * 31 + ((value >>> 16) &&& 0xff)) % 2 ^ 32
  let cookiecode := (cookiecode * 31 + ((value >>> 8) &&& 0xff)) % 2 ^ 32
  let cookiecode := (cookiecode * 31 + ((value >>> 0) &&& 0xff)) % 2 ^ 32
  let cookiecode := cookiecode &&& (COOKIEMAP_ENTRIES - 1)
  (cookiecode * MAX_COLLISIONS) % 2 ^ 32

/-- Inner loop of `cookiemap_exists`, lines 70-73:
`for (; x > 0; x--) { keys[x] = keys[x-1]; values[x] = values[x-1]; }`
where `keys = &cookie_keys[base]` and `values = &cookie_values[base]`. -/
def cookiemap_exists_shift (base : Nat) :
    Nat → (Nat → Nat) → (Nat → Nat) → (Nat → Nat) × (Nat → Nat)
  | 0, keys, values => (keys, values)
  | x + 1, keys, values =>
    cookiemap_exists_shift base x
      (store keys (base + (x + 1)) (keys (base + x)))
      (store values (base + (x + 1)) (values (base + x)))

/-- Outer loop of `cookiemap_exists`, lines 67-79, started at slot `x` with
`n` iterations left; returns `retval` and the two arrays. -/
def cookiemap_exists_loop (key base : Nat) (keys values : Nat → Nat) :
    Nat → Nat → Nat × (Nat → Nat) × (Nat → Nat)
  | 0, _ => (0, keys, values)
  | n + 1, x =>
    if keys (base + x) = key then
      let value := values (base + x)
      let kv := cookiemap_exists_shift base x keys values
      (value, store kv.1 base key, store kv.2 base value)
    else
      cookiemap_exists_loop key base keys values n (x + 1)

/-- Function `cookiemap_exists`, lines 58-83, on CPU `cpu`. -/
def cookiemap_exists (cpu key : Nat) (s : State) : Nat × State :=
  let cookiecode := cookiemap_code key
  let r := cookiemap_exists_loop key cookiecode (s.cookie_keys cpu) (s.cookie_values cpu)
    MAX_COLLISIONS 0
  (r.1, { s with
    cookie_keys := store s.cookie_keys cpu r.2.1
    cookie_values := store s.cookie_values cpu r.2.2 })

/-- Loop of `cookiemap_add`, lines 97-100:
`for (x = MAX_COLLISIONS-1; x > 0; x--) { keys[x] = keys[x-1]; values[x] = keys[x-1]; }`.
The second assignment stores the 64-bit key of slot `x-1`, truncated to the
32-bit element type of `values`. -/
def cookiemap_add_shift (base : Nat) :
    Nat → (Nat → Nat) → (Nat → Nat) → (Nat → Nat) × (Nat → Nat)
  | 0, keys, values => (keys, values)
  | x + 1, keys, values =>
    cookiemap_add_shift base x
      (store keys (base + (x + 1)) (keys (base + x)))
      (store values (base + (x + 1)) (keys (base + x) % 2 ^ 32))

/-- Function `cookiemap_add`, lines 90-103, on CPU `cpu`. -/
def cookiemap_add (cpu key value : Nat) (s : State) : State :=
  let cookiecode := cookiemap_code key
  let kv := cookiemap_add_shift cookiecode (MAX_COLLISIONS - 1)
    (s.cookie_keys cpu) (s.cookie_values cpu)
  { s with
    cookie_keys := store s.cookie_keys cpu (store kv.1 cookiecode key)
    cookie_values := store s.cookie_values cpu (store kv.2 cookiecode value) }

/-! ## Checksum -/

/-- Inner loop of the CRC table construction in `cookies_initialize`, lines 348-354:
`j` remaining steps of `if (crc & 1) crc = (crc >> 1) ^ poly; else crc >>= 1;`. -/
def crc32_table_step (poly : Nat) : Nat → Nat → Nat
  | 0, crc => crc
  | j + 1, crc =>
    crc32_table_step poly j (if crc &&& 1 ≠ 0 then (crc >>> 1) ^^^ poly else crc >>> 1)

/-- Entry `i` of the table built in `cookies_initialize`, lines 344-356. -/
def crc32_table_entry (i : Nat) : Nat :=
  crc32_table_step 0x04c11db7 8 i

/-- Function `gator_chksum_crc32`, lines 39-51; `data` is the C string without its
terminating NUL, one number per `unsigned char`. -/
def gator_chksum_crc32 (table : Nat → Nat) (data : List Nat) : Nat :=
  let crc := data.foldl
    (fun crc b => ((crc >>> 8) &&& 0x00FFFFFF) ^^^ table ((crc ^^^ (b % 256)) &&& 0xFF))
    0xFFFFFFFF
  (crc ^^^ 0xFFFFFFFF) % 2 ^ 32

/-! ## Kernel objects seen by `get_cookie` -/

/-- The part of `struct mm_struct` and of the user address space read by
`translate_app_process`. -/
structure mm_struct where
  arg_start : Nat
  arg_end : Nat
  /-- whether `get_user_pages` returns a positive count for the page with this number -/
  page_present : Nat → Bool
  /-- byte of user memory at an address -/
  mem : Nat → Nat

/-- The part of `struct task_struct` used here. -/
structure task_struct where
  /-- address of the structure, the value queued by `(unsigned int)task` -/
  ptr : Nat
  tgid : Nat
  /-- result of `get_task_mm(task)` (`none` for NULL) -/
  mm : Option mm_struct

/-- The dentry behind `vma->vm_file->f_path.dentry`, with its `d_name.name`. -/
structure dentry where
  d_name : List Nat

/-- The part of `struct file` used here, with `f_path.dentry` (`none` for NULL). -/
structure file where
  f_dentry : Option dentry

/-- The part of `struct vm_area_struct` used here. -/
structure vm_area_struct where
  /-- address of the structure, the value queued by `(unsigned int)vma` -/
  ptr : Nat
  vm_file : Option file

/-- The part of `struct module` used here, with its `name`. -/
structure module where
  name : List Nat

/-- Values that `gator_cookies.c` takes from outside: the kernel's `nr_cpu_ids`
and the two constants of `gator.h`. -/
structure Config where
  nr_cpu_ids : Nat
  INVALID_COOKIE : Nat
  PROTOCOL_COOKIE : Nat

/-- The `char *text` of `get_cookie`: either a name owned by the kernel object
or the per-CPU `translate_text` buffer. -/
inductive TextPtr where
  | name (t : List Nat)
  | translate_text
  deriving DecidableEq

/-- The C string `"app_process"`. -/
def str_app_process : List Nat := "app_process".toList.map Char.toNat

/-- The C string `"zygote"`. -/
def str_zygote : List Nat := "zygote".toList.map Char.toNat

/-- The C string `"<pre-initialized>"`. -/
def str_pre_initialized : List Nat := "<pre-initialized>".toList.map Char.toNat

/-- Read the NUL-terminated string that starts at offset `pos` of a byte buffer,
looking at no more than `n` bytes; `none` when no NUL is found among them. -/
def cstring_read (buf : Nat → Nat) : Nat → Nat → Option (List Nat)
  | 0, _ => none
  | n + 1, pos =>
    if buf pos = 0 then some []
    else (cstring_read buf n (pos + 1)).map (fun rest => buf pos :: rest)

/-- The string a `char *text` designates on CPU `cpu`.  Reading the
`TRANSLATE_SIZE`-byte buffer past its end is undefined: `none`. -/
def text_read (s : State) (cpu : Nat) : TextPtr → Option (List Nat)
  | .name t => some t
  | .translate_text => cstring_read (s.translate_text cpu) TRANSLATE_SIZE 0

/-! ## The translate queue and `translate_app_process` -/

/-- Function `translate_buffer_write_int`, lines 105-109. -/
def translate_buffer_write_int (cpu x : Nat) (s : State) : State :=
  let w := s.translate_buffer_write cpu
  { s with
    translate_buffer := store s.translate_buffer cpu (store (s.translate_buffer cpu) w (x % 2 ^ 32))
    translate_buffer_write :=
      store s.translate_buffer_write cpu ((w + 1) &&& s.translate_buffer_mask) }

/-- Function `translate_buffer_read_int`, lines 111-116. -/
def translate_buffer_read_int (cpu : Nat) (s : State) : Nat × State :=
  let r := s.translate_buffer_read cpu
  (s.translate_buffer cpu r,
   { s with
     translate_buffer_read :=
       store s.translate_buffer_read cpu ((r + 1) &&& s.translate_buffer_mask) })

/-- The duplicate scan of `translate_app_process`, lines 149-153, from `ptr`:
`some true` when the task is found (`goto out`), `some false` when `ptr` reaches
the write index, `none` when the iterations run out. -/
def translate_pending_scan (buf : Nat → Nat) (mask write task : Nat) : Nat → Nat → Option Bool
  | 0, _ => none
  | n + 1, ptr =>
    if ptr = write then some false
    else if buf ptr = task then some true
    else translate_pending_scan buf mask write task n ((ptr + 2) &&& mask)

/-- The copy loop of `translate_app_process`, lines 173-194, with `len` bytes left
to copy from user address `addr` to offset `off` of the text buffer.  Returns the
buffer, `retval`, and whether the loop ran to its end (`false`: `goto outsem`). -/
def translate_copy (mm : mm_struct) :
    Nat → Nat → Nat → Nat → (Nat → Nat) → Nat → (Nat → Nat) × Nat × Bool
  | 0, _, _, _, buf, retval => (buf, retval, true)
  | n + 1, len, addr, off, buf, retval =>
    if len = 0 then (buf, retval, true)
    else if !mm.page_present (addr / PAGE_SIZE) then (buf, retval, false)
    else
      let offset := addr &&& (PAGE_SIZE - 1)
      let bytes := if len > PAGE_SIZE - offset then PAGE_SIZE - offset else len
      translate_copy mm n (len - bytes) ((addr + bytes) % 2 ^ 32) (off + bytes)
        (fun j => if off ≤ j ∧ j < off + bytes then mm.mem (addr + (j - off)) % 256 else buf j)
        1

/-- Function `translate_app_process`, lines 134-206.  Returns `retval`, the new `*text`
and the state; `none` when the duplicate scan never ends or a string is read
past the end of the text buffer. -/
def translate_app_process (in_irq : Bool) (text : TextPtr) (cpu : Nat) (task : task_struct)
    (vma : Nat) (s : State) : Option (Nat × TextPtr × State) :=
  if in_irq then
    match translate_pending_scan (s.translate_buffer cpu) s.translate_buffer_mask
        (s.translate_buffer_write cpu) (task.ptr % 2 ^ 32)
        (s.translate_buffer_mask + 2) (s.translate_buffer_read cpu) with
    | none => none
    | some true => some (0, text, s)
    | some false =>
      let s1 := translate_buffer_write_int cpu task.ptr s
      let s2 := translate_buffer_write_int cpu vma s1
      some (0, text, { s2 with cookie_work_scheduled := true })
  else
    match task.mm with
    | none => some (0, text, s)
    | some mm =>
      if mm.arg_end = 0 then some (0, text, s)
      else
        let len := (mm.arg_end + 2 ^ 32 - mm.arg_start % 2 ^ 32) % 2 ^ 32
        let len := if len > TRANSLATE_SIZE then TRANSLATE_SIZE else len
        let r := translate_copy mm (len + 1) len mm.arg_start 0 (s.translate_text cpu) 0
        let s1 := { s with translate_text := store s.translate_text cpu r.1 }
        let text1 := if r.2.1 = 0 then text else TextPtr.translate_text
        if r.2.2 then
          match text_read s1 cpu text1 with
          | none => none
          | some t =>
            if t = str_zygote ∨ t = str_pre_initialized then some (0, text1, s1)
            else some (r.2.1, text1, s1)
        else some (r.2.1, text1, s1)

/-! ## `get_cookie` -/

/-- Modelled from the spec: `gator_buffer_write_packed_int` is defined in
`gator_main.c`, which is not among the sources; per the spec's frame encoder it
appends one integer to the unit's output buffer. -/
def gator_buffer_write_packed_int (cpu x : Nat) (s : State) : State :=
  { s with gator_buffer := store s.gator_buffer cpu (s.gator_buffer cpu ++ [BufItem.packed_int x]) }

/-- Modelled from the spec: `gator_buffer_write_string` is defined in
`gator_main.c`, which is not among the sources; per the spec's frame encoder it
appends one length-prefixed string to the unit's output buffer. -/
def gator_buffer_write_string (cpu : Nat) (text : List Nat) (s : State) : State :=
  { s with gator_buffer := store s.gator_buffer cpu (s.gator_buffer cpu ++ [BufItem.string text]) }

/-- Lines 215-227 of `get_cookie`: the name to intern, `none` on the two
`return INVALID_COOKIE` exits. -/
def get_cookie_text (vma : Option vm_area_struct) (mod : Option module) : Option (List Nat) :=
  match mod with
  | some m => some m.name
  | none =>
    match vma with
    | none => none
    | some v =>
      match v.vm_file with
      | none => none
      | some f =>
        match f.f_dentry with
        | none => none
        | some d => some d.d_name

/-- Lines 229-230 of `get_cookie`: `key = crc; key = (key << 32) | (uint32_t)task->tgid`. -/
def get_cookie_key (s : State) (text : List Nat) (task : task_struct) : Nat :=
  (gator_chksum_crc32 s.gator_crc32_table text <<< 32) ||| (task.tgid % 2 ^ 32)

/-- Line 245 of `get_cookie`: the value of `cookie_next_key += nr_cpu_ids` on the
32-bit counter. -/
def cookie_alloc (nr_cpu_ids next_key : Nat) : Nat :=
  (next_key + nr_cpu_ids) % 2 ^ 32

/-- Lines 243-254 of `get_cookie`: allocate the next cookie, insert it and emit
the define-symbol frame. -/
def get_cookie_insert (cfg : Config) (cpu key : Nat) (text : List Nat) (s : State) : Nat × State :=
  let cookie := cookie_alloc cfg.nr_cpu_ids (s.cookie_next_key cpu)
  let s1 := { s with cookie_next_key := store s.cookie_next_key cpu cookie }
  let s2 := cookiemap_add cpu key cookie s1
  let s3 := gator_buffer_write_packed_int cpu cfg.PROTOCOL_COOKIE s2
  let s4 := gator_buffer_write_packed_int cpu cookie s3
  let s5 := gator_buffer_write_string cpu text s4
  (cookie, s5)

/-- Lines 237-240 of `get_cookie`, reached on a cache miss: the name that will be
emitted.  `some (some t, s)` when the name `t` is available, `some (none, s)` for
`return INVALID_COOKIE`, `none` when `translate_app_process` has no defined result. -/
def get_cookie_translate (in_irq : Bool) (cpu : Nat) (task : task_struct)
    (vma : Option vm_area_struct) (mod : Option module) (text : List Nat) (s : State) :
    Option (Option (List Nat) × State) :=
  if text = str_app_process ∧ mod.isNone then
    match translate_app_process in_irq (TextPtr.name text) cpu task
        (match vma with | some v => v.ptr | none => 0) s with
    | none => none
    | some (retval, text1, s1) =>
      if retval = 0 then some (none, s1)
      else
        match text_read s1 cpu text1 with
        | none => none
        | some t => some (some t, s1)
  else some (some text, s)

/-- Function `get_cookie`, lines 208-255, run on CPU `cpu` (the CPU that executes it).
`in_irq` is the value of `in_irq()`.  `none` when `translate_app_process` has no
defined result. -/
def get_cookie (cfg : Config) (in_irq : Bool) (cpu : Nat) (task : task_struct)
    (vma : Option vm_area_struct) (mod : Option module) (s : State) : Option (Nat × State) :=
  match get_cookie_text vma mod with
  | none => some (cfg.INVALID_COOKIE, s)
  | some text =>
    let key := get_cookie_key s text task
    let r := cookiemap_exists cpu key s
    if r.1 ≠ 0 then some (r.1, r.2)
    else
      match get_cookie_translate in_irq cpu task vma mod text r.2 with
      | none => none
      | some (none, s1) => some (cfg.INVALID_COOKIE, s1)
      | some (some t, s1) => some (get_cookie_insert cfg cpu key t s1)

/-! ## `cookies_initialize` -/

/-- Line 317 of `cookies_initialize`: `cookie_next_key = nr_cpu_ids + cpu`, stored in
the 32-bit counter. -/
def cookie_seed (nr_cpu_ids cpu : Nat) : Nat :=
  (nr_cpu_ids + cpu) % 2 ^ 32

/-- The `for_each_present_cpu` loop of `cookies_initialize`, lines 316-341.
`buffer_ok cpu` and `text_ok cpu` say whether the `kmalloc` of the translate
buffer and of the text buffer of that CPU succeed; a fresh block keeps
unspecified contents unless it is `memset`. Returns `err` and the state. -/
def cookies_initialize_loop (nr_cpu_ids : Nat) (buffer_ok text_ok : Nat → Bool) :
    List Nat → State → Int × State
  | [], s => (0, s)
  | cpu :: rest, s =>
    let size := COOKIEMAP_ENTRIES * MAX_COLLISIONS
    let s1 := { s with
      cookie_next_key := store s.cookie_next_key cpu (cookie_seed nr_cpu_ids cpu)
      cookie_keys := store s.cookie_keys cpu (fun i => if i < size then 0 else s.cookie_keys cpu i)
      cookie_values :=
        store s.cookie_values cpu (fun i => if i < size then 0 else s.cookie_values cpu i) }
    if !buffer_ok cpu then (-12, s1)
    else
      let s2 := { s1 with
        translate_buffer_write := store s1.translate_buffer_write cpu 0
        translate_buffer_read := store s1.translate_buffer_read cpu 0 }
      if !text_ok cpu then (-12, s2)
      else cookies_initialize_loop nr_cpu_ids buffer_ok text_ok rest s2

/-- Function `cookies_initialize`, lines 308-360, over the list of present CPUs. -/
def cookies_initialize (nr_cpu_ids : Nat) (buffer_ok text_ok : Nat → Bool) (present : List Nat)
    (s : State) : Int × State :=
  let r := cookies_initialize_loop nr_cpu_ids buffer_ok text_ok present
    { s with translate_buffer_mask := 512 / 4 - 1 }
  if r.1 = 0 then
    (0, { r.2 with
      gator_crc32_table := fun i => if i < 256 then crc32_table_entry i else r.2.gator_crc32_table i })
  else r

/-! ## Views used in the statements -/

/-- A machine whose memory is all zero and whose output buffers are empty, as
it is before `cookies_initialize` runs. -/
def State.blank : State where
  gator_crc32_table := fun _ => 0
  translate_buffer_mask := 0
  translate_text := fun _ _ => 0
  cookie_next_key := fun _ => 0
  cookie_keys := fun _ _ => 0
  cookie_values := fun _ _ => 0
  translate_buffer_read := fun _ => 0
  translate_buffer_write := fun _ => 0
  translate_buffer := fun _ _ => 0
  gator_buffer := fun _ => []
  cookie_work_scheduled := false

/-- The state at the start of a session on `n` present CPUs `0 .. n-1`, all
allocations succeeding. -/
def session_start (n : Nat) : State :=
  ( cookies_initialize n (fun _ => true) (fun _ => true) (List.range n) State.blank).2

/-- The bucket of `key` on CPU `cpu`: the `(key, cookie)` pairs of its
`MAX_COLLISIONS` slots, slot 0 first. -/
def bucket (s : State) (cpu key : Nat) : List (Nat × Nat) :=
  (List.range MAX_COLLISIONS).map fun x =>
    (s.cookie_keys cpu (cookiemap_code key + x), s.cookie_values cpu (cookiemap_code key + x))

/-- The cookie handed out by the `k`-th allocation of a session on CPU `cpu`
(`k = 0`: the seed written by `cookies_initialize`, which is not handed out). -/
def nth_cookie (nr_cpu_ids cpu : Nat) : Nat → Nat
  | 0 => cookie_seed nr_cpu_ids cpu
  | k + 1 => cookie_alloc nr_cpu_ids (nth_cookie nr_cpu_ids cpu k)

/-- The define-symbol frame `(PROTOCOL_COOKIE, cookie, name)` as the three writes
of lines 248-250. -/
def define_frame (cfg : Config) (cookie : Nat) (text : List Nat) : List BufItem :=
  [BufItem.packed_int cfg.PROTOCOL_COOKIE, BufItem.packed_int cookie, BufItem.string text]

/-- A mapped file called `name`: a `vm_area_struct` at address `ptr` whose
`vm_file` has a dentry with that name. -/
def vma_of_name (ptr : Nat) (name : String) : Option vm_area_struct :=
  some { ptr := ptr, vm_file := some { f_dentry := some { d_name := name.toList.map Char.toNat } } }

/-- One call of `get_cookie`: the value of `in_irq()` and the three pointer
arguments. -/
structure Call where
  in_irq : Bool
  task : task_struct
  vma : Option vm_area_struct
  mod : Option module

/-- A sequence of `get_cookie` calls on CPU `cpu`, in order: the values returned
and the final state; `none` when one of the calls has no defined result. -/
def get_cookie_calls (cfg : Config) (cpu : Nat) : List Call → State → Option (List Nat × State)
  | [], s => some ([], s)
  | c :: cs, s =>
    match get_cookie cfg c.in_irq cpu c.task c.vma c.mod s with
    | none => none
    | some (r, s1) => (get_cookie_calls cfg cpu cs s1).map fun p => (r :: p.1, p.2)

/-- A configuration with `n` CPUs, `INVALID_COOKIE = 0xFFFFFFFF` and
`PROTOCOL_COOKIE = 1`, used for concrete runs. -/
def sample_config (n : Nat) : Config :=
  { nr_cpu_ids := n, INVALID_COOKIE := 0xFFFFFFFF, PROTOCOL_COOKIE := 1 }

/-- A call from process context for the mapped file `name` of the process with
thread group id `tgid`. -/
def sample_call (name : String) (tgid : Nat) : Call :=
  { in_irq := false, task := { ptr := 4096, tgid := tgid, mm := none },
    vma := vma_of_name 8192 name, mod := none }

/-- The fields of the state that `translate_app_process` never writes: the cookie
map, the cookie counter, the output buffer and the CRC table. -/
def cache_fields (s : State) :
    (Nat → Nat → Nat) × (Nat → Nat → Nat) × (Nat → Nat) × (Nat → List BufItem) × (Nat → Nat) :=
  (s.cookie_keys, s.cookie_values, s.cookie_next_key, s.gator_buffer, s.gator_crc32_table)

/-- The define-symbol frames of the first `m` allocations of a session on CPU `cpu`
carry the cookies `nth_cookie 1 .. nth_cookie m`: this predicate says that a buffer
consists of `m` such frames appended to `init`. -/
def frames_of_allocations (cfg : Config) (cpu : Nat) (init : List BufItem) :
    Nat → List BufItem → Prop
  | 0, buf => buf = init
  | m + 1, buf => ∃ prev t, frames_of_allocations cfg cpu init m prev ∧
      buf = prev ++ define_frame cfg (nth_cookie cfg.nr_cpu_ids cpu (m + 1)) t

/-! ## The deferred-resolution worker -/

/-- The kernel objects behind the pointers stored in the translate queue:
`task_at p` is the `task_struct` at address `p`, `vma_at p` the `vm_area_struct`
at address `p` (`none` for a NULL pointer). -/
structure Heap where
  task_at : Nat → task_struct
  vma_at : Nat → Option vm_area_struct

/-- The loop of `wq_cookie_handler`, lines 126-130, with `n` iterations left:
`while (read != commit) { task = read_int; vma = read_int; get_cookie(cpu, task, vma, NULL); }`.
The work queue runs in process context, so `in_irq()` is false in `get_cookie`.
Returns the `(task, vma)` pairs `get_cookie` was called with, in call order, and
the final state; `none` when the iterations run out or a call has no defined
result. -/
def wq_cookie_handler_loop (cfg : Config) (heap : Heap) (cpu commit : Nat) :
    Nat → State → Option (List (Nat × Nat) × State)
  | 0, s => if s.translate_buffer_read cpu = commit then some ([], s) else none
  | n + 1, s =>
    if s.translate_buffer_read cpu = commit then some ([], s)
    else
      let r1 := translate_buffer_read_int cpu s
      let r2 := translate_buffer_read_int cpu r1.2
      match get_cookie cfg false cpu (heap.task_at r1.1) (heap.vma_at r2.1) none r2.2 with
      | none => none
      | some (_, s1) =>
        (wq_cookie_handler_loop cfg heap cpu commit n s1).map fun p => ((r1.1, r2.1) :: p.1, p.2)

/-- Function `wq_cookie_handler`, lines 118-131, on CPU `cpu`: `commit` is the write
index on entry. -/
def wq_cookie_handler (cfg : Config) (heap : Heap) (cpu : Nat) (s : State) :
    Option (List (Nat × Nat) × State) :=
  wq_cookie_handler_loop cfg heap cpu (s.translate_buffer_write cpu)
    (s.translate_buffer_mask + 2) s

/-! ## Views of the translate queue -/

/-- The `(task, vma)` pairs stored from `ptr` up to the write index, read the way
`wq_cookie_handler` reads them (two `translate_buffer_read_int` per pair), looking
at no more than `n` pairs. -/
def translate_pending (buf : Nat → Nat) (mask write : Nat) : Nat → Nat → List (Nat × Nat)
  | 0, _ => []
  | n + 1, ptr =>
    if ptr = write then []
    else (buf ptr, buf ((ptr + 1) &&& mask)) ::
      translate_pending buf mask write n ((((ptr + 1) &&& mask) + 1) &&& mask)

/-- The pending entries of CPU `cpu`: the pairs between its read and write index,
oldest first. -/
def pending_entries (s : State) (cpu : Nat) : List (Nat × Nat) :=
  translate_pending (s.translate_buffer cpu) s.translate_buffer_mask
    (s.translate_buffer_write cpu) (s.translate_buffer_mask + 2) (s.translate_buffer_read cpu)

/-- The duplicate scan of `translate_app_process` for the task at address `task` on
CPU `cpu`: `some true` when the task is found pending. -/
def task_pending (s : State) (cpu task : Nat) : Option Bool :=
  translate_pending_scan (s.translate_buffer cpu) s.translate_buffer_mask
    (s.translate_buffer_write cpu) (task % 2 ^ 32)
    (s.translate_buffer_mask + 2) (s.translate_buffer_read cpu)

/-- The translate queue of CPU `cpu` is a ring of 128 words as set up by
`cookies_initialize`, and its read and write index are even positions of it. -/
def queue_wf (s : State) (cpu : Nat) : Prop :=
  s.translate_buffer_mask = 127 ∧
  s.translate_buffer_read cpu % 2 = 0 ∧ s.translate_buffer_read cpu ≤ 127 ∧
  s.translate_buffer_write cpu % 2 = 0 ∧ s.translate_buffer_write cpu ≤ 127

instance queue_wf_decidable (s : State) (cpu : Nat) : Decidable (queue_wf s cpu) := by
  unfold queue_wf
  infer_instance

/-- The fields of the state that make up the translate queues. -/
def queue_fields (s : State) : (Nat → Nat → Nat) × (Nat → Nat) × (Nat → Nat) × Nat :=
  (s.translate_buffer, s.translate_buffer_read, s.translate_buffer_write, s.translate_buffer_mask)

/-- A call from interrupt context for the mapped file `app_process` of the task at
address `ptr` with thread group id `tgid`. -/
def irq_call (ptr tgid : Nat) : Call :=
  { in_irq := true, task := { ptr := ptr, tgid := tgid, mm := none },
    vma := vma_of_name 8192 "app_process", mod := none }

/-- Interrupt-context calls for `app_process` from `n` different tasks, at the
addresses `1000, 1001, ...`. -/
def irq_calls (n : Nat) : List Call :=
  (List.range n).map fun i => irq_call (1000 + i) (1 + i)

/-! ## The Mali video driver (`daemon/MaliVideoDriver.cpp`) -/

/-- The counter types of `MaliVideoDriver.h` used in `MaliVideoDriver.cpp`. -/
inductive MaliVideoCounterType where
  | MVCT_COUNTER
  | MVCT_EVENT
  | MVCT_ACTIVITY
  deriving DecidableEq, Repr

/-- The data members of `class MaliVideoCounter`, lines 37-63, without the `mNext`
link: the list `mCounters` is a Lean list, head first. -/
structure MaliVideoCounter where
  mName : String
  mType : MaliVideoCounterType
  mId : Int
  mKey : Int
  mEnabled : Bool
  deriving DecidableEq, Repr

/-- Modelled from the spec: `class Counter` is declared in `Counter.h`, which is not
among the sources; a counter request carries the fields read and written through
`getType`, `setEnabled`, `setKey`, `getEvent`, `getCount`, `setCount` and
`isEBSCapable`. -/
structure Counter where
  mType : String
  mEnabled : Bool
  mKey : Int
  mEvent : Int
  mCount : Int
  ebsCapable : Bool
  deriving DecidableEq, Repr

/-- Function `MaliVideoDriver::findCounter`, lines 112-120: the first counter of
`mCounters` whose name equals the request's type, with its position in the list
(the pair stands for the pointer returned), `none` for NULL. -/
def MaliVideoDriver.findCounter :
    List MaliVideoCounter → Counter → Option (Nat × MaliVideoCounter)
  | [], _ => none
  | m :: rest, counter =>
    if m.mName = counter.mType then some (0, m)
    else (MaliVideoDriver.findCounter rest counter).map fun p => (p.1 + 1, p.2)

/-- Function `MaliVideoDriver::claimCounter`, lines 122-124. -/
def MaliVideoDriver.claimCounter (mCounters : List MaliVideoCounter) (counter : Counter) : Bool :=
  (MaliVideoDriver.findCounter mCounters counter).isSome

/-- Function `MaliVideoDriver::countersEnabled`, lines 126-133. -/
def MaliVideoDriver.countersEnabled : List MaliVideoCounter → Bool
  | [] => false
  | m :: rest => if m.mEnabled then true else MaliVideoDriver.countersEnabled rest

/-- Function `MaliVideoDriver::resetCounters`, lines 135-139. -/
def MaliVideoDriver.resetCounters : List MaliVideoCounter → List MaliVideoCounter
  | [] => []
  | m :: rest => { m with mEnabled := false } :: MaliVideoDriver.resetCounters rest

/-- The call `maliVideoCounter->setEnabled(enabled)` on the counter at position `i`
of the list. -/
def MaliVideoCounter.setEnabledAt : List MaliVideoCounter → Nat → Bool → List MaliVideoCounter
  | [], _, _ => []
  | m :: rest, 0, enabled => { m with mEnabled := enabled } :: rest
  | m :: rest, i + 1, enabled => m :: MaliVideoCounter.setEnabledAt rest i enabled

/-- Function `MaliVideoDriver::setupCounter`, lines 141-149: the counter list and the
request after the call. -/
def MaliVideoDriver.setupCounter (mCounters : List MaliVideoCounter) (counter : Counter) :
    List MaliVideoCounter × Counter :=
  match MaliVideoDriver.findCounter mCounters counter with
  | none => (mCounters, { counter with mEnabled := false })
  | some (i, m) =>
    (MaliVideoCounter.setEnabledAt mCounters i true, { counter with mKey := m.mKey })

/-- Modelled from the spec: `Buffer::packInt` is defined in `Buffer.cpp`, which is not
among the sources; per the spec's frame encoder it writes the integer at the cursor
and advances the cursor, and fails when the write would exceed the capacity.  The
buffer is the list of the bytes written so far (its length is `pos`); the byte
encoding `enc` of an integer is a parameter. -/
def Buffer.packInt (enc : Int → List Nat) (bufsize : Nat) (buf : List Nat) (x : Int) :
    Option (List Nat) :=
  if buf.length + (enc x).length ≤ bufsize then some (buf ++ enc x) else none

/-- A sequence of `Buffer::packInt` calls, in order; `none` as soon as one fails. -/
def Buffer.packInts (enc : Int → List Nat) (bufsize : Nat) : List Nat → List Int → Option (List Nat)
  | buf, [] => some buf
  | buf, x :: xs =>
    match Buffer.packInt enc bufsize buf x with
    | none => none
    | some buf1 => Buffer.packInts enc bufsize buf1 xs

/-- First loop of `MaliVideoDriver::marshalEnable`, lines 168-173: `numEnabled`. -/
def MaliVideoDriver.marshalEnable_count (type : MaliVideoCounterType) :
    List MaliVideoCounter → Int → Int
  | [], numEnabled => numEnabled
  | m :: rest, numEnabled =>
    MaliVideoDriver.marshalEnable_count type rest
      (if m.mEnabled && (m.mType == type) then numEnabled + 1 else numEnabled)

/-- Second loop of `MaliVideoDriver::marshalEnable`, lines 175-179. -/
def MaliVideoDriver.marshalEnable_ids (enc : Int → List Nat) (type : MaliVideoCounterType)
    (bufsize : Nat) : List MaliVideoCounter → List Nat → Option (List Nat)
  | [], buf => some buf
  | m :: rest, buf =>
    if m.mEnabled && (m.mType == type) then
      match Buffer.packInt enc bufsize buf m.mId with
      | none => none
      | some buf1 => MaliVideoDriver.marshalEnable_ids enc type bufsize rest buf1
    else MaliVideoDriver.marshalEnable_ids enc type bufsize rest buf

/-- Function `MaliVideoDriver::marshalEnable`, lines 166-180; `sizeof(uint32_t)` is 4. -/
def MaliVideoDriver.marshalEnable (enc : Int → List Nat) (mCounters : List MaliVideoCounter)
    (type : MaliVideoCounterType) (bufsize : Nat) (buf : List Nat) : Option (List Nat) :=
  let numEnabled := MaliVideoDriver.marshalEnable_count type mCounters 0
  match Buffer.packInt enc bufsize buf (numEnabled * 4) with
  | none => none
  | some buf1 => MaliVideoDriver.marshalEnable_ids enc type bufsize mCounters buf1

/-- The four stores `buf[pos++] = c` of an opcode such as `CLNT`; a store past the end
of the buffer is undefined: `none`. -/
def put_code (bufsize : Nat) (buf : List Nat) (code : String) : Option (List Nat) :=
  if buf.length + code.length ≤ bufsize then some (buf ++ code.toList.map Char.toNat) else none

/-- The C division `a / b` on integers: truncation toward zero, undefined (`none`) for
a zero divisor. -/
def c_div (a b : Int) : Option Int :=
  if b = 0 then none else some (Int.tdiv a b)

/-- The configuration word of line 204:
`MVE_INSTR_COUNTERS | MVE_INSTR_EVENTS | MVE_INSTR_ACTIVITIES | MVE_INSTR_PACKED_COMM`,
from the enumeration of lines 19-31. -/
def MVE_INSTR_CONFIGURATION : Int :=
  ((1 <<< 1) ||| (1 <<< 2) ||| (1 <<< 3) ||| (1 <<< 13) : Nat)

/-- Lines 186-194 of `MaliVideoDriver::start`: the `CLNT` record. -/
def MaliVideoDriver.start_startup (enc : Int → List Nat) (buf : List Nat) : Option (List Nat) :=
  (put_code 256 buf "CLNT").bind fun buf =>
  (Buffer.packInt enc 256 buf 4).bind fun buf =>
  Buffer.packInt enc 256 buf 1

/-- Lines 196-208 of `MaliVideoDriver::start`: the `CNFG` code, its size, the
configuration word and the two protocol versions. -/
def MaliVideoDriver.start_configure (enc : Int → List Nat) (buf : List Nat) : Option (List Nat) :=
  (put_code 256 buf "CNFG").bind fun buf =>
  (Buffer.packInt enc 256 buf (5 * 4)).bind fun buf =>
  (Buffer.packInt enc 256 buf MVE_INSTR_CONFIGURATION).bind fun buf =>
  (Buffer.packInt enc 256 buf 1).bind fun buf =>
  Buffer.packInt enc 256 buf 1

/-- Lines 209-212 of `MaliVideoDriver::start`: the sample rate and the live rate. -/
def MaliVideoDriver.start_rates (enc : Int → List Nat) (mSampleRate mLiveRate : Int)
    (buf : List Nat) : Option (List Nat) :=
  (c_div 1000 mSampleRate).bind fun sample_rate =>
  (Buffer.packInt enc 256 buf sample_rate).bind fun buf =>
  (c_div mLiveRate 1000000).bind fun live_rate =>
  Buffer.packInt enc 256 buf live_rate

/-- Lines 214-226 of `MaliVideoDriver::start`: the two enable lists. -/
def MaliVideoDriver.start_enable (enc : Int → List Nat) (mCounters : List MaliVideoCounter)
    (buf : List Nat) : Option (List Nat) :=
  (put_code 256 buf "CFGc").bind fun buf =>
  (MaliVideoDriver.marshalEnable enc mCounters MaliVideoCounterType.MVCT_COUNTER 256 buf).bind
    fun buf =>
  (put_code 256 buf "CFGe").bind fun buf =>
  MaliVideoDriver.marshalEnable enc mCounters MaliVideoCounterType.MVCT_EVENT 256 buf

/-- Lines 183-226 of `MaliVideoDriver::start`: the handshake built in `char buf[256]`,
as the bytes `buf[0..pos)`.  `mSampleRate` and `mLiveRate` are the fields of
`gSessionData`. -/
def MaliVideoDriver.start_buffer (enc : Int → List Nat) (mCounters : List MaliVideoCounter)
    (mSampleRate mLiveRate : Int) : Option (List Nat) :=
  (MaliVideoDriver.start_startup enc []).bind fun buf =>
  (MaliVideoDriver.start_configure enc buf).bind fun buf =>
  (MaliVideoDriver.start_rates enc mSampleRate mLiveRate buf).bind fun buf =>
  MaliVideoDriver.start_enable enc mCounters buf

/-- Conversion of an integer to the C type `int` (32 bits, two's complement). -/
def to_int32 (x : Int) : Int :=
  (x + 2 ^ 31) % 2 ^ 32 - 2 ^ 31

/-- The write loop of `MaliVideoDriver::start`, lines 242-252, with `written` bytes
sent so far and the results of the coming `::write` calls.  `size_bits` is the width
of `size_t`.  Returns the value returned by `start` (`false` goes with the logged
message `write failed`) and the `::write` calls made, each as (offset into `buf`,
count); `none` when more calls are made than results are given. -/
def MaliVideoDriver.start_write_loop (size_bits : Nat) (pos : Int) :
    List Int → Int → Option (Bool × List (Int × Int))
  | [], written => if written < pos then none else some (true, [])
  | r :: rest, written =>
    if written < pos then
      let bytes : Int := r % 2 ^ size_bits
      if bytes ≤ 0 then some (false, [(written, pos - written)])
      else
        (MaliVideoDriver.start_write_loop size_bits pos rest
          (to_int32 ((written % 2 ^ size_bits + bytes) % 2 ^ size_bits))).map
          fun p => (p.1, (written, pos - written) :: p.2)
    else some (true, [])

/-- Function `MaliVideoDriver::start`, lines 182-253. -/
def MaliVideoDriver.start (enc : Int → List Nat) (size_bits : Nat)
    (mCounters : List MaliVideoCounter) (mSampleRate mLiveRate : Int) (write_results : List Int) :
    Option (Bool × List (Int × Int)) :=
  match MaliVideoDriver.start_buffer enc mCounters mSampleRate mLiveRate with
  | none => none
  | some buf => MaliVideoDriver.start_write_loop size_bits buf.length write_results 0

/-- A 4-byte little-endian encoding of the low 32 bits of an integer, used for
concrete runs. -/
def le32 (x : Int) : List Nat :=
  let n := (x % 2 ^ 32).toNat
  [n % 256, n / 256 % 256, n / 65536 % 256, n / 16777216 % 256]

/-! ## The kernel-module counter provider (`daemon/KMod.cpp`) -/

/-- What `KMod::setupCounter` sees of the driver files of one counter through
`Collector::writeReadDriver`, `Collector::readIntDriver` and `access` (the
`Collector` functions are not among the sources). -/
structure KModDriver where
  /-- `writeReadDriver(".../enabled", &enabled)`: the return value and the value left
  in `enabled`, for the value written -/
  writeReadEnabled : Int → Int × Int
  /-- the value `readIntDriver(".../key", &key)` leaves in `key` -/
  readKey : Int
  /-- whether `access(".../count", F_OK) == 0` -/
  countExists : Bool
  /-- `writeReadDriver(".../count", &count)`: the return value and the value left in
  `count`, for the value written -/
  writeReadCount : Int → Int × Int

/-- How `KMod::setupCounter` ends: it returns, leaving the request as given, or
`handleException()` is called after `logError` (the session is aborted). -/
inductive SetupOutcome where
  | returned (counter : Counter)
  | exception (message : String)
  deriving DecidableEq, Repr

/-- Function `KMod::setupCounter`, lines 48-81.  The write of the event number at
line 66 changes only the driver and is not part of the outcome. -/
def KMod.setupCounter (drv : KModDriver) (counter : Counter) : SetupOutcome :=
  let r := drv.writeReadEnabled 1
  if r.1 ≠ 0 ∨ r.2 = 0 then SetupOutcome.returned { counter with mEnabled := false }
  else
    let counter1 := { counter with mKey := drv.readKey }
    if counter1.ebsCapable then
      if drv.countExists then
        let rc := drv.writeReadCount counter1.mCount
        if rc.1 ≠ 0 ∧ counter1.mCount > 0 then
          SetupOutcome.exception "Cannot enable EBS for %s:%s with a count of %d"
        else SetupOutcome.returned { counter1 with mCount := rc.2 }
      else if counter1.mCount > 0 then
        SetupOutcome.exception
          "Event Based Sampling is only supported with kernel versions 3.0.0 and higher with CONFIG_PERF_EVENTS=y, and CONFIG_HW_PERF_EVENTS=y"
      else SetupOutcome.returned counter1
    else SetupOutcome.returned counter1

/-- Lines 155-157 of `translate_app_process`: the state after the two
`translate_buffer_write_int` calls and `schedule_work`. -/
def translate_enqueue (cpu task vma : Nat) (s : State) : State :=
  { translate_buffer_write_int cpu vma (translate_buffer_write_int cpu task s) with
    cookie_work_scheduled := true }

/-- A session on one CPU whose translate queue holds 63 pending pairs, the most the
ring of 128 words can represent: the pairs `(1000, 1001), (1002, 1003), ...` from
index 0 up to the write index 126. -/
def full_queue_state : State :=
  { session_start 1 with
    translate_buffer := fun _ i => 1000 + i
    translate_buffer_write := fun _ => 126 }

/-- A process whose argument area starts 7 bytes before the end of a page and holds
the text `zygote` and a NUL there, the following page being unreadable. -/
def zygote_mm : mm_struct :=
  { arg_start := 0xbeffeff9, arg_end := 0xbeffeff9 + 20,
    page_present := fun p => p == 0xbeffe,
    mem := fun a => ("zygote".toList.map Char.toNat).getD (a - 0xbeffeff9) 0 }

/-- A call from process context for the mapped file `app_process` of a process with
the argument area `zygote_mm`. -/
def zygote_call : Call :=
  { in_irq := false, task := { ptr := 4096, tgid := 1, mm := some zygote_mm },
    vma := vma_of_name 8192 "app_process", mod := none }

/-- A heap in which every queued task pointer designates a task without address
space and every queued vma pointer a mapping of `app_process`. -/
def sample_heap : Heap :=
  { task_at := fun p => { ptr := p, tgid := 1, mm := none },
    vma_at := fun _ => vma_of_name 8192 "app_process" }

/-- A session on one CPU whose translate queue holds the two pairs (1000, 8192) and
(1001, 8193). -/
def two_pending_state : State :=
  translate_enqueue 0 1001 8193 (translate_enqueue 0 1000 8192 (session_start 1))

/-- The provider ids of the counters of `mCounters` that are enabled and of type
`type`, in list order. -/
def enabled_ids (mCounters : List MaliVideoCounter) (type : MaliVideoCounterType) : List Int :=
  (mCounters.filter fun m => m.mEnabled && (m.mType == type)).map fun m => m.mId

/-- The bytes `bytes` appended to a buffer of capacity `bufsize`, when they fit. -/
def fits_append (bufsize : Nat) (buf bytes : List Nat) : Option (List Nat) :=
  if buf.length + bytes.length ≤ bufsize then some (buf ++ bytes) else none

/-- The bytes of an enable list as the spec lays it out: the length `4 * k` and the
ids of the `k` enabled counters of the type, each encoded by `enc`. -/
def enable_payload (enc : Int → List Nat) (mCounters : List MaliVideoCounter)
    (type : MaliVideoCounterType) : List Nat :=
  enc (4 * (enabled_ids mCounters type).length) ++
    (enabled_ids mCounters type).flatMap enc

/-- The bytes of the handshake as the spec lays it out: the `CLNT` record, the `CNFG`
record with the given sample-rate and live-rate fields, and the two enable lists. -/
def handshake_frame (enc : Int → List Nat) (mCounters : List MaliVideoCounter)
    (sample_rate live_rate : Int) : List Nat :=
  "CLNT".toList.map Char.toNat ++ enc 4 ++ enc 1 ++
  "CNFG".toList.map Char.toNat ++ enc 20 ++ enc MVE_INSTR_CONFIGURATION ++ enc 1 ++ enc 1 ++
  enc sample_rate ++ enc live_rate ++
  "CFGc".toList.map Char.toNat ++ enable_payload enc mCounters MaliVideoCounterType.MVCT_COUNTER ++
  "CFGe".toList.map Char.toNat ++ enable_payload enc mCounters MaliVideoCounterType.MVCT_EVENT

/-! ## Views used for the write loop, unit isolation and the queue invariant -/

/-- Whether `results` holds a result for every `::write` call that the loop of
`MaliVideoDriver::start` makes when started with `written` bytes sent, each a positive
byte count that is no larger than the count the call was asked to write
(`pos - written`). -/
def writes_valid (pos : Int) : List Int → Int → Bool
  | [], written => decide (pos ≤ written)
  | r :: rest, written =>
    if written < pos then
      decide (0 < r) && decide (r ≤ pos - written) && writes_valid pos rest (written + r)
    else true

/-- The bytes of `buf` accepted by the `::write` calls `calls` (offset, count) whose
results are `results`: call `k` accepts the first `results[k]` bytes from its
offset. -/
def accepted_bytes (buf : List Nat) : List (Int × Int) → List Int → List Nat
  | [], _ => []
  | _ :: _, [] => []
  | c :: calls, r :: results =>
    (buf.drop c.1.toNat).take r.toNat ++ accepted_bytes buf calls results

/-- What belongs to unit `j` in the claims on unit isolation: its cookie cache (keys
and values), its cookie counter, its translate queue (buffer, read and write index)
and its output buffer. -/
def unit_view (s : State) (j : Nat) :
    (Nat → Nat) × (Nat → Nat) × Nat × (Nat → Nat) × Nat × Nat × List BufItem :=
  (s.cookie_keys j, s.cookie_values j, s.cookie_next_key j, s.translate_buffer j,
   s.translate_buffer_read j, s.translate_buffer_write j, s.gator_buffer j)

/-- One operation on the translate queue of a unit: an enqueue (the interrupt-context
branch of `translate_app_process` for a task and a vma pointer) or a run of
`wq_cookie_handler` (with the kernel objects behind the queued pointers). -/
inductive QueueOp where
  | enqueue (task : task_struct) (vma : Nat)
  | worker (heap : Heap)

/-- A sequence of queue operations on CPU `cpu`, in order; `none` when one of them
has no defined result. -/
def queue_run (cfg : Config) (cpu : Nat) : List QueueOp → State → Option State
  | [], s => some s
  | QueueOp.enqueue task vma :: ops, s =>
    match translate_app_process true (TextPtr.name str_app_process) cpu task vma s with
    | none => none
    | some (_, _, s1) => queue_run cfg cpu ops s1
  | QueueOp.worker heap :: ops, s =>
    match wq_cookie_handler cfg heap cpu s with
    | none => none
    | some (_, s1) => queue_run cfg cpu ops s1

/-! ## The interrupt counters (`gator_events_irq.c`) -/

/-- Constant `#define HARDIRQ 0`. -/
def HARDIRQ : Nat := 0

/-- Constant `#define SOFTIRQ 1`. -/
def SOFTIRQ : Nat := 1

/-- Constant `#define TOTALIRQ (SOFTIRQ+1)`. -/
def TOTALIRQ : Nat := SOFTIRQ + 1

/-- The static and per-CPU variables of `gator_events_irq.c`, lines 17-23. -/
structure IrqState where
  /-- Variable `static ulong hardirq_enabled` -/
  hardirq_enabled : Nat
  /-- Variable `static ulong softirq_enabled` -/
  softirq_enabled : Nat
  /-- Variable `static ulong hardirq_key` -/
  hardirq_key : Nat
  /-- Variable `static ulong softirq_key` -/
  softirq_key : Nat
  /-- Variable `DEFINE_PER_CPU(int[TOTALIRQ], irqCnt)` -/
  irqCnt : Nat → Nat → Int
  /-- Variable `DEFINE_PER_CPU(int[TOTALIRQ], irqPrev)` -/
  irqPrev : Nat → Nat → Int
  /-- Variable `DEFINE_PER_CPU(int[TOTALIRQ * 2], irqGet)` -/
  irqGet : Nat → Nat → Int

/-- Lines 137-147 of `gator_events_irq_read`: the block of the hard-irq counter, entered
with the current `len`. -/
def gator_events_irq_read_hard (cpu : Nat) (s : IrqState) (len : Nat) : Nat × IrqState :=
  if s.hardirq_enabled ≠ 0 then
    let value := s.irqCnt cpu HARDIRQ
    let s1 := { s with irqCnt := store s.irqCnt cpu (store (s.irqCnt cpu) HARDIRQ 0) }
    if value ≠ s1.irqPrev cpu HARDIRQ then
      let s2 := { s1 with irqPrev := store s1.irqPrev cpu (store (s1.irqPrev cpu) HARDIRQ value) }
      let s3 := { s2 with
        irqGet := store s2.irqGet cpu (store (s2.irqGet cpu) len (to_int32 s2.hardirq_key)) }
      let s4 := { s3 with irqGet := store s3.irqGet cpu (store (s3.irqGet cpu) (len + 1) value) }
      (len + 2, s4)
    else (len, s1)
  else (len, s)

/-- Lines 149-159 of `gator_events_irq_read`: the block of the soft-irq counter, entered
with the current `len`. -/
def gator_events_irq_read_soft (cpu : Nat) (s : IrqState) (len : Nat) : Nat × IrqState :=
  if s.softirq_enabled ≠ 0 then
    let value := s.irqCnt cpu SOFTIRQ
    let s1 := { s with irqCnt := store s.irqCnt cpu (store (s.irqCnt cpu) SOFTIRQ 0) }
    if value ≠ s1.irqPrev cpu SOFTIRQ then
      let s2 := { s1 with irqPrev := store s1.irqPrev cpu (store (s1.irqPrev cpu) SOFTIRQ value) }
      let s3 := { s2 with
        irqGet := store s2.irqGet cpu (store (s2.irqGet cpu) len (to_int32 s2.softirq_key)) }
      let s4 := { s3 with irqGet := store s3.irqGet cpu (store (s3.irqGet cpu) (len + 1) value) }
      (len + 2, s4)
    else (len, s1)
  else (len, s)

/-- Function `gator_events_irq_read`, lines 130-165, on CPU `cpu`: the returned `len`
and the state; `*buffer` is set to the `irqGet` array of the CPU. -/
def gator_events_irq_read (cpu : Nat) (s : IrqState) : Nat × IrqState :=
  let r1 := gator_events_irq_read_hard cpu s 0
  gator_events_irq_read_soft cpu r1.2 r1.1

/-- The pairs (key, count) that a read of CPU `cpu` reports: one for each enabled
counter whose count differs from the value last reported, the hard-irq pair first.
The key is the `ulong` key converted to `int`, the element type of `irqGet`. -/
def irq_pairs (cpu : Nat) (s : IrqState) : List (Int × Int) :=
  (if s.hardirq_enabled ≠ 0 ∧ s.irqCnt cpu HARDIRQ ≠ s.irqPrev cpu HARDIRQ then
    [(to_int32 s.hardirq_key, s.irqCnt cpu HARDIRQ)] else []) ++
  (if s.softirq_enabled ≠ 0 ∧ s.irqCnt cpu SOFTIRQ ≠ s.irqPrev cpu SOFTIRQ then
    [(to_int32 s.softirq_key, s.irqCnt cpu SOFTIRQ)] else [])

/-- The first `len` words of a result buffer, as pairs. -/
def buffer_pairs (buf : Nat → Int) : Nat → List (Int × Int)
  | 0 => []
  | n + 1 => buffer_pairs buf n ++ [(buf (2 * n), buf (2 * n + 1))]

/-! ## Basic facts about stores and the two shift loops -/

@[simp] theorem store_same {α : Type} (m : Nat → α) (i : Nat) (v : α) : store m i v i = v := by
  simp [store]

theorem store_other {α : Type} (m : Nat → α) (i j : Nat) (v : α) (h : j ≠ i) :
    store m i v j = m j := by
  simp [store, h]

theorem cookiemap_exists_shift_keys (base : Nat) :
    ∀ (x : Nat) (keys values : Nat → Nat) (j : Nat),
      (cookiemap_exists_shift base x keys values).1 j =
        if base < j ∧ j ≤ base + x then keys (j - 1) else keys j := by
  intro x
  induction x with
  | zero =>
    intro keys values j
    have h0 : ¬ (base < j ∧ j ≤ base + 0) := by omega
    rw [if_neg h0]
    rfl
  | succ x ih =>
    intro keys values j
    rw [cookiemap_exists_shift, ih]
    by_cases h1 : base < j ∧ j ≤ base + x
    · have h2 : base < j ∧ j ≤ base + (x + 1) := by omega
      rw [if_pos h1, if_pos h2, store_other]
      omega
    · rw [if_neg h1]
      by_cases h3 : j = base + (x + 1)
      · have h2 : base < j ∧ j ≤ base + (x + 1) := by omega
        rw [if_pos h2, h3, store_same]
        rfl
      · have h2 : ¬ (base < j ∧ j ≤ base + (x + 1)) := by omega
        rw [if_neg h2, store_other _ _ _ _ h3]

theorem cookiemap_exists_shift_values (base : Nat) :
    ∀ (x : Nat) (keys values : Nat → Nat) (j : Nat),
      (cookiemap_exists_shift base x keys values).2 j =
        if base < j ∧ j ≤ base + x then values (j - 1) else values j := by
  intro x
  induction x with
  | zero =>
    intro keys values j
    have h0 : ¬ (base < j ∧ j ≤ base + 0) := by omega
    rw [if_neg h0]
    rfl
  | succ x ih =>
    intro keys values j
    rw [cookiemap_exists_shift, ih]
    by_cases h1 : base < j ∧ j ≤ base + x
    · have h2 : base < j ∧ j ≤ base + (x + 1) := by omega
      rw [if_pos h1, if_pos h2, store_other]
      omega
    · rw [if_neg h1]
      by_cases h3 : j = base + (x + 1)
      · have h2 : base < j ∧ j ≤ base + (x + 1) := by omega
        rw [if_pos h2, h3, store_same]
        rfl
      · have h2 : ¬ (base < j ∧ j ≤ base + (x + 1)) := by omega
        rw [if_neg h2, store_other _ _ _ _ h3]

/-- The scan of `cookiemap_exists` stops at the first slot `v` that holds the key. -/
theorem cookiemap_exists_loop_found (key base : Nat) (keys values : Nat → Nat) (v : Nat)
    (hfound : keys (base + v) = key) :
    ∀ (n x : Nat), x ≤ v → v < x + n → (∀ u, x ≤ u → u < v → keys (base + u) ≠ key) →
      cookiemap_exists_loop key base keys values n x =
        (values (base + v),
         store (cookiemap_exists_shift base v keys values).1 base key,
         store (cookiemap_exists_shift base v keys values).2 base (values (base + v))) := by
  intro n
  induction n with
  | zero => intro x h1 h2; omega
  | succ n ih =>
    intro x h1 h2 hfirst
    rw [cookiemap_exists_loop]
    by_cases hx : keys (base + x) = key
    · have hxv : x = v := by
        by_contra hne
        exact hfirst x (Nat.le_refl x) (by omega) hx
      subst hxv
      rw [if_pos hx]
    · rw [if_neg hx]
      have hxv : x ≠ v := fun h => hx (h ▸ hfound)
      exact ih (x + 1) (by omega) (by omega) (fun u hu1 hu2 => hfirst u (by omega) hu2)

/-- The scan of `cookiemap_exists` returns 0 and changes nothing when no slot holds the key. -/
theorem cookiemap_exists_loop_miss (key base : Nat) (keys values : Nat → Nat) :
    ∀ (n x : Nat), (∀ u, x ≤ u → u < x + n → keys (base + u) ≠ key) →
      cookiemap_exists_loop key base keys values n x = (0, keys, values) := by
  intro n
  induction n with
  | zero => intro x _; rfl
  | succ n ih =>
    intro x hmiss
    rw [cookiemap_exists_loop, if_neg (hmiss x (Nat.le_refl x) (by omega))]
    exact ih (x + 1) (fun u hu1 hu2 => hmiss u (by omega) (by omega))

/-- What `cookiemap_exists` does on a hit at slot `v`, as equations on the whole
state. -/
theorem cookiemap_exists_hit (cpu key : Nat) (s : State) (v : Nat)
    (hv : v < MAX_COLLISIONS)
    (hfound : s.cookie_keys cpu (cookiemap_code key + v) = key)
    (hfirst : ∀ u, u < v → s.cookie_keys cpu (cookiemap_code key + u) ≠ key) :
    cookiemap_exists cpu key s =
      (s.cookie_values cpu (cookiemap_code key + v),
       { s with
         cookie_keys := store s.cookie_keys cpu
           (store (cookiemap_exists_shift (cookiemap_code key) v
             (s.cookie_keys cpu) (s.cookie_values cpu)).1 (cookiemap_code key) key)
         cookie_values := store s.cookie_values cpu
           (store (cookiemap_exists_shift (cookiemap_code key) v
             (s.cookie_keys cpu) (s.cookie_values cpu)).2 (cookiemap_code key)
             (s.cookie_values cpu (cookiemap_code key + v))) }) := by
  unfold cookiemap_exists
  simp only []
  rw [cookiemap_exists_loop_found key (cookiemap_code key) (s.cookie_keys cpu)
    (s.cookie_values cpu) v hfound MAX_COLLISIONS 0 (Nat.zero_le v) (by omega)
    (fun u _ hu => hfirst u hu)]

/-- What `cookiemap_exists` does on a miss: it returns 0 and the arrays keep their
contents. -/
theorem cookiemap_exists_miss (cpu key : Nat) (s : State)
    (hmiss : ∀ u, u < MAX_COLLISIONS → s.cookie_keys cpu (cookiemap_code key + u) ≠ key) :
    cookiemap_exists cpu key s =
      (0, { s with
        cookie_keys := store s.cookie_keys cpu (s.cookie_keys cpu)
        cookie_values := store s.cookie_values cpu (s.cookie_values cpu) }) := by
  unfold cookiemap_exists
  simp only []
  rw [cookiemap_exists_loop_miss key (cookiemap_code key) (s.cookie_keys cpu)
    (s.cookie_values cpu) MAX_COLLISIONS 0 (fun u _ hu => hmiss u (by omega))]

theorem store_self {α : Type} (m : Nat → α) (i : Nat) : store m i (m i) = m := by
  funext j
  by_cases h : j = i
  · subst h; simp
  · exact store_other m i j _ h

/-- What `cookiemap_add` leaves in the key's bucket, for every state: slot 0 holds the
new pair, and slot 1 holds the key formerly in slot 0 paired with that key truncated
to 32 bits (not with the cookie formerly in slot 0). -/
theorem cookiemap_add_bucket (cpu key value : Nat) (s : State) :
    bucket (cookiemap_add cpu key value s) cpu key =
      [(key, value),
       (s.cookie_keys cpu (cookiemap_code key), s.cookie_keys cpu (cookiemap_code key) % 2 ^ 32)] := by
  have h2 : MAX_COLLISIONS = 2 := rfl
  have hr : List.range 2 = [0, 1] := rfl
  unfold bucket cookiemap_add
  rw [h2, hr]
  simp [cookiemap_add_shift, store]

/-! ## The cookie map: `cookiemap_add` and `cookiemap_exists` -/

/-- C1. On a zeroed cache, after `cookiemap_add(5, 7)` and `cookiemap_add(2^32 + 4, 9)`
(two keys of the same bucket), key 5 is still present in its bucket, in slot 1, and
`cookiemap_exists(5)` returns 5, the low 32 bits of the key, instead of the cookie 7
that was added with it. -/
theorem cookiemap_exists_returns_truncated_key :
    cookiemap_code 5 = cookiemap_code (2 ^ 32 + 4) ∧
    (cookiemap_add 0 (2 ^ 32 + 4) 9 (cookiemap_add 0 5 7 (session_start 1))).cookie_keys 0
      (cookiemap_code 5 + 1) = 5 ∧
    (cookiemap_exists 0 5
      (cookiemap_add 0 (2 ^ 32 + 4) 9 (cookiemap_add 0 5 7 (session_start 1)))).1 = 5 := by
  decide

/-- C2. After `cookiemap_add(5, 7)` the bucket is `[(5, 7), (0, 0)]`; a further
`cookiemap_add(2^32 + 4, 9)` leaves `[(2^32 + 4, 9), (5, 5)]`: slot 1 receives the
key of the former slot 0 but not its cookie 7, the value stored is the key
truncated to 32 bits. -/
theorem cookiemap_add_shifts_key_into_value :
    bucket (cookiemap_add 0 5 7 (session_start 1)) 0 5 = [(5, 7), (0, 0)] ∧
    bucket (cookiemap_add 0 (2 ^ 32 + 4) 9 (cookiemap_add 0 5 7 (session_start 1))) 0 5 =
      [(2 ^ 32 + 4, 9), (5, 5)] := by
  decide

/-- C3. A hit of `cookiemap_exists` at slot `v` (the first slot of the key's bucket
that holds the key) returns the cookie stored there and moves the entry to the
front: slot 0 then holds the found pair, slots `1..v` hold the pairs formerly in
slots `0..v-1`, every other array element is unchanged, and the bucket holds the
same pairs as before. -/
theorem cookiemap_exists_moves_hit_to_front (cpu key : Nat) (s : State) (v : Nat)
    (hv : v < MAX_COLLISIONS)
    (hfound : s.cookie_keys cpu (cookiemap_code key + v) = key)
    (hfirst : ∀ u, u < v → s.cookie_keys cpu (cookiemap_code key + u) ≠ key) :
    (cookiemap_exists cpu key s).1 = s.cookie_values cpu (cookiemap_code key + v) ∧
    (cookiemap_exists cpu key s).2.cookie_keys cpu (cookiemap_code key) = key ∧
    (cookiemap_exists cpu key s).2.cookie_values cpu (cookiemap_code key) =
      s.cookie_values cpu (cookiemap_code key + v) ∧
    (∀ x, 1 ≤ x → x ≤ v →
      (cookiemap_exists cpu key s).2.cookie_keys cpu (cookiemap_code key + x) =
        s.cookie_keys cpu (cookiemap_code key + (x - 1)) ∧
      (cookiemap_exists cpu key s).2.cookie_values cpu (cookiemap_code key + x) =
        s.cookie_values cpu (cookiemap_code key + (x - 1))) ∧
    (∀ i, i < cookiemap_code key ∨ cookiemap_code key + v < i →
      (cookiemap_exists cpu key s).2.cookie_keys cpu i = s.cookie_keys cpu i ∧
      (cookiemap_exists cpu key s).2.cookie_values cpu i = s.cookie_values cpu i) ∧
    List.Perm (bucket (cookiemap_exists cpu key s).2 cpu key) (bucket s cpu key) := by
  have hk : ∀ j, (cookiemap_exists cpu key s).2.cookie_keys cpu j =
      if j = cookiemap_code key then key
      else if cookiemap_code key < j ∧ j ≤ cookiemap_code key + v then s.cookie_keys cpu (j - 1)
      else s.cookie_keys cpu j := by
    intro j
    rw [cookiemap_exists_hit cpu key s v hv hfound hfirst]
    simp only [store_same]
    by_cases hj : j = cookiemap_code key
    · rw [if_pos hj, hj, store_same]
    · rw [if_neg hj, store_other _ _ _ _ hj, cookiemap_exists_shift_keys]
  have hw : ∀ j, (cookiemap_exists cpu key s).2.cookie_values cpu j =
      if j = cookiemap_code key then s.cookie_values cpu (cookiemap_code key + v)
      else if cookiemap_code key < j ∧ j ≤ cookiemap_code key + v then s.cookie_values cpu (j - 1)
      else s.cookie_values cpu j := by
    intro j
    rw [cookiemap_exists_hit cpu key s v hv hfound hfirst]
    simp only [store_same]
    by_cases hj : j = cookiemap_code key
    · rw [if_pos hj, hj, store_same]
    · rw [if_neg hj, store_other _ _ _ _ hj, cookiemap_exists_shift_values]
  refine ⟨?_, ?_, ?_, ?_, ?_, ?_⟩
  · rw [cookiemap_exists_hit cpu key s v hv hfound hfirst]
  · rw [hk, if_pos rfl]
  · rw [hw, if_pos rfl]
  · intro x h1 h2
    have hne : cookiemap_code key + x ≠ cookiemap_code key := by omega
    have hin : cookiemap_code key < cookiemap_code key + x ∧
        cookiemap_code key + x ≤ cookiemap_code key + v := by omega
    have hsub : cookiemap_code key + x - 1 = cookiemap_code key + (x - 1) := by omega
    rw [hk, hw, if_neg hne, if_neg hne, if_pos hin, if_pos hin, hsub]
    exact ⟨rfl, rfl⟩
  · intro i hi
    have hne : i ≠ cookiemap_code key := by omega
    have hout : ¬ (cookiemap_code key < i ∧ i ≤ cookiemap_code key + v) := by omega
    rw [hk, hw, if_neg hne, if_neg hne, if_neg hout, if_neg hout]
    exact ⟨rfl, rfl⟩
  · have h2 : MAX_COLLISIONS = 2 := rfl
    have hr : List.range 2 = [0, 1] := rfl
    unfold bucket
    rw [h2, hr]
    simp only [List.map_cons, List.map_nil, Nat.add_zero, hk, hw]
    have hv2 : v = 0 ∨ v = 1 := by omega
    rcases hv2 with h0 | h1
    · subst h0
      simp only [Nat.add_zero] at hfound ⊢
      simp [hfound]
    · subst h1
      simp
      rw [hfound]
      exact List.Perm.swap _ _ _

/-- C3, at a concrete input: in the bucket `[(2^32 + 4, 9), (5, 5)]` the key 5 is
found in slot 1; the lookup returns the value of that slot and puts the key in
slot 0. -/
theorem cookiemap_exists_moves_hit_to_front_witness :
    (1 < MAX_COLLISIONS ∧
      (cookiemap_add 0 (2 ^ 32 + 4) 9 (cookiemap_add 0 5 7 (session_start 1))).cookie_keys 0
        (cookiemap_code 5 + 1) = 5) ∧
    (cookiemap_exists 0 5
      (cookiemap_add 0 (2 ^ 32 + 4) 9 (cookiemap_add 0 5 7 (session_start 1)))).2.cookie_keys 0
        (cookiemap_code 5) = 5 :=
  ⟨⟨by decide, by decide⟩,
   (cookiemap_exists_moves_hit_to_front 0 5
      (cookiemap_add 0 (2 ^ 32 + 4) 9 (cookiemap_add 0 5 7 (session_start 1))) 1
      (by decide) (by decide) (by decide)).2.1⟩

/-- C6. With `A = 2^32` (owner id 0), `B = 1` and `C = 2^33 + 2^32 - 1`, three
distinct keys of one bucket, and the non-zero cookies 7, 8, 9: after add A, add B,
lookup A, add C, the lookup of C returns 9 and the lookup of B returns 0, but the
lookup of A returns 0 as well, although A is still in the bucket. -/
theorem lru_scenario_loses_cookie_of_promoted_key :
    cookiemap_code (2 ^ 32) = cookiemap_code 1 ∧
    cookiemap_code (2 ^ 32) = cookiemap_code (2 ^ 33 + 2 ^ 32 - 1) ∧
    (cookiemap_exists 0 (2 ^ 32)
      (cookiemap_add 0 (2 ^ 33 + 2 ^ 32 - 1) 9
        (cookiemap_exists 0 (2 ^ 32)
          (cookiemap_add 0 1 8 (cookiemap_add 0 (2 ^ 32) 7 (session_start 1)))).2)).1 = 0 ∧
    (cookiemap_exists 0 (2 ^ 33 + 2 ^ 32 - 1)
      (cookiemap_add 0 (2 ^ 33 + 2 ^ 32 - 1) 9
        (cookiemap_exists 0 (2 ^ 32)
          (cookiemap_add 0 1 8 (cookiemap_add 0 (2 ^ 32) 7 (session_start 1)))).2)).1 = 9 ∧
    (cookiemap_exists 0 1
      (cookiemap_add 0 (2 ^ 33 + 2 ^ 32 - 1) 9
        (cookiemap_exists 0 (2 ^ 32)
          (cookiemap_add 0 1 8 (cookiemap_add 0 (2 ^ 32) 7 (session_start 1)))).2)).1 = 0 ∧
    bucket
      (cookiemap_add 0 (2 ^ 33 + 2 ^ 32 - 1) 9
        (cookiemap_exists 0 (2 ^ 32)
          (cookiemap_add 0 1 8 (cookiemap_add 0 (2 ^ 32) 7 (session_start 1)))).2) 0 1 =
      [(2 ^ 33 + 2 ^ 32 - 1, 9), (2 ^ 32, 0)] := by
  decide

/-- C7. With `K1 = 1`, `K2 = 2^32` (owner id 0) and `K3 = 2^33 + 2^32 - 1`, three
distinct keys of one bucket, added in this order with the non-zero cookies 7, 8, 9:
the lookup of K1 returns 0 and the lookup of K3 returns 9, but the lookup of K2,
one of the two keys still in the bucket, returns 0. -/
theorem eviction_scenario_loses_cookie_of_shifted_key :
    cookiemap_code 1 = cookiemap_code (2 ^ 32) ∧
    cookiemap_code 1 = cookiemap_code (2 ^ 33 + 2 ^ 32 - 1) ∧
    (cookiemap_exists 0 1
      (cookiemap_add 0 (2 ^ 33 + 2 ^ 32 - 1) 9
        (cookiemap_add 0 (2 ^ 32) 8 (cookiemap_add 0 1 7 (session_start 1))))).1 = 0 ∧
    (cookiemap_exists 0 (2 ^ 32)
      (cookiemap_add 0 (2 ^ 33 + 2 ^ 32 - 1) 9
        (cookiemap_add 0 (2 ^ 32) 8 (cookiemap_add 0 1 7 (session_start 1))))).1 = 0 ∧
    (cookiemap_exists 0 (2 ^ 33 + 2 ^ 32 - 1)
      (cookiemap_add 0 (2 ^ 33 + 2 ^ 32 - 1) 9
        (cookiemap_add 0 (2 ^ 32) 8 (cookiemap_add 0 1 7 (session_start 1))))).1 = 9 ∧
    bucket
      (cookiemap_add 0 (2 ^ 33 + 2 ^ 32 - 1) 9
        (cookiemap_add 0 (2 ^ 32) 8 (cookiemap_add 0 1 7 (session_start 1)))) 0 1 =
      [(2 ^ 33 + 2 ^ 32 - 1, 9), (2 ^ 32, 0)] := by
  decide

/-! ## The cookie counter -/

/-- Closed form of the counter: after `k` allocations on CPU `cpu` it holds
`nr_cpu_ids + cpu + k * nr_cpu_ids` reduced modulo `2^32`. -/
theorem nth_cookie_eq (N cpu : Nat) : ∀ k, nth_cookie N cpu k = (N + cpu + k * N) % 2 ^ 32 := by
  intro k
  induction k with
  | zero => simp [nth_cookie, cookie_seed]
  | succ k ih =>
    rw [nth_cookie, ih, cookie_alloc, Nat.mod_add_mod]
    congr 1
    ring

/-- C8, as stated, fails: with 3 CPUs the first cookie allocated on CPU 0 is 6, and
the 1431655766-th cookie allocated on CPU 1 is 6 as well, the 32-bit counter having
wrapped around. -/
theorem cookie_of_two_units_collide_after_wraparound :
    (0 < 3 ∧ 1 < 3) ∧ nth_cookie 3 0 1 = 6 ∧ nth_cookie 3 1 1431655766 = 6 := by
  refine ⟨by decide, ?_, ?_⟩
  · rw [nth_cookie_eq]; rfl
  · rw [nth_cookie_eq]; rfl

/-- C8, amended. For two different CPUs `i, j < nr_cpu_ids`, the cookie of the `k`-th
allocation on CPU `i` differs from the cookie of the `l`-th allocation on CPU `j`, as
long as neither counter has overflowed 32 bits, or whenever `nr_cpu_ids` divides
`2^32`. -/
theorem cookies_distinct_across_units (N i j k l : Nat) (hi : i < N) (hj : j < N) (hij : i ≠ j)
    (h : (N + i + k * N < 2 ^ 32 ∧ N + j + l * N < 2 ^ 32) ∨ N ∣ 2 ^ 32) :
    nth_cookie N i k ≠ nth_cookie N j l := by
  rw [nth_cookie_eq, nth_cookie_eq]
  intro heq
  have hmod : (N + i + k * N) % N = (N + j + l * N) % N := by
    rcases h with ⟨h1, h2⟩ | hd
    · rw [Nat.mod_eq_of_lt h1, Nat.mod_eq_of_lt h2] at heq
      rw [heq]
    · have h3 := congrArg (fun x => x % N) heq
      simp only [] at h3
      rw [Nat.mod_mod_of_dvd _ hd, Nat.mod_mod_of_dvd _ hd] at h3
      exact h3
  have e1 : (N + i + k * N) % N = i := by
    rw [Nat.add_mul_mod_self_right, Nat.add_mod_left, Nat.mod_eq_of_lt hi]
  have e2 : (N + j + l * N) % N = j := by
    rw [Nat.add_mul_mod_self_right, Nat.add_mod_left, Nat.mod_eq_of_lt hj]
  rw [e1, e2] at hmod
  exact hij hmod

/-- C8, amended, at a concrete input: with 4 CPUs, the third cookie of CPU 1 and the
fifth cookie of CPU 2 differ. -/
theorem cookies_distinct_across_units_witness :
    (1 < 4 ∧ 2 < 4) ∧ nth_cookie 4 1 3 ≠ nth_cookie 4 2 5 :=
  ⟨by decide, cookies_distinct_across_units 4 1 2 3 5 (by decide) (by decide) (by decide)
    (Or.inl (by decide))⟩

/-- C9, as stated, fails: on a single-CPU system the 4294967295-th allocation returns
0, which is `NO_COOKIE`. -/
theorem allocated_cookie_wraps_to_no_cookie :
    nth_cookie 1 0 4294967295 = NO_COOKIE := by
  rw [nth_cookie_eq]
  rfl

/-- C9, amended. With at least one CPU and `INVALID_COOKIE` a 32-bit value, the cookie
of the `k`-th allocation on CPU `cpu` is neither `NO_COOKIE` nor `INVALID_COOKIE` as
long as `nr_cpu_ids + cpu + k * nr_cpu_ids` is below `INVALID_COOKIE`, that is before
the counter reaches `INVALID_COOKIE` or wraps around. -/
theorem allocated_cookie_not_sentinel (cfg : Config) (cpu k : Nat)
    (hN : 1 ≤ cfg.nr_cpu_ids) (hinv : cfg.INVALID_COOKIE < 2 ^ 32)
    (hbound : cfg.nr_cpu_ids + cpu + k * cfg.nr_cpu_ids < cfg.INVALID_COOKIE) :
    nth_cookie cfg.nr_cpu_ids cpu k ≠ NO_COOKIE ∧
    nth_cookie cfg.nr_cpu_ids cpu k ≠ cfg.INVALID_COOKIE := by
  rw [nth_cookie_eq, Nat.mod_eq_of_lt (by omega)]
  unfold NO_COOKIE
  constructor <;> omega

/-- C9, amended, at a concrete input: the tenth cookie of CPU 1 of a 4-CPU system. -/
theorem allocated_cookie_not_sentinel_witness :
    (1 ≤ (sample_config 4).nr_cpu_ids ∧ (sample_config 4).INVALID_COOKIE < 2 ^ 32) ∧
    nth_cookie (sample_config 4).nr_cpu_ids 1 10 ≠ NO_COOKIE ∧
    nth_cookie (sample_config 4).nr_cpu_ids 1 10 ≠ (sample_config 4).INVALID_COOKIE :=
  ⟨by decide, allocated_cookie_not_sentinel (sample_config 4) 1 10 (by decide) (by decide)
    (by decide)⟩

/-! ## `get_cookie` -/

/-- A lookup either finds the key in a first slot `v` of its bucket or finds no slot
holding it. -/
theorem cookiemap_exists_cases (cpu key : Nat) (s : State) :
    (∃ v, v < MAX_COLLISIONS ∧ s.cookie_keys cpu (cookiemap_code key + v) = key ∧
      ∀ u, u < v → s.cookie_keys cpu (cookiemap_code key + u) ≠ key) ∨
    (∀ u, u < MAX_COLLISIONS → s.cookie_keys cpu (cookiemap_code key + u) ≠ key) := by
  by_cases h : ∃ v, v < MAX_COLLISIONS ∧ s.cookie_keys cpu (cookiemap_code key + v) = key
  · left
    refine ⟨Nat.find h, (Nat.find_spec h).1, (Nat.find_spec h).2, ?_⟩
    intro u hu hk
    exact Nat.find_min h hu ⟨Nat.lt_trans hu (Nat.find_spec h).1, hk⟩
  · right
    intro u hu hk
    exact h ⟨u, hu, hk⟩

/-- A lookup that finds the key in slot 0 returns the value of slot 0 and leaves the
state as it is. -/
theorem cookiemap_exists_front (cpu key : Nat) (s : State)
    (h0 : s.cookie_keys cpu (cookiemap_code key) = key) :
    cookiemap_exists cpu key s = (s.cookie_values cpu (cookiemap_code key), s) := by
  have hv : 0 < MAX_COLLISIONS := by decide
  rw [cookiemap_exists_hit cpu key s 0 hv h0 (fun u hu => absurd hu (Nat.not_lt_zero u))]
  simp only [cookiemap_exists_shift, Nat.add_zero]
  have e1 : store (s.cookie_keys cpu) (cookiemap_code key) key = s.cookie_keys cpu := by
    have e0 := store_self (s.cookie_keys cpu) (cookiemap_code key)
    rwa [h0] at e0
  rw [e1, store_self, store_self, store_self]

/-- After a lookup with a non-zero result the key and that result are in slot 0. -/
theorem cookiemap_exists_nonzero (cpu key : Nat) (s : State)
    (h : (cookiemap_exists cpu key s).1 ≠ 0) :
    (cookiemap_exists cpu key s).2.cookie_keys cpu (cookiemap_code key) = key ∧
    (cookiemap_exists cpu key s).2.cookie_values cpu (cookiemap_code key) =
      (cookiemap_exists cpu key s).1 := by
  rcases cookiemap_exists_cases cpu key s with ⟨v, hv, hfound, hfirst⟩ | hmiss
  · rw [cookiemap_exists_hit cpu key s v hv hfound hfirst]
    simp
  · rw [cookiemap_exists_miss cpu key s hmiss] at h
    exact absurd rfl h

theorem translate_app_process_cache_fields (in_irq : Bool) (text : TextPtr) (cpu : Nat)
    (task : task_struct) (vma : Nat) (s : State) (rv : Nat) (t1 : TextPtr) (s1 : State)
    (h : translate_app_process in_irq text cpu task vma s = some (rv, t1, s1)) :
    cache_fields s1 = cache_fields s := by
  unfold translate_app_process at h
  simp only [] at h
  repeat' (split at h)
  all_goals first | (cases h; rfl) | cases h

theorem get_cookie_translate_cache_fields (in_irq : Bool) (cpu : Nat) (task : task_struct)
    (vma : Option vm_area_struct) (mod : Option module) (text : List Nat) (s : State)
    (t : Option (List Nat)) (s1 : State)
    (h : get_cookie_translate in_irq cpu task vma mod text s = some (t, s1)) :
    cache_fields s1 = cache_fields s := by
  unfold get_cookie_translate at h
  split at h
  · split at h
    · cases h
    · rename_i rv t1 s2 heq
      have hc := translate_app_process_cache_fields _ _ _ _ _ _ _ _ _ heq
      split at h
      · cases h; exact hc
      · split at h
        · cases h
        · cases h; exact hc
  · cases h; rfl

/-- The insertion path of `get_cookie`: the cookie returned is the incremented
counter, it is stored with the key in slot 0 of the key's bucket, and one
define-symbol frame is appended to the CPU's output buffer. -/
theorem get_cookie_insert_spec (cfg : Config) (cpu key : Nat) (t : List Nat) (s : State) :
    (get_cookie_insert cfg cpu key t s).1 = cookie_alloc cfg.nr_cpu_ids (s.cookie_next_key cpu) ∧
    (get_cookie_insert cfg cpu key t s).2.cookie_keys cpu (cookiemap_code key) = key ∧
    (get_cookie_insert cfg cpu key t s).2.cookie_values cpu (cookiemap_code key) =
      cookie_alloc cfg.nr_cpu_ids (s.cookie_next_key cpu) ∧
    (get_cookie_insert cfg cpu key t s).2.gator_buffer cpu =
      s.gator_buffer cpu ++
        define_frame cfg (cookie_alloc cfg.nr_cpu_ids (s.cookie_next_key cpu)) t ∧
    (get_cookie_insert cfg cpu key t s).2.cookie_next_key cpu =
      cookie_alloc cfg.nr_cpu_ids (s.cookie_next_key cpu) ∧
    (get_cookie_insert cfg cpu key t s).2.gator_crc32_table = s.gator_crc32_table := by
  simp [get_cookie_insert, cookiemap_add, gator_buffer_write_packed_int,
    gator_buffer_write_string, define_frame]

theorem get_cookie_key_congr (s1 s2 : State) (text : List Nat) (task : task_struct)
    (h : s1.gator_crc32_table = s2.gator_crc32_table) :
    get_cookie_key s1 text task = get_cookie_key s2 text task := by
  unfold get_cookie_key
  rw [h]

/-- C4, amended. Two successive `get_cookie` calls for the same name and owner on the
same CPU, the name being available and the allocation not wrapping the counter to 0,
return the same cookie.  If the key was cached (the lookup of the first call returns
a non-zero value) that value is returned, no frame is appended and the counter is
not advanced; otherwise the two calls together append exactly one define-symbol
frame and advance the counter exactly once. -/
theorem get_cookie_twice_same_cookie (cfg : Config) (in_irq in_irq2 : Bool) (cpu : Nat)
    (task : task_struct) (vma : Option vm_area_struct) (mod : Option module) (s : State)
    (text t : List Nat)
    (htext : get_cookie_text vma mod = some text)
    (havail : (cookiemap_exists cpu (get_cookie_key s text task) s).1 = 0 →
      (get_cookie_translate in_irq cpu task vma mod text
        (cookiemap_exists cpu (get_cookie_key s text task) s).2).map Prod.fst = some (some t))
    (hnz : (cookiemap_exists cpu (get_cookie_key s text task) s).1 = 0 →
      cookie_alloc cfg.nr_cpu_ids (s.cookie_next_key cpu) ≠ 0) :
    ∃ c s1 s2,
      get_cookie cfg in_irq cpu task vma mod s = some (c, s1) ∧
      get_cookie cfg in_irq2 cpu task vma mod s1 = some (c, s2) ∧
      ((cookiemap_exists cpu (get_cookie_key s text task) s).1 ≠ 0 →
        c = (cookiemap_exists cpu (get_cookie_key s text task) s).1 ∧
        s2.gator_buffer cpu = s.gator_buffer cpu ∧
        s2.cookie_next_key cpu = s.cookie_next_key cpu) ∧
      ((cookiemap_exists cpu (get_cookie_key s text task) s).1 = 0 →
        c = cookie_alloc cfg.nr_cpu_ids (s.cookie_next_key cpu) ∧
        s2.gator_buffer cpu = s.gator_buffer cpu ++ define_frame cfg c t ∧
        s2.cookie_next_key cpu = c) := by
  by_cases hr : (cookiemap_exists cpu (get_cookie_key s text task) s).1 = 0
  · -- miss: the first call inserts, the second call finds the key in slot 0
    have htr := havail hr
    have hc := hnz hr
    obtain ⟨⟨t', s1⟩, hs1, ht'⟩ := Option.map_eq_some'.mp htr
    simp only [] at ht'
    subst ht'
    have hcf := get_cookie_translate_cache_fields _ _ _ _ _ _ _ _ _ hs1
    have hnk : s1.cookie_next_key = s.cookie_next_key := congrArg (fun p => p.2.2.1) hcf
    have hgb : s1.gator_buffer = s.gator_buffer := congrArg (fun p => p.2.2.2.1) hcf
    have hcrc : s1.gator_crc32_table = s.gator_crc32_table := congrArg (fun p => p.2.2.2.2) hcf
    obtain ⟨i1, i2, i3, i4, i5, i6⟩ :=
      get_cookie_insert_spec cfg cpu (get_cookie_key s text task) t s1
    rw [hnk] at i1 i3 i4 i5
    rw [hgb] at i4
    have hkey : get_cookie_key (get_cookie_insert cfg cpu (get_cookie_key s text task) t s1).2
        text task = get_cookie_key s text task :=
      get_cookie_key_congr _ _ text task (i6.trans hcrc)
    refine ⟨cookie_alloc cfg.nr_cpu_ids (s.cookie_next_key cpu),
      (get_cookie_insert cfg cpu (get_cookie_key s text task) t s1).2,
      (get_cookie_insert cfg cpu (get_cookie_key s text task) t s1).2, ?_, ?_, ?_, ?_⟩
    · unfold get_cookie
      rw [htext]
      simp only [hr, ne_eq, not_true_eq_false, if_false, hs1]
      rw [← i1]
    · unfold get_cookie
      rw [htext]
      simp only [hkey]
      rw [cookiemap_exists_front cpu _ _ i2, i3]
      simp only [ne_eq, hc, not_false_eq_true, if_true]
    · intro h; exact absurd hr h
    · intro _; exact ⟨rfl, i4, i5⟩
  · -- hit: both calls return the cached value
    obtain ⟨n1, n2⟩ := cookiemap_exists_nonzero cpu (get_cookie_key s text task) s hr
    refine ⟨(cookiemap_exists cpu (get_cookie_key s text task) s).1,
      (cookiemap_exists cpu (get_cookie_key s text task) s).2,
      (cookiemap_exists cpu (get_cookie_key s text task) s).2, ?_, ?_, ?_, ?_⟩
    · unfold get_cookie
      rw [htext]
      simp only [ne_eq, hr, not_false_eq_true, if_true]
    · have hkey : get_cookie_key (cookiemap_exists cpu (get_cookie_key s text task) s).2
          text task = get_cookie_key s text task := rfl
      unfold get_cookie
      rw [htext]
      simp only [hkey]
      rw [cookiemap_exists_front cpu _ _ n1, n2]
      simp only [ne_eq, hr, not_false_eq_true, if_true]
    · intro _; exact ⟨rfl, rfl, rfl⟩
    · intro h; exact absurd h hr

/-- C4, amended, at a concrete input: at the start of a session on one CPU the name
`sh` of the process 3 is not cached and is available, and two successive calls
return the same cookie. -/
theorem get_cookie_twice_same_cookie_witness :
    get_cookie_text (sample_call "sh" 3).vma none = some [115, 104] ∧
    ∃ c s1 s2,
      get_cookie (sample_config 1) false 0 (sample_call "sh" 3).task (sample_call "sh" 3).vma
        none (session_start 1) = some (c, s1) ∧
      get_cookie (sample_config 1) false 0 (sample_call "sh" 3).task (sample_call "sh" 3).vma
        none s1 = some (c, s2) ∧
      s2.cookie_next_key 0 = c :=
  ⟨by decide,
   let ⟨c, s1, s2, h1, h2, _, h4⟩ :=
     get_cookie_twice_same_cookie (sample_config 1) false false 0 (sample_call "sh" 3).task
       (sample_call "sh" 3).vma none (session_start 1) [115, 104] [115, 104]
       (by decide) (by decide) (by decide)
   ⟨c, s1, s2, h1, h2, (h4 (by decide)).2.2⟩⟩

/-- C4, as stated, fails on a unit state in which the name is already cached: after
one resolution of `sh` for process 3 the buffer holds one frame and the counter is
2; two further calls in succession return 2 and 2 and leave the buffer and the
counter as they were, so together they append no frame. -/
theorem get_cookie_twice_on_cached_name_appends_no_frame :
    (get_cookie_calls (sample_config 1) 0 [sample_call "sh" 3] (session_start 1)).map
        (fun p => (p.1, p.2.gator_buffer 0, p.2.cookie_next_key 0)) =
      some ([2], define_frame (sample_config 1) 2 [115, 104], 2) ∧
    (get_cookie_calls (sample_config 1) 0
        [sample_call "sh" 3, sample_call "sh" 3, sample_call "sh" 3] (session_start 1)).map
        (fun p => (p.1, p.2.gator_buffer 0, p.2.cookie_next_key 0)) =
      some ([2, 2, 2], define_frame (sample_config 1) 2 [115, 104], 2) := by
  decide

/-- C5. On one CPU, the names `sh` of process 3 and `ls` of process 1808 have different
keys in the same bucket; resolved in this order they get the cookies 2 and 3, and a
later resolution of `sh` hits the cache and returns 3, the cookie of `ls`. -/
theorem get_cookie_returns_same_cookie_for_two_keys :
    get_cookie_key (session_start 1) [115, 104] (sample_call "sh" 3).task ≠
      get_cookie_key (session_start 1) [108, 115] (sample_call "ls" 1808).task ∧
    (get_cookie_calls (sample_config 1) 0
        [sample_call "sh" 3, sample_call "ls" 1808, sample_call "sh" 3, sample_call "ls" 1808]
        (session_start 1)).map Prod.fst = some [2, 3, 3, 3] := by
  decide

/-- C10. On one CPU, after `sh` of process 77 and `init` of process 14 (same bucket)
have been resolved to the cookies 2 and 3, a further resolution of `sh` returns 77,
which is neither `NO_COOKIE` nor `INVALID_COOKIE`, while the output buffer holds
only the define-symbol frames of the cookies 2 and 3. -/
theorem get_cookie_returns_undefined_cookie :
    (get_cookie_calls (sample_config 1) 0
        [sample_call "sh" 77, sample_call "init" 14, sample_call "sh" 77]
        (session_start 1)).map (fun p => (p.1, p.2.gator_buffer 0)) =
      some ([2, 3, 77],
        define_frame (sample_config 1) 2 [115, 104] ++
        define_frame (sample_config 1) 3 [105, 110, 105, 116]) ∧
    77 ≠ NO_COOKIE ∧ 77 ≠ (sample_config 1).INVALID_COOKIE := by
  decide


/-! ## Link between `get_cookie` and the counter sequence -/

/-- One `get_cookie` call either leaves the counter and the output buffer of its CPU
unchanged, or advances the counter once, returns the new counter value and appends
one define-symbol frame carrying it. -/
theorem get_cookie_counter_step (cfg : Config) (in_irq : Bool) (cpu : Nat) (task : task_struct)
    (vma : Option vm_area_struct) (mod : Option module) (s s1 : State) (c : Nat)
    (h : get_cookie cfg in_irq cpu task vma mod s = some (c, s1)) :
    (s1.cookie_next_key cpu = s.cookie_next_key cpu ∧ s1.gator_buffer cpu = s.gator_buffer cpu) ∨
    (c = cookie_alloc cfg.nr_cpu_ids (s.cookie_next_key cpu) ∧ s1.cookie_next_key cpu = c ∧
      ∃ t, s1.gator_buffer cpu = s.gator_buffer cpu ++ define_frame cfg c t) := by
  unfold get_cookie at h
  split at h
  · cases h; exact Or.inl ⟨rfl, rfl⟩
  · rename_i text htext
    simp only [] at h
    split at h
    · cases h; exact Or.inl ⟨rfl, rfl⟩
    · split at h
      · cases h
      · rename_i s2 heq
        cases h
        have hcf := get_cookie_translate_cache_fields _ _ _ _ _ _ _ _ _ heq
        have hnk : s1.cookie_next_key = s.cookie_next_key := congrArg (fun p => p.2.2.1) hcf
        have hgb : s1.gator_buffer = s.gator_buffer := congrArg (fun p => p.2.2.2.1) hcf
        exact Or.inl ⟨by rw [hnk], by rw [hgb]⟩
      · rename_i t s2 heq
        have hcf := get_cookie_translate_cache_fields _ _ _ _ _ _ _ _ _ heq
        have hnk : s2.cookie_next_key = s.cookie_next_key := congrArg (fun p => p.2.2.1) hcf
        have hgb : s2.gator_buffer = s.gator_buffer := congrArg (fun p => p.2.2.2.1) hcf
        obtain ⟨i1, _, _, i4, i5, _⟩ :=
          get_cookie_insert_spec cfg cpu (get_cookie_key s text task) t s2
        rw [hnk] at i1 i4 i5
        rw [hgb] at i4
        have h2 := Option.some.inj h
        have hc1 : (get_cookie_insert cfg cpu (get_cookie_key s text task) t s2).1 = c :=
          congrArg Prod.fst h2
        have hc2 : (get_cookie_insert cfg cpu (get_cookie_key s text task) t s2).2 = s1 :=
          congrArg Prod.snd h2
        rw [hc1] at i1
        rw [hc2] at i4 i5
        exact Or.inr ⟨i1, by rw [i5, i1], t, by rw [i4, i1]⟩

/-- Along any sequence of `get_cookie` calls on a CPU whose counter holds the `m0`-th
value of the counter sequence, the counter stays on that sequence, advancing at most
once per call, and every advance appends the define-symbol frame of the cookie
allocated. -/
theorem get_cookie_calls_counter (cfg : Config) (cpu : Nat) (init : List BufItem) :
    ∀ (calls : List Call) (s : State) (m0 : Nat) (rets : List Nat) (s1 : State),
      s.cookie_next_key cpu = nth_cookie cfg.nr_cpu_ids cpu m0 →
      frames_of_allocations cfg cpu init m0 (s.gator_buffer cpu) →
      get_cookie_calls cfg cpu calls s = some (rets, s1) →
      ∃ m, m0 ≤ m ∧ m ≤ m0 + calls.length ∧
        s1.cookie_next_key cpu = nth_cookie cfg.nr_cpu_ids cpu m ∧
        frames_of_allocations cfg cpu init m (s1.gator_buffer cpu) := by
  intro calls
  induction calls with
  | nil =>
    intro s m0 rets s1 hk hf h
    simp only [get_cookie_calls, Option.some.injEq, Prod.mk.injEq] at h
    obtain ⟨_, rfl⟩ := h
    exact ⟨m0, Nat.le_refl _, by simp, hk, hf⟩
  | cons c cs ih =>
    intro s m0 rets s1 hk hf h
    unfold get_cookie_calls at h
    split at h
    · cases h
    · rename_i r s2 heq
      obtain ⟨p, hp, _⟩ := Option.map_eq_some'.mp h
      have hp2 : get_cookie_calls cfg cpu cs s2 = some (p.1, p.2) := hp
      have hs1 : p.2 = s1 := by
        have h2 := Option.map_eq_some'.mp h
        obtain ⟨q, hq1, hq2⟩ := h2
        rw [hp] at hq1
        cases hq1
        exact congrArg Prod.snd hq2
      rw [hs1] at hp2
      rcases get_cookie_counter_step cfg c.in_irq cpu c.task c.vma c.mod s s2 r heq with
        ⟨e1, e2⟩ | ⟨e1, e2, t, e3⟩
      · obtain ⟨m, hm1, hm2, hm3, hm4⟩ :=
          ih s2 m0 p.1 s1 (by rw [e1, hk]) (by rw [e2]; exact hf) hp2
        exact ⟨m, hm1, by simp only [List.length_cons]; omega, hm3, hm4⟩
      · have hk2 : s2.cookie_next_key cpu = nth_cookie cfg.nr_cpu_ids cpu (m0 + 1) := by
          rw [e2, e1, hk]; rfl
        have hf2 : frames_of_allocations cfg cpu init (m0 + 1) (s2.gator_buffer cpu) := by
          refine ⟨s.gator_buffer cpu, t, hf, ?_⟩
          rw [e3, e1, hk]; rfl
        obtain ⟨m, hm1, hm2, hm3, hm4⟩ := ih s2 (m0 + 1) p.1 s1 hk2 hf2 hp2
        exact ⟨m, by omega, by simp only [List.length_cons]; omega, hm3, hm4⟩

/-- After a successful `cookies_initialize` the counter of every present CPU holds
its seed, the start of the counter sequence. -/
theorem cookies_initialize_loop_seed (N : Nat) (buffer_ok text_ok : Nat → Bool) (cpu : Nat) :
    ∀ (present : List Nat) (s s1 : State),
      cookies_initialize_loop N buffer_ok text_ok present s = (0, s1) →
      (cpu ∈ present ∨ s.cookie_next_key cpu = cookie_seed N cpu) →
      s1.cookie_next_key cpu = cookie_seed N cpu := by
  intro present
  induction present with
  | nil =>
    intro s s1 h hc
    simp only [cookies_initialize_loop, Prod.mk.injEq, true_and] at h
    subst h
    rcases hc with hc | hc
    · cases hc
    · exact hc
  | cons c cs ih =>
    intro s s1 h hc
    unfold cookies_initialize_loop at h
    simp only [] at h
    split at h
    · cases h
    · split at h
      · cases h
      · apply ih _ _ h
        by_cases hcc : cpu = c
        · right
          subst hcc
          simp
        · rcases hc with hc | hc
          · left
            cases hc with
            | head => exact absurd rfl hcc
            | tail _ hmem => exact hmem
          · right
            simp only [store_other _ _ _ _ hcc]
            exact hc

theorem cookies_initialize_seed (N : Nat) (buffer_ok text_ok : Nat → Bool) (present : List Nat)
    (cpu : Nat) (s s1 : State)
    (h : cookies_initialize N buffer_ok text_ok present s = (0, s1)) (hcpu : cpu ∈ present) :
    s1.cookie_next_key cpu = nth_cookie N cpu 0 := by
  unfold cookies_initialize at h
  simp only [] at h
  generalize hr : cookies_initialize_loop N buffer_ok text_ok present
    { s with translate_buffer_mask := 512 / 4 - 1 } = r at h
  obtain ⟨e, s2⟩ := r
  simp only [] at h
  split at h
  · rename_i h0
    have hs : s1.cookie_next_key = s2.cookie_next_key :=
      (congrArg (fun p => p.2.cookie_next_key) h).symm
    rw [hs]
    subst h0
    exact cookies_initialize_loop_seed N buffer_ok text_ok cpu present _ _ hr (Or.inl hcpu)
  · rename_i h0
    exact absurd (congrArg Prod.fst h) h0

/-! ## The translate queue as a ring -/

theorem and_127 (x : Nat) : x &&& 127 = x % 128 :=
  Nat.and_pow_two_sub_one_eq_mod x 7

/-- On a well-formed ring the duplicate scan ends, and it answers whether the task
is the first component of one of the pairs between `ptr` and the write index. -/
theorem translate_pending_scan_eq (buf : Nat → Nat) (w t : Nat) (hw : w % 2 = 0) (hw2 : w ≤ 127) :
    ∀ (n p : Nat), p % 2 = 0 → p ≤ 127 → (w + 128 - p) % 128 / 2 < n →
      ∃ b, translate_pending_scan buf 127 w t n p = some b ∧
        (b = true ↔ t ∈ (translate_pending buf 127 w n p).map Prod.fst) := by
  intro n
  induction n with
  | zero => intro p _ _ h; omega
  | succ n ih =>
    intro p hp hp2 hd
    rw [translate_pending_scan, translate_pending]
    by_cases hpw : p = w
    · rw [if_pos hpw, if_pos hpw]
      exact ⟨false, rfl, by simp⟩
    · rw [if_neg hpw, if_neg hpw]
      have e1 : (p + 2) &&& 127 = (p + 2) % 128 := and_127 _
      have e2 : (((p + 1) &&& 127) + 1) &&& 127 = (p + 2) % 128 := by
        rw [and_127, and_127]; omega
      rw [e1, e2]
      by_cases hb : buf p = t
      · rw [if_pos hb]
        exact ⟨true, rfl, by simp [hb]⟩
      · rw [if_neg hb]
        obtain ⟨b, hb1, hb2⟩ := ih ((p + 2) % 128) (by omega) (by omega) (by omega)
        refine ⟨b, hb1, ?_⟩
        rw [hb2]
        simp only [List.map_cons, List.mem_cons]
        constructor
        · intro h; exact Or.inr h
        · intro h
          rcases h with h | h
          · exact absurd h.symm hb
          · exact h

/-- The number of pairs between `ptr` and the write index of a well-formed ring. -/
theorem translate_pending_length (buf : Nat → Nat) (w : Nat) (hw : w % 2 = 0) (hw2 : w ≤ 127) :
    ∀ (n p : Nat), p % 2 = 0 → p ≤ 127 → (w + 128 - p) % 128 / 2 < n →
      (translate_pending buf 127 w n p).length = (w + 128 - p) % 128 / 2 := by
  intro n
  induction n with
  | zero => intro p _ _ h; omega
  | succ n ih =>
    intro p hp hp2 hd
    rw [translate_pending]
    by_cases hpw : p = w
    · rw [if_pos hpw]
      subst hpw
      simp
    · rw [if_neg hpw]
      have e2 : (((p + 1) &&& 127) + 1) &&& 127 = (p + 2) % 128 := by
        rw [and_127, and_127]; omega
      rw [e2, List.length_cons, ih ((p + 2) % 128) (by omega) (by omega) (by omega)]
      omega

/-- Appending a pair at the write index of a well-formed ring that is not full adds
it at the end of the pairs between `ptr` and the write index. -/
theorem translate_pending_append (buf : Nat → Nat) (w t v : Nat) (hw : w % 2 = 0)
    (hw2 : w ≤ 127) :
    ∀ (n p : Nat), p % 2 = 0 → p ≤ 127 → (w + 128 - p) % 128 / 2 < n →
      (w + 128 - p) % 128 ≠ 126 →
      translate_pending (store (store buf w t) (w + 1) v) 127 ((w + 2) % 128) n p =
        translate_pending buf 127 w n p ++ [(t, v)] := by
  intro n
  induction n with
  | zero => intro p _ _ h; omega
  | succ n ih =>
    intro p hp hp2 hd hroom
    rw [translate_pending, translate_pending]
    have hpw2 : p ≠ (w + 2) % 128 := by omega
    rw [if_neg hpw2]
    have e2 : (((p + 1) &&& 127) + 1) &&& 127 = (p + 2) % 128 := by
      rw [and_127, and_127]; omega
    have e3 : (p + 1) &&& 127 = p + 1 := by
      rw [and_127]; omega
    rw [e2, e3]
    by_cases hpw : p = w
    · rw [if_pos hpw]
      subst hpw
      have hnext : translate_pending (store (store buf p t) (p + 1) v) 127 ((p + 2) % 128) n
          ((p + 2) % 128) = [] := by
        cases n with
        | zero => rfl
        | succ m => rw [translate_pending, if_pos rfl]
      rw [hnext, store_same, store_other _ _ _ _ (by omega), store_same]
      rfl
    · rw [if_neg hpw]
      rw [ih ((p + 2) % 128) (by omega) (by omega) (by omega) (by omega)]
      rw [store_other _ _ _ _ (by omega : p ≠ w + 1), store_other _ _ _ _ hpw,
        store_other _ _ _ _ (by omega : p + 1 ≠ w + 1), store_other _ _ _ _ (by omega : p + 1 ≠ w)]
      rfl

/-- The interrupt-context branch of `translate_app_process` in terms of the
duplicate scan and of the enqueue. -/
theorem translate_app_process_irq (text : TextPtr) (cpu : Nat) (task : task_struct) (vma : Nat)
    (s : State) :
    translate_app_process true text cpu task vma s =
      match task_pending s cpu task.ptr with
      | none => none
      | some true => some (0, text, s)
      | some false => some (0, text, translate_enqueue cpu task.ptr vma s) := by
  unfold translate_app_process task_pending translate_enqueue
  simp only [if_true]

/-- What the enqueue writes on a well-formed queue. -/
theorem translate_enqueue_fields (cpu task vma : Nat) (s : State) (hwf : queue_wf s cpu) :
    (translate_enqueue cpu task vma s).translate_buffer cpu =
      store (store (s.translate_buffer cpu) (s.translate_buffer_write cpu) (task % 2 ^ 32))
        (s.translate_buffer_write cpu + 1) (vma % 2 ^ 32) ∧
    (translate_enqueue cpu task vma s).translate_buffer_write cpu =
      (s.translate_buffer_write cpu + 2) % 128 ∧
    (translate_enqueue cpu task vma s).translate_buffer_read = s.translate_buffer_read ∧
    (translate_enqueue cpu task vma s).translate_buffer_mask = 127 ∧
    (translate_enqueue cpu task vma s).translate_text = s.translate_text ∧
    cache_fields (translate_enqueue cpu task vma s) = cache_fields s := by
  obtain ⟨hm, hr, hr2, hw, hw2⟩ := hwf
  have e1 : (s.translate_buffer_write cpu + 1) &&& 127 = s.translate_buffer_write cpu + 1 := by
    rw [and_127]; omega
  have e2 : (s.translate_buffer_write cpu + 1 + 1) &&& 127 =
      (s.translate_buffer_write cpu + 2) % 128 := by
    rw [and_127]
  refine ⟨?_, ?_, rfl, ?_, rfl, rfl⟩
  · simp only [translate_enqueue, translate_buffer_write_int, store_same, hm, e1]
  · simp only [translate_enqueue, translate_buffer_write_int, store_same, hm, e1, e2]
  · simp only [translate_enqueue, translate_buffer_write_int, hm]

/-- On a well-formed queue the duplicate scan ends and finds the task exactly when
the task is the owner of a pending entry. -/
theorem task_pending_eq (s : State) (cpu task : Nat) (hwf : queue_wf s cpu) :
    ∃ b, task_pending s cpu task = some b ∧
      (b = true ↔ task % 2 ^ 32 ∈ (pending_entries s cpu).map Prod.fst) := by
  obtain ⟨hm, hr, hr2, hw, hw2⟩ := hwf
  unfold task_pending pending_entries
  rw [hm]
  exact translate_pending_scan_eq (s.translate_buffer cpu) (s.translate_buffer_write cpu)
    (task % 2 ^ 32) hw hw2 (127 + 2) (s.translate_buffer_read cpu) hr hr2 (by omega)

/-- The pending entries after an enqueue on a well-formed queue that is not full:
the new pair comes last. -/
theorem pending_entries_enqueue (cpu task vma : Nat) (s : State) (hwf : queue_wf s cpu)
    (hroom : (s.translate_buffer_write cpu + 2) % 128 ≠ s.translate_buffer_read cpu) :
    pending_entries (translate_enqueue cpu task vma s) cpu =
      pending_entries s cpu ++ [(task % 2 ^ 32, vma % 2 ^ 32)] := by
  obtain ⟨f1, f2, f3, f4, _, _⟩ := translate_enqueue_fields cpu task vma s hwf
  obtain ⟨hm, hr, hr2, hw, hw2⟩ := hwf
  unfold pending_entries
  rw [f1, f2, f3, f4, hm]
  exact translate_pending_append (s.translate_buffer cpu) (s.translate_buffer_write cpu) _ _
    hw hw2 (127 + 2) (s.translate_buffer_read cpu) hr hr2 (by omega) (by omega)

/-- The pending entries after an enqueue on a well-formed queue that is full: the
write index has reached the read index and no entry is pending. -/
theorem pending_entries_enqueue_full (cpu task vma : Nat) (s : State) (hwf : queue_wf s cpu)
    (hfull : (s.translate_buffer_write cpu + 2) % 128 = s.translate_buffer_read cpu) :
    pending_entries (translate_enqueue cpu task vma s) cpu = [] := by
  obtain ⟨f1, f2, f3, f4, _, _⟩ := translate_enqueue_fields cpu task vma s hwf
  unfold pending_entries
  rw [f2, f3, f4, hfull]
  rw [translate_pending, if_pos rfl]

/-- The enqueue keeps a well-formed queue well-formed. -/
theorem queue_wf_enqueue (cpu task vma : Nat) (s : State) (hwf : queue_wf s cpu) :
    queue_wf (translate_enqueue cpu task vma s) cpu := by
  obtain ⟨f1, f2, f3, f4, _, _⟩ := translate_enqueue_fields cpu task vma s hwf
  obtain ⟨hm, hr, hr2, hw, hw2⟩ := hwf
  refine ⟨f4, ?_, ?_, ?_, ?_⟩
  · rw [f3]; exact hr
  · rw [f3]; exact hr2
  · rw [f2]; omega
  · rw [f2]; omega


/-! ## Enqueue in interrupt context -/

/-- C12. In the interrupt-context branch of `translate_app_process`, on a well-formed
queue: if the task already owns a pending entry the call changes nothing; otherwise
exactly the pair (task, vma) is stored at the write index, the read index is kept
and the write index advances by 2 modulo 128, so that on a queue that is not full
the pending entries are the old ones followed by the new pair.  In both cases a
queue in which no owner appears twice stays so. -/
theorem translate_enqueue_idempotent (text : TextPtr) (cpu : Nat) (task : task_struct)
    (vma : Nat) (s : State) (hwf : queue_wf s cpu) :
    (task.ptr % 2 ^ 32 ∈ (pending_entries s cpu).map Prod.fst →
      translate_app_process true text cpu task vma s = some (0, text, s)) ∧
    (task.ptr % 2 ^ 32 ∉ (pending_entries s cpu).map Prod.fst →
      ∃ s1, translate_app_process true text cpu task vma s = some (0, text, s1) ∧
        s1.translate_buffer cpu =
          store (store (s.translate_buffer cpu) (s.translate_buffer_write cpu) (task.ptr % 2 ^ 32))
            (s.translate_buffer_write cpu + 1) (vma % 2 ^ 32) ∧
        s1.translate_buffer_read cpu = s.translate_buffer_read cpu ∧
        s1.translate_buffer_write cpu = (s.translate_buffer_write cpu + 2) % 128 ∧
        ((s.translate_buffer_write cpu + 2) % 128 ≠ s.translate_buffer_read cpu →
          pending_entries s1 cpu =
            pending_entries s cpu ++ [(task.ptr % 2 ^ 32, vma % 2 ^ 32)])) ∧
    (∀ r t1 s1, translate_app_process true text cpu task vma s = some (r, t1, s1) →
      ((pending_entries s cpu).map Prod.fst).Nodup →
      ((pending_entries s1 cpu).map Prod.fst).Nodup) := by
  obtain ⟨b, hb1, hb2⟩ := task_pending_eq s cpu task.ptr hwf
  obtain ⟨f1, f2, f3, _, _, _⟩ := translate_enqueue_fields cpu task.ptr vma s hwf
  have hirq := translate_app_process_irq text cpu task vma s
  rw [hb1] at hirq
  refine ⟨?_, ?_, ?_⟩
  · intro hin
    have hbt : b = true := hb2.mpr hin
    subst hbt
    exact hirq
  · intro hnin
    have hbf : b = false := by
      cases b with
      | false => rfl
      | true => exact absurd (hb2.mp rfl) hnin
    subst hbf
    refine ⟨translate_enqueue cpu task.ptr vma s, hirq, f1, by rw [f3], f2, ?_⟩
    intro hroom
    exact pending_entries_enqueue cpu task.ptr vma s hwf hroom
  · intro r t1 s1 h hnd
    rw [hirq] at h
    cases b with
    | true =>
      simp only [Option.some.injEq, Prod.mk.injEq] at h
      obtain ⟨_, _, rfl⟩ := h
      exact hnd
    | false =>
      simp only [Option.some.injEq, Prod.mk.injEq] at h
      obtain ⟨_, _, rfl⟩ := h
      have hnin : task.ptr % 2 ^ 32 ∉ (pending_entries s cpu).map Prod.fst := by
        intro hin
        have := hb2.mpr hin
        cases this
      by_cases hroom : (s.translate_buffer_write cpu + 2) % 128 = s.translate_buffer_read cpu
      · rw [pending_entries_enqueue_full cpu task.ptr vma s hwf hroom]
        exact List.nodup_nil
      · rw [pending_entries_enqueue cpu task.ptr vma s hwf hroom, List.map_append]
        refine List.Nodup.append hnd (List.nodup_singleton _) ?_
        intro a ha1 ha2
        simp only [List.map_cons, List.map_nil, List.mem_singleton] at ha2
        subst ha2
        exact hnin ha1

/-- C12, at a concrete input: on a queue that holds the pair (1000, 8192), a second
enqueue for the task at address 1000 returns 0 and leaves the pending entries as
they are. -/
theorem translate_enqueue_idempotent_witness :
    queue_wf (translate_enqueue 0 1000 8192 (session_start 1)) 0 ∧
    (translate_app_process true (TextPtr.name str_app_process) 0
      { ptr := 1000, tgid := 1, mm := none } 8192
      (translate_enqueue 0 1000 8192 (session_start 1))).map
        (fun r => (r.1, pending_entries r.2.2 0)) = some (0, [(1000, 8192)]) :=
  ⟨by decide, by
    rw [(translate_enqueue_idempotent (TextPtr.name str_app_process) 0
      { ptr := 1000, tgid := 1, mm := none } 8192
      (translate_enqueue 0 1000 8192 (session_start 1)) (by decide)).1 (by decide)]
    decide⟩

/-- The worker loop stops at once when the read index equals `commit`. -/
theorem wq_cookie_handler_loop_done (cfg : Config) (heap : Heap) (cpu commit n : Nat) (s : State)
    (h : s.translate_buffer_read cpu = commit) :
    wq_cookie_handler_loop cfg heap cpu commit n s = some ([], s) := by
  cases n with
  | zero => rw [wq_cookie_handler_loop, if_pos h]
  | succ m => rw [wq_cookie_handler_loop, if_pos h]

/-- C13, as stated, fails: on a queue that holds the 63 pairs `(1000, 1001), ...`, the
most the ring can represent, the pair (1000, 1001) is pending and the task at address
5000 is not; after the enqueue of task 5000 in interrupt context the write index
equals the read index and no entry is pending any more, the pair (1000, 1001)
included. -/
theorem enqueue_on_full_queue_loses_pending_entries :
    queue_wf full_queue_state 0 ∧
    (pending_entries full_queue_state 0).length = 63 ∧
    (1000, 1001) ∈ pending_entries full_queue_state 0 ∧
    task_pending full_queue_state 0 5000 = some false ∧
    (translate_app_process true (TextPtr.name str_app_process) 0
      { ptr := 5000, tgid := 1, mm := none } 8192 full_queue_state).map
        (fun r => (r.1, r.2.2.translate_buffer_read 0, r.2.2.translate_buffer_write 0,
          pending_entries r.2.2 0)) = some (0, 0, 0, []) := by
  decide

/-- C13, amended. On a well-formed queue that is full (the write index is 2 behind the
read index, 63 pairs are pending), the enqueue of a task that is not pending stores
the pair and moves the write index onto the read index: afterwards no entry is
pending, and a run of `wq_cookie_handler` calls `get_cookie` for none. -/
theorem enqueue_on_full_queue_empties_it (cfg : Config) (heap : Heap) (text : TextPtr)
    (cpu : Nat) (task : task_struct) (vma : Nat) (s : State) (hwf : queue_wf s cpu)
    (hfull : (s.translate_buffer_write cpu + 2) % 128 = s.translate_buffer_read cpu)
    (hnew : task.ptr % 2 ^ 32 ∉ (pending_entries s cpu).map Prod.fst) :
    (pending_entries s cpu).length = 63 ∧
    ∃ s1, translate_app_process true text cpu task vma s = some (0, text, s1) ∧
      s1.translate_buffer_write cpu = s1.translate_buffer_read cpu ∧
      pending_entries s1 cpu = [] ∧
      wq_cookie_handler cfg heap cpu s1 = some ([], s1) := by
  obtain ⟨b, hb1, hb2⟩ := task_pending_eq s cpu task.ptr hwf
  obtain ⟨_, f2, f3, _, _, _⟩ := translate_enqueue_fields cpu task.ptr vma s hwf
  have hirq := translate_app_process_irq text cpu task vma s
  rw [hb1] at hirq
  have hbf : b = false := by
    cases b with
    | false => rfl
    | true => exact absurd (hb2.mp rfl) hnew
  subst hbf
  have hrw : (translate_enqueue cpu task.ptr vma s).translate_buffer_write cpu =
      (translate_enqueue cpu task.ptr vma s).translate_buffer_read cpu := by
    rw [f2, f3, hfull]
  refine ⟨?_, translate_enqueue cpu task.ptr vma s, hirq, hrw,
    pending_entries_enqueue_full cpu task.ptr vma s hwf hfull, ?_⟩
  · obtain ⟨hm, hr, hr2, hw, hw2⟩ := hwf
    unfold pending_entries
    rw [hm, translate_pending_length (s.translate_buffer cpu) (s.translate_buffer_write cpu) hw hw2
      (127 + 2) (s.translate_buffer_read cpu) hr hr2 (by omega)]
    omega
  · unfold wq_cookie_handler
    exact wq_cookie_handler_loop_done cfg heap cpu _ _ _ hrw.symm

/-- C13, amended, at a concrete input: the full queue `full_queue_state` and the task
at address 5000. -/
theorem enqueue_on_full_queue_empties_it_witness :
    (queue_wf full_queue_state 0 ∧
      (full_queue_state.translate_buffer_write 0 + 2) % 128 =
        full_queue_state.translate_buffer_read 0) ∧
    (pending_entries full_queue_state 0).length = 63 :=
  ⟨by decide,
   (enqueue_on_full_queue_empties_it (sample_config 1)
      { task_at := fun p => { ptr := p, tgid := 1, mm := none }, vma_at := fun _ => none }
      (TextPtr.name str_app_process) 0 { ptr := 5000, tgid := 1, mm := none } 8192
      full_queue_state (by decide) (by decide) (by decide)).1⟩

/-- A lookup of a key that no slot of its bucket holds returns 0 and leaves the state
as it is. -/
theorem cookiemap_exists_absent (cpu key : Nat) (s : State)
    (hmiss : ∀ u, u < MAX_COLLISIONS → s.cookie_keys cpu (cookiemap_code key + u) ≠ key) :
    cookiemap_exists cpu key s = (0, s) := by
  rw [cookiemap_exists_miss cpu key s hmiss, store_self, store_self]

set_option maxRecDepth 100000 in
/-- C11, as stated, fails when the queue is full: starting a session on one CPU, 64
calls of `get_cookie` in interrupt context for the `app_process` mapping of 64
different tasks all miss the cache; the last one returns `INVALID_COOKIE`, but
afterwards its task (address 1063) is not pending: the write index has wrapped onto
the read index and the queue holds no pending entry. -/
theorem get_cookie_in_irq_on_full_queue_leaves_task_not_pending :
    (get_cookie_calls (sample_config 1) 0 (irq_calls 64) (session_start 1)).map
        (fun p => (p.1.getLast?, pending_entries p.2 0, p.2.translate_buffer_write 0,
          task_pending p.2 0 1063)) =
      some (some (sample_config 1).INVALID_COOKIE, [], 0, some false) := by
  decide

/-- C11, amended. When `get_cookie` is called in interrupt context for an `app_process`
mapping whose key no slot of its bucket holds, on a well-formed queue in which the
task is already pending or which is not full, it returns `INVALID_COOKIE`; the
cookie counter, the cookie cache, the output buffer and the text buffer (the target
of the blocking read) are unchanged, and afterwards the task is pending in the
translate queue of the CPU. -/
theorem get_cookie_app_process_in_irq (cfg : Config) (cpu : Nat) (task : task_struct)
    (v : vm_area_struct) (s : State)
    (hname : get_cookie_text (some v) none = some str_app_process)
    (hmiss : ∀ u, u < MAX_COLLISIONS →
      s.cookie_keys cpu (cookiemap_code (get_cookie_key s str_app_process task) + u) ≠
        get_cookie_key s str_app_process task)
    (hwf : queue_wf s cpu)
    (hroom : task.ptr % 2 ^ 32 ∈ (pending_entries s cpu).map Prod.fst ∨
      (s.translate_buffer_write cpu + 2) % 128 ≠ s.translate_buffer_read cpu) :
    ∃ s1, get_cookie cfg true cpu task (some v) none s = some (cfg.INVALID_COOKIE, s1) ∧
      s1.cookie_next_key = s.cookie_next_key ∧
      s1.cookie_keys = s.cookie_keys ∧
      s1.cookie_values = s.cookie_values ∧
      s1.gator_buffer = s.gator_buffer ∧
      s1.translate_text = s.translate_text ∧
      task.ptr % 2 ^ 32 ∈ (pending_entries s1 cpu).map Prod.fst := by
  obtain ⟨b, hb1, hb2⟩ := task_pending_eq s cpu task.ptr hwf
  obtain ⟨_, _, _, _, f5, f6⟩ := translate_enqueue_fields cpu task.ptr v.ptr s hwf
  have hirq := translate_app_process_irq (TextPtr.name str_app_process) cpu task v.ptr s
  rw [hb1] at hirq
  have hex := cookiemap_exists_absent cpu _ s hmiss
  have hcond : str_app_process = str_app_process ∧ (none : Option module).isNone = true :=
    ⟨rfl, rfl⟩
  cases b with
  | true =>
    have hin := hb2.mp rfl
    refine ⟨s, ?_, rfl, rfl, rfl, rfl, rfl, hin⟩
    unfold get_cookie
    rw [hname]
    simp only [hex, ne_eq, not_true_eq_false, if_false]
    unfold get_cookie_translate
    rw [if_pos hcond]
    simp only [hirq, if_true]
  | false =>
    have hnin : task.ptr % 2 ^ 32 ∉ (pending_entries s cpu).map Prod.fst := by
      intro hin
      have := hb2.mpr hin
      cases this
    have hr : (s.translate_buffer_write cpu + 2) % 128 ≠ s.translate_buffer_read cpu := by
      rcases hroom with h | h
      · exact absurd h hnin
      · exact h
    refine ⟨translate_enqueue cpu task.ptr v.ptr s, ?_,
      congrArg (fun p => p.2.2.1) f6, congrArg (fun p => p.1) f6, congrArg (fun p => p.2.1) f6,
      congrArg (fun p => p.2.2.2.1) f6, f5, ?_⟩
    · unfold get_cookie
      rw [hname]
      simp only [hex, ne_eq, not_true_eq_false, if_false]
      unfold get_cookie_translate
      rw [if_pos hcond]
      simp only [hirq, if_true]
    · rw [pending_entries_enqueue cpu task.ptr v.ptr s hwf hr]
      simp

/-- C11, amended, at a concrete input: the first call in interrupt context of a
session, for the `app_process` mapping of the task at address 1000. -/
theorem get_cookie_app_process_in_irq_witness :
    (queue_wf (session_start 1) 0 ∧
      get_cookie_text (some { ptr := 8192, vm_file := some { f_dentry := some { d_name := str_app_process } } })
        none = some str_app_process) ∧
    ∃ s1, get_cookie (sample_config 1) true 0 { ptr := 1000, tgid := 1, mm := none }
        (some { ptr := 8192, vm_file := some { f_dentry := some { d_name := str_app_process } } })
        none (session_start 1) = some ((sample_config 1).INVALID_COOKIE, s1) ∧
      1000 % 2 ^ 32 ∈ (pending_entries s1 0).map Prod.fst :=
  ⟨by decide,
   let ⟨s1, h1, _, _, _, _, _, h7⟩ :=
     get_cookie_app_process_in_irq (sample_config 1) 0 { ptr := 1000, tgid := 1, mm := none }
       { ptr := 8192, vm_file := some { f_dentry := some { d_name := str_app_process } } }
       (session_start 1) (by decide) (by decide) (by decide) (Or.inr (by decide))
   ⟨s1, h1, h7⟩⟩


/-! ## The worker `wq_cookie_handler` -/

theorem translate_app_process_queue_fields (text : TextPtr) (cpu : Nat) (task : task_struct)
    (vma : Nat) (s : State) (rv : Nat) (t1 : TextPtr) (s1 : State)
    (h : translate_app_process false text cpu task vma s = some (rv, t1, s1)) :
    queue_fields s1 = queue_fields s := by
  unfold translate_app_process at h
  simp only [Bool.false_eq_true, if_false] at h
  repeat' (split at h)
  all_goals first | (cases h; rfl) | cases h

/-- In process context `get_cookie` does not touch the translate queues. -/
theorem get_cookie_queue_fields (cfg : Config) (cpu : Nat) (task : task_struct)
    (vma : Option vm_area_struct) (mod : Option module) (s s1 : State) (c : Nat)
    (h : get_cookie cfg false cpu task vma mod s = some (c, s1)) :
    queue_fields s1 = queue_fields s := by
  unfold get_cookie at h
  split at h
  · cases h; rfl
  · rename_i text htext
    simp only [] at h
    split at h
    · cases h; rfl
    · have htr : ∀ t s2, get_cookie_translate false cpu task vma mod text
          (cookiemap_exists cpu (get_cookie_key s text task) s).2 = some (t, s2) →
          queue_fields s2 = queue_fields s := by
        intro t s2 heq
        unfold get_cookie_translate at heq
        split at heq
        · split at heq
          · cases heq
          · rename_i rv t1 s3 htp
            have hq := translate_app_process_queue_fields _ _ _ _ _ _ _ _ htp
            split at heq
            · cases heq; exact hq
            · split at heq
              · cases heq
              · cases heq; exact hq
        · cases heq; rfl
      split at h
      · cases h
      · rename_i s2 heq
        cases h
        exact htr _ _ heq
      · rename_i t s2 heq
        have hq := htr _ _ heq
        have h2 := Option.some.inj h
        have hs : (get_cookie_insert cfg cpu (get_cookie_key s text task) t s2).2 = s1 :=
          congrArg Prod.snd h2
        rw [← hs]
        exact hq

theorem get_cookie_translate_no_mm (cpu : Nat) (task : task_struct)
    (vma : Option vm_area_struct) (mod : Option module) (text : List Nat) (s : State)
    (hmm : task.mm = none) :
    get_cookie_translate false cpu task vma mod text s =
      if text = str_app_process ∧ mod.isNone then some (none, s) else some (some text, s) := by
  unfold get_cookie_translate translate_app_process
  simp only [Bool.false_eq_true, if_false, hmm, if_true]

/-- In process context `get_cookie` has a defined result for a task without address
space (`get_task_mm` returns NULL). -/
theorem get_cookie_defined_of_no_mm (cfg : Config) (cpu : Nat) (task : task_struct)
    (vma : Option vm_area_struct) (mod : Option module) (s : State) (hmm : task.mm = none) :
    (get_cookie cfg false cpu task vma mod s).isSome = true := by
  unfold get_cookie
  split
  · rfl
  · rename_i text htext
    simp only []
    split
    · rfl
    · rw [get_cookie_translate_no_mm _ _ _ _ _ _ hmm]
      by_cases hc : text = str_app_process ∧ mod.isNone = true
      · rw [if_pos hc]; rfl
      · rw [if_neg hc]; rfl

theorem translate_buffer_read_int_spec (cpu : Nat) (s : State) :
    (translate_buffer_read_int cpu s).1 = s.translate_buffer cpu (s.translate_buffer_read cpu) ∧
    (translate_buffer_read_int cpu s).2.translate_buffer_read cpu =
      (s.translate_buffer_read cpu + 1) &&& s.translate_buffer_mask ∧
    (translate_buffer_read_int cpu s).2.translate_buffer = s.translate_buffer ∧
    (translate_buffer_read_int cpu s).2.translate_buffer_mask = s.translate_buffer_mask ∧
    (translate_buffer_read_int cpu s).2.translate_buffer_write = s.translate_buffer_write := by
  simp [translate_buffer_read_int]

/-- The worker loop on a well-formed ring, the calls of `get_cookie` having defined
results: it calls `get_cookie` for the pairs from the read index to `commit`, in
order, and ends with the read index at `commit`. -/
theorem wq_cookie_handler_loop_drains (cfg : Config) (heap : Heap) (cpu : Nat) (B : Nat → Nat)
    (w : Nat) (hw : w % 2 = 0) (hw2 : w ≤ 127) :
    ∀ (n : Nat) (s : State), s.translate_buffer cpu = B → s.translate_buffer_mask = 127 →
      s.translate_buffer_write cpu = w →
      s.translate_buffer_read cpu % 2 = 0 → s.translate_buffer_read cpu ≤ 127 →
      (w + 128 - s.translate_buffer_read cpu) % 128 / 2 ≤ n →
      (∀ pair ∈ translate_pending B 127 w n (s.translate_buffer_read cpu), ∀ s2,
        (get_cookie cfg false cpu (heap.task_at pair.1) (heap.vma_at pair.2) none s2).isSome
          = true) →
      ∃ s1, wq_cookie_handler_loop cfg heap cpu w n s =
          some (translate_pending B 127 w n (s.translate_buffer_read cpu), s1) ∧
        s1.translate_buffer_read cpu = w ∧ s1.translate_buffer_write cpu = w ∧
        s1.translate_buffer cpu = B := by
  intro n
  induction n with
  | zero =>
    intro s hB hm hwr hr hr2 hd _
    have hrw : s.translate_buffer_read cpu = w := by omega
    exact ⟨s, by rw [wq_cookie_handler_loop, if_pos hrw, translate_pending], hrw, hwr, hB⟩
  | succ n ih =>
    intro s hB hm hwr hr hr2 hd hdef
    by_cases hrw : s.translate_buffer_read cpu = w
    · exact ⟨s, by rw [wq_cookie_handler_loop, if_pos hrw, translate_pending, if_pos hrw],
        hrw, hwr, hB⟩
    · rw [translate_pending, if_neg hrw] at hdef
      rw [wq_cookie_handler_loop, if_neg hrw, translate_pending, if_neg hrw]
      have e2 : (((s.translate_buffer_read cpu + 1) &&& 127) + 1) &&& 127 =
          (s.translate_buffer_read cpu + 2) % 128 := by
        rw [and_127, and_127]; omega
      obtain ⟨a1, a2, a3, a4, a5⟩ := translate_buffer_read_int_spec cpu s
      obtain ⟨b1, b2, b3, b4, b5⟩ :=
        translate_buffer_read_int_spec cpu (translate_buffer_read_int cpu s).2
      rw [hm] at a2 a4
      rw [a2, a3] at b1
      rw [a2, a4] at b2
      rw [a3] at b3
      rw [a4] at b4
      rw [a5] at b5
      rw [hB] at a1 b1
      have hsome := hdef (B (s.translate_buffer_read cpu),
        B ((s.translate_buffer_read cpu + 1) &&& 127)) (List.mem_cons_self _ _)
        (translate_buffer_read_int cpu (translate_buffer_read_int cpu s).2).2
      obtain ⟨⟨c, s1⟩, hg⟩ := Option.isSome_iff_exists.mp hsome
      have hq := get_cookie_queue_fields _ _ _ _ _ _ _ _ hg
      have q1 : s1.translate_buffer = s.translate_buffer :=
        (congrArg (fun p => p.1) hq).trans b3
      have q2 : s1.translate_buffer_read cpu = (s.translate_buffer_read cpu + 2) % 128 := by
        have := congrArg (fun p => p.2.1 cpu) hq
        simp only [queue_fields] at this
        rw [this, b2, e2]
      have q3 : s1.translate_buffer_write = s.translate_buffer_write :=
        (congrArg (fun p => p.2.2.1) hq).trans b5
      have q4 : s1.translate_buffer_mask = 127 :=
        (congrArg (fun p => p.2.2.2) hq).trans b4
      obtain ⟨s3, h31, h32, h33, h34⟩ := ih s1 (by rw [q1, hB]) q4 (by rw [q3, hwr])
        (by rw [q2]; omega) (by rw [q2]; omega) (by rw [q2]; omega)
        (by
          intro pair hp
          rw [q2, ← e2] at hp
          exact hdef pair (List.mem_cons_of_mem _ hp))
      refine ⟨s3, ?_, h32, h33, h34⟩
      simp only [a1, b1]
      simp only [] at hg
      rw [hg]
      simp only [h31, Option.map_some', q2, e2]


/-- C14. On a well-formed queue (ring of 128 words, read and write index even
positions of it), the calls of `get_cookie` having defined results,
`wq_cookie_handler` calls `get_cookie` exactly for the pairs pending on entry, oldest
first and each once, and ends with the read index equal to the write index found on
entry; it changes neither the write index nor the stored pairs. -/
theorem wq_cookie_handler_drains_pending (cfg : Config) (heap : Heap) (cpu : Nat) (s : State)
    (hwf : queue_wf s cpu)
    (hdef : ∀ pair ∈ pending_entries s cpu, ∀ s2,
      (get_cookie cfg false cpu (heap.task_at pair.1) (heap.vma_at pair.2) none s2).isSome = true) :
    ∃ s1, wq_cookie_handler cfg heap cpu s = some (pending_entries s cpu, s1) ∧
      s1.translate_buffer_read cpu = s.translate_buffer_write cpu ∧
      s1.translate_buffer_write cpu = s.translate_buffer_write cpu ∧
      s1.translate_buffer cpu = s.translate_buffer cpu := by
  obtain ⟨hm, hr, hr2, hw, hw2⟩ := hwf
  unfold wq_cookie_handler
  unfold pending_entries at hdef ⊢
  rw [hm] at hdef ⊢
  exact wq_cookie_handler_loop_drains cfg heap cpu (s.translate_buffer cpu)
    (s.translate_buffer_write cpu) hw hw2 (127 + 2) s rfl hm rfl hr hr2 (by omega) hdef

/-- C14, at a concrete input: with the two pairs (1000, 8192) and (1001, 8193) pending,
the worker calls `get_cookie` for these two pairs in this order and ends with the
read index at the write index. -/
theorem wq_cookie_handler_drains_pending_witness :
    (queue_wf two_pending_state 0 ∧
      pending_entries two_pending_state 0 = [(1000, 8192), (1001, 8193)]) ∧
    ∃ s1, wq_cookie_handler (sample_config 1) sample_heap 0 two_pending_state =
        some (pending_entries two_pending_state 0, s1) ∧
      s1.translate_buffer_read 0 = two_pending_state.translate_buffer_write 0 :=
  ⟨by decide,
   let ⟨s1, h1, h2, _⟩ :=
     wq_cookie_handler_drains_pending (sample_config 1) sample_heap 0 two_pending_state
       (by decide) (fun _ _ s2 => get_cookie_defined_of_no_mm _ _ _ _ _ s2 rfl)
   ⟨s1, h1, h2⟩⟩

/-- C15. For a process whose argument area holds `zygote` at the end of a readable page
and continues on an unreadable page, `translate_app_process` in process context
leaves through `goto outsem` after the first page: it returns 1 with the text
`zygote`, and `get_cookie` allocates the cookie 2 and emits the define-symbol frame
`(PROTOCOL_COOKIE, 2, zygote)`. -/
theorem translate_app_process_accepts_zygote_on_partial_read :
    (translate_app_process false (TextPtr.name str_app_process) 0 zygote_call.task 8192
        (session_start 1)).map (fun r => (r.1, text_read r.2.2 0 r.2.1)) =
      some (1, some str_zygote) ∧
    (get_cookie_calls (sample_config 1) 0 [zygote_call] (session_start 1)).map
        (fun p => (p.1, p.2.gator_buffer 0, p.2.cookie_next_key 0)) =
      some ([2], define_frame (sample_config 1) 2 str_zygote, 2) := by
  decide


/-! ## The Mali video driver: the handshake buffer -/

theorem packInt_eq_fits_append (enc : Int → List Nat) (bufsize : Nat) (buf : List Nat) (x : Int) :
    Buffer.packInt enc bufsize buf x = fits_append bufsize buf (enc x) := rfl

theorem put_code_eq_fits_append (bufsize : Nat) (buf : List Nat) (code : String) :
    put_code bufsize buf code = fits_append bufsize buf (code.toList.map Char.toNat) := by
  have hl : (code.toList.map Char.toNat).length = code.length := by
    rw [List.length_map]; rfl
  unfold put_code fits_append
  rw [hl]

/-- Two appends in a row fit exactly when their concatenation fits. -/
theorem fits_append_bind (bufsize : Nat) (buf x : List Nat) (f : List Nat → Option (List Nat))
    (y : List Nat) (hf : ∀ b, b.length ≤ bufsize → f b = fits_append bufsize b y) :
    (fits_append bufsize buf x).bind f = fits_append bufsize buf (x ++ y) := by
  unfold fits_append
  by_cases h1 : buf.length + x.length ≤ bufsize
  · rw [if_pos h1, Option.some_bind, hf _ (by rw [List.length_append]; exact h1)]
    unfold fits_append
    simp only [List.length_append, List.append_assoc, Nat.add_assoc]
  · rw [if_neg h1, Option.none_bind, if_neg]
    simp only [List.length_append]
    omega

/-- A sequence of `Buffer::packInt` calls appends the encodings of the values, in
order, when they all fit. -/
theorem packInts_eq_fits_append (enc : Int → List Nat) (bufsize : Nat) :
    ∀ (xs : List Int) (buf : List Nat), buf.length ≤ bufsize →
      Buffer.packInts enc bufsize buf xs = fits_append bufsize buf (xs.flatMap enc) := by
  intro xs
  induction xs with
  | nil =>
    intro buf hb
    simp [Buffer.packInts, fits_append, hb]
  | cons x xs ih =>
    intro buf hb
    have hstep : Buffer.packInts enc bufsize buf (x :: xs) =
        (fits_append bufsize buf (enc x)).bind fun b => Buffer.packInts enc bufsize b xs := by
      rw [Buffer.packInts, packInt_eq_fits_append]
      cases fits_append bufsize buf (enc x) <;> rfl
    rw [hstep, fits_append_bind bufsize buf (enc x) _ (xs.flatMap enc) (fun b hb2 => ih b hb2)]
    simp [List.flatMap_cons]

theorem enabled_ids_cons_pos (m : MaliVideoCounter) (rest : List MaliVideoCounter)
    (type : MaliVideoCounterType) (hm : (m.mEnabled && (m.mType == type)) = true) :
    enabled_ids (m :: rest) type = m.mId :: enabled_ids rest type := by
  simp only [enabled_ids, List.filter_cons, hm, if_true, List.map_cons]

theorem enabled_ids_cons_neg (m : MaliVideoCounter) (rest : List MaliVideoCounter)
    (type : MaliVideoCounterType) (hm : ¬ (m.mEnabled && (m.mType == type)) = true) :
    enabled_ids (m :: rest) type = enabled_ids rest type := by
  simp only [enabled_ids, List.filter_cons, hm, Bool.false_eq_true, if_false]

theorem marshalEnable_count_eq (type : MaliVideoCounterType) :
    ∀ (l : List MaliVideoCounter) (n : Int),
      MaliVideoDriver.marshalEnable_count type l n = n + (enabled_ids l type).length := by
  intro l
  induction l with
  | nil => intro n; simp [MaliVideoDriver.marshalEnable_count, enabled_ids]
  | cons m rest ih =>
    intro n
    rw [MaliVideoDriver.marshalEnable_count, ih]
    by_cases hm : (m.mEnabled && (m.mType == type)) = true
    · rw [if_pos hm, enabled_ids_cons_pos m rest type hm]
      simp only [List.length_cons, Nat.cast_add, Nat.cast_one]
      omega
    · rw [if_neg hm, enabled_ids_cons_neg m rest type hm]

theorem marshalEnable_ids_eq (enc : Int → List Nat) (type : MaliVideoCounterType) (bufsize : Nat) :
    ∀ (l : List MaliVideoCounter) (buf : List Nat),
      MaliVideoDriver.marshalEnable_ids enc type bufsize l buf =
        Buffer.packInts enc bufsize buf (enabled_ids l type) := by
  intro l
  induction l with
  | nil => intro buf; rfl
  | cons m rest ih =>
    intro buf
    rw [MaliVideoDriver.marshalEnable_ids]
    by_cases hm : (m.mEnabled && (m.mType == type)) = true
    · rw [if_pos hm, enabled_ids_cons_pos m rest type hm, Buffer.packInts]
      cases Buffer.packInt enc bufsize buf m.mId with
      | none => rfl
      | some b => exact ih b
    · rw [if_neg hm, enabled_ids_cons_neg m rest type hm]
      exact ih buf

/-- C17. For every counter list, type and buffer, `marshalEnable` makes exactly the
`Buffer::packInt` calls for the length `4 * k` and then for the provider ids of the
`k` counters that are enabled and of that type, in list order, each once; every id
packed is the id of an enabled counter of that type. -/
theorem marshalEnable_packs_enabled_ids (enc : Int → List Nat)
    (mCounters : List MaliVideoCounter) (type : MaliVideoCounterType) (bufsize : Nat)
    (buf : List Nat) :
    MaliVideoDriver.marshalEnable enc mCounters type bufsize buf =
      Buffer.packInts enc bufsize buf
        ((4 * ((enabled_ids mCounters type).length : Int)) :: enabled_ids mCounters type) ∧
    (enabled_ids mCounters type).length =
      (mCounters.filter fun m => m.mEnabled && (m.mType == type)).length ∧
    (∀ x ∈ enabled_ids mCounters type,
      ∃ m ∈ mCounters, m.mEnabled = true ∧ m.mType = type ∧ m.mId = x) := by
  refine ⟨?_, ?_, ?_⟩
  · unfold MaliVideoDriver.marshalEnable
    simp only []
    rw [marshalEnable_count_eq, Buffer.packInts]
    have e : (0 : Int) + ((enabled_ids mCounters type).length : Int) * 4 =
        4 * ((enabled_ids mCounters type).length : Int) := by ring
    rw [Int.zero_add] at e ⊢
    rw [e]
    cases Buffer.packInt enc bufsize buf (4 * ((enabled_ids mCounters type).length : Int)) with
    | none => rfl
    | some b => exact marshalEnable_ids_eq enc type bufsize mCounters b
  · unfold enabled_ids
    rw [List.length_map]
  · intro x hx
    unfold enabled_ids at hx
    obtain ⟨m, hm1, hm2⟩ := List.mem_map.mp hx
    obtain ⟨hm3, hm4⟩ := List.mem_filter.mp hm1
    simp only [Bool.and_eq_true, beq_iff_eq] at hm4
    exact ⟨m, hm3, hm4.1, hm4.2, hm2⟩

theorem marshalEnable_eq_fits_append (enc : Int → List Nat) (mCounters : List MaliVideoCounter)
    (type : MaliVideoCounterType) (bufsize : Nat) (buf : List Nat) (hb : buf.length ≤ bufsize) :
    MaliVideoDriver.marshalEnable enc mCounters type bufsize buf =
      fits_append bufsize buf (enable_payload enc mCounters type) := by
  rw [(marshalEnable_packs_enabled_ids enc mCounters type bufsize buf).1,
    packInts_eq_fits_append enc bufsize _ buf hb]
  simp [enable_payload, List.flatMap_cons]

theorem start_startup_eq (enc : Int → List Nat) (buf : List Nat) :
    MaliVideoDriver.start_startup enc buf =
      fits_append 256 buf ("CLNT".toList.map Char.toNat ++ (enc 4 ++ enc 1)) := by
  unfold MaliVideoDriver.start_startup
  rw [put_code_eq_fits_append]
  apply fits_append_bind
  intro b _
  rw [packInt_eq_fits_append]
  apply fits_append_bind
  intro b2 _
  rfl

theorem start_configure_eq (enc : Int → List Nat) (buf : List Nat) :
    MaliVideoDriver.start_configure enc buf =
      fits_append 256 buf ("CNFG".toList.map Char.toNat ++
        (enc 20 ++ (enc MVE_INSTR_CONFIGURATION ++ (enc 1 ++ enc 1)))) := by
  unfold MaliVideoDriver.start_configure
  rw [put_code_eq_fits_append]
  apply fits_append_bind
  intro b _
  rw [packInt_eq_fits_append]
  apply fits_append_bind
  intro b2 _
  rw [packInt_eq_fits_append]
  apply fits_append_bind
  intro b3 _
  rw [packInt_eq_fits_append]
  apply fits_append_bind
  intro b4 _
  rfl

theorem start_rates_eq (enc : Int → List Nat) (mSampleRate mLiveRate : Int) (buf : List Nat)
    (hrate : mSampleRate ≠ 0) :
    MaliVideoDriver.start_rates enc mSampleRate mLiveRate buf =
      fits_append 256 buf (enc (Int.tdiv 1000 mSampleRate) ++ enc (Int.tdiv mLiveRate 1000000)) := by
  unfold MaliVideoDriver.start_rates c_div
  rw [if_neg hrate, Option.some_bind, packInt_eq_fits_append]
  apply fits_append_bind
  intro b _
  rw [if_neg (by decide), Option.some_bind]
  rfl

theorem start_enable_eq (enc : Int → List Nat) (mCounters : List MaliVideoCounter)
    (buf : List Nat) :
    MaliVideoDriver.start_enable enc mCounters buf =
      fits_append 256 buf ("CFGc".toList.map Char.toNat ++
        (enable_payload enc mCounters MaliVideoCounterType.MVCT_COUNTER ++
          ("CFGe".toList.map Char.toNat ++
            enable_payload enc mCounters MaliVideoCounterType.MVCT_EVENT))) := by
  unfold MaliVideoDriver.start_enable
  rw [put_code_eq_fits_append]
  apply fits_append_bind
  intro b hb
  rw [marshalEnable_eq_fits_append enc mCounters _ 256 b hb]
  apply fits_append_bind
  intro b2 hb2
  rw [put_code_eq_fits_append]
  apply fits_append_bind
  intro b3 hb3
  exact marshalEnable_eq_fits_append enc mCounters _ 256 b3 hb3

/-- C16. For every positive sample rate the division is defined, and the handshake
built by `MaliVideoDriver::start` is, when it fits the 256-byte buffer, the `CLNT`
record, the `CNFG` record whose sample-rate field is `1000 / mSampleRate` and whose
live-rate field is `mLiveRate / 1000000` (C integer division), and the two enable
lists. -/
theorem start_buffer_eq_handshake_frame (enc : Int → List Nat)
    (mCounters : List MaliVideoCounter) (mSampleRate mLiveRate : Int) (hrate : 0 < mSampleRate) :
    MaliVideoDriver.start_buffer enc mCounters mSampleRate mLiveRate =
      fits_append 256 []
        (handshake_frame enc mCounters (Int.tdiv 1000 mSampleRate) (Int.tdiv mLiveRate 1000000)) := by
  have hne : mSampleRate ≠ 0 := by omega
  unfold MaliVideoDriver.start_buffer
  rw [start_startup_eq]
  rw [fits_append_bind 256 [] _ _
    ("CNFG".toList.map Char.toNat ++
        (enc 20 ++ (enc MVE_INSTR_CONFIGURATION ++ (enc 1 ++ enc 1))) ++
      (enc (Int.tdiv 1000 mSampleRate) ++ enc (Int.tdiv mLiveRate 1000000) ++
        ("CFGc".toList.map Char.toNat ++
          (enable_payload enc mCounters MaliVideoCounterType.MVCT_COUNTER ++
            ("CFGe".toList.map Char.toNat ++
              enable_payload enc mCounters MaliVideoCounterType.MVCT_EVENT)))))]
  · unfold handshake_frame
    simp only [List.append_assoc]
  · intro b _
    rw [start_configure_eq]
    apply fits_append_bind
    intro b2 _
    rw [start_rates_eq enc mSampleRate mLiveRate b2 hne]
    apply fits_append_bind
    intro b3 _
    exact start_enable_eq enc mCounters b3

/-- C16, at a concrete input: for the sample rate 100 and the live rate 2000000 the
fields are 10 and 2; with 4-byte little-endian integers and no counter the handshake
is the 56 bytes shown. -/
theorem start_buffer_eq_handshake_frame_witness :
    (0 : Int) < 100 ∧ Int.tdiv 1000 100 = 10 ∧ Int.tdiv 2000000 1000000 = 2 ∧
    MaliVideoDriver.start_buffer le32 [] 100 2000000 =
      fits_append 256 [] (handshake_frame le32 [] (Int.tdiv 1000 100) (Int.tdiv 2000000 1000000)) ∧
    fits_append 256 [] (handshake_frame le32 [] 10 2) =
      some [67, 76, 78, 84, 4, 0, 0, 0, 1, 0, 0, 0,
        67, 78, 70, 71, 20, 0, 0, 0, 14, 32, 0, 0, 1, 0, 0, 0, 1, 0, 0, 0,
        10, 0, 0, 0, 2, 0, 0, 0,
        67, 70, 71, 99, 0, 0, 0, 0, 67, 70, 71, 101, 0, 0, 0, 0] :=
  ⟨by decide, by decide, by decide,
   start_buffer_eq_handshake_frame le32 [] 100 2000000 (by decide), by decide⟩

/-- C18. With 4-byte little-endian integers and no counter the handshake has 56 bytes.
When the first `::write` returns -1 and the second accepts 57 bytes, `start` does not
stop at the error: the result -1, stored in the unsigned `size_t bytes`, passes the
test `bytes <= 0`, `written` becomes -1, a second `::write` is made from `buf - 1`
with count 57, and `start` returns true without logging; the same with a 32-bit and
a 64-bit `size_t`. -/
theorem start_continues_after_write_error :
    MaliVideoDriver.start le32 32 [] 100 2000000 [-1, 57] = some (true, [(0, 56), (-1, 57)]) ∧
    MaliVideoDriver.start le32 64 [] 100 2000000 [-1, 57] = some (true, [(0, 56), (-1, 57)]) := by
  decide

/-! ## Counter setup: `KMod::setupCounter` and `MaliVideoDriver::setupCounter` -/

/-- C19. For an EBS-capable counter whose enabled toggle was accepted by a provider
without `count` attribute file: a requested count greater than 0 ends in the logged
error and `handleException()`; a requested count of 0 returns without error, the
request keeping its enabled flag and carrying the key read from the driver. -/
theorem KMod_setupCounter_ebs_without_count_file (drv : KModDriver) (counter : Counter)
    (haccept : (drv.writeReadEnabled 1).1 = 0 ∧ (drv.writeReadEnabled 1).2 ≠ 0)
    (hebs : counter.ebsCapable = true) (hnocount : drv.countExists = false) :
    (0 < counter.mCount →
      KMod.setupCounter drv counter = SetupOutcome.exception
        "Event Based Sampling is only supported with kernel versions 3.0.0 and higher with CONFIG_PERF_EVENTS=y, and CONFIG_HW_PERF_EVENTS=y") ∧
    (counter.mCount = 0 →
      KMod.setupCounter drv counter =
        SetupOutcome.returned { counter with mKey := drv.readKey }) := by
  have hcond : ¬ ((drv.writeReadEnabled 1).1 ≠ 0 ∨ (drv.writeReadEnabled 1).2 = 0) := by
    intro h
    rcases h with h | h
    · exact h haccept.1
    · exact haccept.2 h
  constructor
  · intro hpos
    unfold KMod.setupCounter
    simp only [hcond, if_false, hebs, if_true, hnocount, Bool.false_eq_true, gt_iff_lt, hpos]
  · intro hzero
    unfold KMod.setupCounter
    simp only [hcond, if_false, hebs, if_true, hnocount, Bool.false_eq_true, gt_iff_lt, hzero,
      Int.lt_irrefl]

/-- C19, at a concrete input: a provider that accepts the toggle, has the key 7 and no
`count` file; the request with count 5 ends in the exception. -/
theorem KMod_setupCounter_ebs_without_count_file_witness :
    KMod.setupCounter
      { writeReadEnabled := fun v => (0, v), readKey := 7, countExists := false,
        writeReadCount := fun v => (0, v) }
      { mType := "ARM_Cortex-A9_cnt0", mEnabled := true, mKey := 0, mEvent := 4, mCount := 5,
        ebsCapable := true } = SetupOutcome.exception
      "Event Based Sampling is only supported with kernel versions 3.0.0 and higher with CONFIG_PERF_EVENTS=y, and CONFIG_HW_PERF_EVENTS=y" :=
  (KMod_setupCounter_ebs_without_count_file
    { writeReadEnabled := fun v => (0, v), readKey := 7, countExists := false,
      writeReadCount := fun v => (0, v) }
    { mType := "ARM_Cortex-A9_cnt0", mEnabled := true, mKey := 0, mEvent := 4, mCount := 5,
      ebsCapable := true } (by decide) rfl rfl).1 (by decide)

/-- What `findCounter` returns: the first counter with the name and its position, or
`none` when no counter has it. -/
theorem findCounter_spec (counter : Counter) :
    ∀ (l : List MaliVideoCounter),
      (∀ i m, MaliVideoDriver.findCounter l counter = some (i, m) →
        l.get? i = some m ∧ m.mName = counter.mType ∧
          ∀ j m1, j < i → l.get? j = some m1 → m1.mName ≠ counter.mType) ∧
      (MaliVideoDriver.findCounter l counter = none → ∀ m ∈ l, m.mName ≠ counter.mType) := by
  intro l
  induction l with
  | nil =>
    refine ⟨?_, ?_⟩
    · intro i m h; cases h
    · intro _ m hm; cases hm
  | cons m rest ih =>
    obtain ⟨ih1, ih2⟩ := ih
    refine ⟨?_, ?_⟩
    · intro i m0 h
      rw [MaliVideoDriver.findCounter] at h
      by_cases hm : m.mName = counter.mType
      · rw [if_pos hm] at h
        cases h
        exact ⟨rfl, hm, fun j m1 hj _ => absurd hj (Nat.not_lt_zero j)⟩
      · rw [if_neg hm] at h
        obtain ⟨⟨i1, m2⟩, hi1, hp⟩ := Option.map_eq_some'.mp h
        simp only [Prod.mk.injEq] at hp
        obtain ⟨rfl, rfl⟩ := hp
        obtain ⟨g1, g2, g3⟩ := ih1 i1 m2 hi1
        refine ⟨g1, g2, ?_⟩
        intro j m1 hj hget
        cases j with
        | zero =>
          simp only [List.get?_cons_zero, Option.some.injEq] at hget
          subst hget
          exact hm
        | succ j1 =>
          exact g3 j1 m1 (by omega) hget
    · intro h x hx
      rw [MaliVideoDriver.findCounter] at h
      by_cases hm : m.mName = counter.mType
      · rw [if_pos hm] at h; cases h
      · rw [if_neg hm] at h
        have hrest : MaliVideoDriver.findCounter rest counter = none := by
          cases hf : MaliVideoDriver.findCounter rest counter with
          | none => rfl
          | some i1 => rw [hf] at h; cases h
        cases hx with
        | head => exact hm
        | tail _ hx1 => exact ih2 hrest x hx1

/-- The call `setEnabled(enabled)` on the counter at position `i` changes that counter's
flag and nothing else. -/
theorem setEnabledAt_spec (enabled : Bool) :
    ∀ (l : List MaliVideoCounter) (i : Nat) (m : MaliVideoCounter), l.get? i = some m →
      (MaliVideoCounter.setEnabledAt l i enabled).get? i = some { m with mEnabled := enabled } ∧
      ∀ j, j ≠ i → (MaliVideoCounter.setEnabledAt l i enabled).get? j = l.get? j := by
  intro l
  induction l with
  | nil => intro i m h; cases h
  | cons x rest ih =>
    intro i m h
    cases i with
    | zero =>
      simp only [List.get?_cons_zero, Option.some.injEq] at h
      subst h
      refine ⟨rfl, ?_⟩
      intro j hj
      cases j with
      | zero => exact absurd rfl hj
      | succ j1 => rfl
    | succ i1 =>
      obtain ⟨h1, h2⟩ := ih i1 m h
      refine ⟨h1, ?_⟩
      intro j hj
      cases j with
      | zero => rfl
      | succ j1 => exact h2 j1 (by omega)

/-- C20. If `claimCounter` is true, `setupCounter` enables the first known counter whose
name equals the request's type, gives the request that counter's key and changes no
other known counter; if `claimCounter` is false, no known counter has that name, the
request is marked disabled and the known counters are unchanged. -/
theorem setupCounter_agrees_with_claimCounter (mCounters : List MaliVideoCounter)
    (counter : Counter) :
    (MaliVideoDriver.claimCounter mCounters counter = true →
      ∃ i m, MaliVideoDriver.findCounter mCounters counter = some (i, m) ∧
        mCounters.get? i = some m ∧ m.mName = counter.mType ∧
        (∀ j m1, j < i → mCounters.get? j = some m1 → m1.mName ≠ counter.mType) ∧
        (MaliVideoDriver.setupCounter mCounters counter).1.get? i =
          some { m with mEnabled := true } ∧
        (∀ j, j ≠ i →
          (MaliVideoDriver.setupCounter mCounters counter).1.get? j = mCounters.get? j) ∧
        (MaliVideoDriver.setupCounter mCounters counter).2 = { counter with mKey := m.mKey }) ∧
    (MaliVideoDriver.claimCounter mCounters counter = false →
      (∀ m ∈ mCounters, m.mName ≠ counter.mType) ∧
      MaliVideoDriver.setupCounter mCounters counter =
        (mCounters, { counter with mEnabled := false })) := by
  obtain ⟨s1, s2⟩ := findCounter_spec counter mCounters
  constructor
  · intro hclaim
    unfold MaliVideoDriver.claimCounter at hclaim
    obtain ⟨⟨i, m⟩, hi⟩ := Option.isSome_iff_exists.mp hclaim
    obtain ⟨g1, g2, g3⟩ := s1 i m hi
    obtain ⟨e1, e2⟩ := setEnabledAt_spec true mCounters i m g1
    refine ⟨i, m, hi, g1, g2, g3, ?_, ?_, ?_⟩
    · unfold MaliVideoDriver.setupCounter
      simp only [hi]
      exact e1
    · intro j hj
      unfold MaliVideoDriver.setupCounter
      simp only [hi]
      exact e2 j hj
    · unfold MaliVideoDriver.setupCounter
      simp only [hi]
  · intro hclaim
    unfold MaliVideoDriver.claimCounter at hclaim
    have hnone : MaliVideoDriver.findCounter mCounters counter = none := by
      cases hf : MaliVideoDriver.findCounter mCounters counter with
      | none => rfl
      | some i => rw [hf] at hclaim; cases hclaim
    refine ⟨s2 hnone, ?_⟩
    unfold MaliVideoDriver.setupCounter
    simp only [hnone]

/-- C20, at a concrete input: two known counters, the request names the second;
`claimCounter` is true and `findCounter` returns a counter with that name. -/
theorem setupCounter_agrees_with_claimCounter_witness :
    MaliVideoDriver.claimCounter
      [{ mName := "ARM_Mali-V500_cnt0", mType := MaliVideoCounterType.MVCT_COUNTER, mId := 0,
         mKey := 11, mEnabled := false },
       { mName := "ARM_Mali-V500_evn3", mType := MaliVideoCounterType.MVCT_EVENT, mId := 3,
         mKey := 12, mEnabled := false }]
      { mType := "ARM_Mali-V500_evn3", mEnabled := true, mKey := 0, mEvent := 0, mCount := 0,
        ebsCapable := false } = true ∧
    ∃ i m, MaliVideoDriver.findCounter
      [{ mName := "ARM_Mali-V500_cnt0", mType := MaliVideoCounterType.MVCT_COUNTER, mId := 0,
         mKey := 11, mEnabled := false },
       { mName := "ARM_Mali-V500_evn3", mType := MaliVideoCounterType.MVCT_EVENT, mId := 3,
         mKey := 12, mEnabled := false }]
      { mType := "ARM_Mali-V500_evn3", mEnabled := true, mKey := 0, mEvent := 0, mCount := 0,
        ebsCapable := false } = some (i, m) ∧ m.mName = "ARM_Mali-V500_evn3" :=
  ⟨by decide,
   let ⟨i, m, h1, _, h3, _⟩ :=
     (setupCounter_agrees_with_claimCounter
      [{ mName := "ARM_Mali-V500_cnt0", mType := MaliVideoCounterType.MVCT_COUNTER, mId := 0,
         mKey := 11, mEnabled := false },
       { mName := "ARM_Mali-V500_evn3", mType := MaliVideoCounterType.MVCT_EVENT, mId := 3,
         mKey := 12, mEnabled := false }]
      { mType := "ARM_Mali-V500_evn3", mEnabled := true, mKey := 0, mEvent := 0, mCount := 0,
        ebsCapable := false }).1 (by decide)
   ⟨i, m, h1, h3⟩⟩

/-! ## `resetCounters` -/

theorem resetCounters_disabled (l : List MaliVideoCounter) :
    ∀ m ∈ MaliVideoDriver.resetCounters l, m.mEnabled = false := by
  induction l with
  | nil => intro m hm; cases hm
  | cons a rest ih =>
    intro m hm
    rw [MaliVideoDriver.resetCounters, List.mem_cons] at hm
    rcases hm with h | h
    · rw [h]
    · exact ih m h

theorem countersEnabled_resetCounters (l : List MaliVideoCounter) :
    MaliVideoDriver.countersEnabled (MaliVideoDriver.resetCounters l) = false := by
  induction l with
  | nil => rfl
  | cons a rest ih =>
    rw [MaliVideoDriver.resetCounters, MaliVideoDriver.countersEnabled]
    simpa using ih

theorem marshalEnable_count_resetCounters (type : MaliVideoCounterType)
    (l : List MaliVideoCounter) (n : Int) :
    MaliVideoDriver.marshalEnable_count type (MaliVideoDriver.resetCounters l) n = n := by
  induction l with
  | nil => rfl
  | cons a rest ih =>
    rw [MaliVideoDriver.resetCounters, MaliVideoDriver.marshalEnable_count]
    simpa using ih

theorem marshalEnable_ids_resetCounters (enc : Int → List Nat) (type : MaliVideoCounterType)
    (bufsize : Nat) (l : List MaliVideoCounter) (buf : List Nat) :
    MaliVideoDriver.marshalEnable_ids enc type bufsize (MaliVideoDriver.resetCounters l) buf
      = some buf := by
  induction l with
  | nil => rfl
  | cons a rest ih =>
    rw [MaliVideoDriver.resetCounters, MaliVideoDriver.marshalEnable_ids]
    simpa using ih

theorem resetCounters_fields (l : List MaliVideoCounter) :
    (MaliVideoDriver.resetCounters l).map (fun m => (m.mName, m.mType, m.mId, m.mKey))
      = l.map (fun m => (m.mName, m.mType, m.mId, m.mKey)) := by
  induction l with
  | nil => rfl
  | cons a rest ih =>
    rw [MaliVideoDriver.resetCounters, List.map_cons, List.map_cons, ih]

/-- C21. `MaliVideoDriver::resetCounters` disables every counter of the list: afterwards
every counter has `isEnabled() = false`, `countersEnabled()` returns false,
`marshalEnable` for any type packs the single integer 0 (length 0, no ids), and the
names, types, ids and keys of the counters and their order are unchanged. -/
theorem resetCounters_disables_all (mCounters : List MaliVideoCounter) :
    (∀ m ∈ MaliVideoDriver.resetCounters mCounters, m.mEnabled = false) ∧
    MaliVideoDriver.countersEnabled (MaliVideoDriver.resetCounters mCounters) = false ∧
    (∀ (enc : Int → List Nat) (type : MaliVideoCounterType) (bufsize : Nat) (buf : List Nat),
      MaliVideoDriver.marshalEnable enc (MaliVideoDriver.resetCounters mCounters) type bufsize buf
        = Buffer.packInt enc bufsize buf 0) ∧
    (MaliVideoDriver.resetCounters mCounters).map (fun m => (m.mName, m.mType, m.mId, m.mKey))
      = mCounters.map (fun m => (m.mName, m.mType, m.mId, m.mKey)) := by
  refine ⟨resetCounters_disabled mCounters, countersEnabled_resetCounters mCounters, ?_,
    resetCounters_fields mCounters⟩
  intro enc type bufsize buf
  unfold MaliVideoDriver.marshalEnable
  simp only [marshalEnable_count_resetCounters, zero_mul]
  cases h : Buffer.packInt enc bufsize buf 0 with
  | none => rfl
  | some buf1 => exact marshalEnable_ids_resetCounters enc type bufsize mCounters buf1

/-! ## Range of the bucket index -/

theorem cookiemap_code_bound (key : Nat) :
    ∃ c, c ≤ COOKIEMAP_ENTRIES - 1 ∧ cookiemap_code key = c * MAX_COLLISIONS := by
  unfold cookiemap_code
  simp only []
  generalize ((((((key >>> 32 + key) % 2 ^ 32) >>> 24 &&& 0xff) * 31 +
    (((key >>> 32 + key) % 2 ^ 32) >>> 16 &&& 0xff)) % 2 ^ 32 * 31 +
    (((key >>> 32 + key) % 2 ^ 32) >>> 8 &&& 0xff)) % 2 ^ 32 * 31 +
    (((key >>> 32 + key) % 2 ^ 32) >>> 0 &&& 0xff)) % 2 ^ 32 = v
  refine ⟨v &&& (COOKIEMAP_ENTRIES - 1), Nat.and_le_right, ?_⟩
  have h : v &&& (COOKIEMAP_ENTRIES - 1) ≤ COOKIEMAP_ENTRIES - 1 := Nat.and_le_right
  simp only [COOKIEMAP_ENTRIES, MAX_COLLISIONS] at h ⊢
  omega

theorem cookiemap_exists_shift_outside (base : Nat) (n : Nat) :
    ∀ (keys values : Nat → Nat) (i : Nat), (i < base ∨ base + n < i) →
      (cookiemap_exists_shift base n keys values).1 i = keys i ∧
      (cookiemap_exists_shift base n keys values).2 i = values i := by
  induction n with
  | zero => intro keys values i _; exact ⟨rfl, rfl⟩
  | succ x ih =>
    intro keys values i hi
    rw [cookiemap_exists_shift]
    have h1 := ih (store keys (base + (x + 1)) (keys (base + x)))
      (store values (base + (x + 1)) (values (base + x))) i (by omega)
    rw [h1.1, h1.2, store_other _ _ _ _ (by omega), store_other _ _ _ _ (by omega)]
    exact ⟨rfl, rfl⟩

theorem cookiemap_add_shift_outside (base : Nat) (n : Nat) :
    ∀ (keys values : Nat → Nat) (i : Nat), (i < base ∨ base + n < i) →
      (cookiemap_add_shift base n keys values).1 i = keys i ∧
      (cookiemap_add_shift base n keys values).2 i = values i := by
  induction n with
  | zero => intro keys values i _; exact ⟨rfl, rfl⟩
  | succ x ih =>
    intro keys values i hi
    rw [cookiemap_add_shift]
    have h1 := ih (store keys (base + (x + 1)) (keys (base + x)))
      (store values (base + (x + 1)) (keys (base + x) % 2 ^ 32)) i (by omega)
    rw [h1.1, h1.2, store_other _ _ _ _ (by omega), store_other _ _ _ _ (by omega)]
    exact ⟨rfl, rfl⟩

theorem cookiemap_exists_loop_outside (key base : Nat) (keys values : Nat → Nat) (n : Nat) :
    ∀ (x i : Nat), (i < base ∨ base + (x + n) ≤ i) →
      (cookiemap_exists_loop key base keys values n x).2.1 i = keys i ∧
      (cookiemap_exists_loop key base keys values n x).2.2 i = values i := by
  induction n with
  | zero => intro x i _; exact ⟨rfl, rfl⟩
  | succ n ih =>
    intro x i hi
    rw [cookiemap_exists_loop]
    by_cases h : keys (base + x) = key
    · rw [if_pos h]
      have h1 := cookiemap_exists_shift_outside base x keys values i (by omega)
      simp only []
      rw [store_other _ _ _ _ (by omega), store_other _ _ _ _ (by omega)]
      exact h1
    · rw [if_neg h]
      exact ih (x + 1) i (by omega)

theorem cookiemap_exists_reads_bucket (cpu key : Nat) (s t : State)
    (h : ∀ x, x < MAX_COLLISIONS →
      s.cookie_keys cpu (cookiemap_code key + x) = t.cookie_keys cpu (cookiemap_code key + x) ∧
      s.cookie_values cpu (cookiemap_code key + x) =
        t.cookie_values cpu (cookiemap_code key + x)) :
    (cookiemap_exists cpu key s).1 = (cookiemap_exists cpu key t).1 := by
  have h0 := h 0 (by decide)
  have h1 := h 1 (by decide)
  simp only [cookiemap_exists, MAX_COLLISIONS, cookiemap_exists_loop, h0.1, h0.2, h1.1, h1.2,
    Nat.zero_add]
  repeat' split
  all_goals rfl

/-- What a successful run of the loop of `cookies_initialize` leaves for a CPU it
visits: zeroed cookie arrays, a queue with both indices 0; it keeps the mask. -/
theorem cookies_initialize_loop_unit (N : Nat) (buffer_ok text_ok : Nat → Bool) (cpu : Nat) :
    ∀ (present : List Nat) (s s1 : State),
      cookies_initialize_loop N buffer_ok text_ok present s = (0, s1) →
      s1.translate_buffer_mask = s.translate_buffer_mask ∧
      ((cpu ∈ present ∨
          (s.translate_buffer_read cpu = 0 ∧ s.translate_buffer_write cpu = 0 ∧
            ∀ i, i < COOKIEMAP_ENTRIES * MAX_COLLISIONS →
              s.cookie_keys cpu i = 0 ∧ s.cookie_values cpu i = 0)) →
        (s1.translate_buffer_read cpu = 0 ∧ s1.translate_buffer_write cpu = 0 ∧
          ∀ i, i < COOKIEMAP_ENTRIES * MAX_COLLISIONS →
            s1.cookie_keys cpu i = 0 ∧ s1.cookie_values cpu i = 0)) := by
  intro present
  induction present with
  | nil =>
    intro s s1 h
    simp only [cookies_initialize_loop, Prod.mk.injEq, true_and] at h
    subst h
    refine ⟨rfl, ?_⟩
    intro hc
    rcases hc with hc | hc
    · cases hc
    · exact hc
  | cons c cs ih =>
    intro s s1 h
    unfold cookies_initialize_loop at h
    simp only [] at h
    split at h
    · cases h
    · split at h
      · cases h
      · obtain ⟨hm, hu⟩ := ih _ _ h
        refine ⟨hm, ?_⟩
        intro hc
        apply hu
        by_cases hcc : cpu = c
        · right
          subst hcc
          simp only [store_same, true_and]
          intro i hi
          simp only [if_pos hi, and_self]
        · rcases hc with hc | hc
          · left
            cases hc with
            | head => exact absurd rfl hcc
            | tail _ hmem => exact hmem
          · right
            simp only [store_other _ _ _ _ hcc]
            exact hc

theorem cookies_initialize_unit (N : Nat) (buffer_ok text_ok : Nat → Bool) (present : List Nat)
    (cpu : Nat) (s : State)
    (h : ( cookies_initialize N buffer_ok text_ok present s).1 = 0) (hcpu : cpu ∈ present) :
    ( cookies_initialize N buffer_ok text_ok present s).2.translate_buffer_mask = 127 ∧
    ( cookies_initialize N buffer_ok text_ok present s).2.translate_buffer_read cpu = 0 ∧
    ( cookies_initialize N buffer_ok text_ok present s).2.translate_buffer_write cpu = 0 ∧
    ∀ i, i < COOKIEMAP_ENTRIES * MAX_COLLISIONS →
      ( cookies_initialize N buffer_ok text_ok present s).2.cookie_keys cpu i = 0 ∧
      ( cookies_initialize N buffer_ok text_ok present s).2.cookie_values cpu i = 0 := by
  unfold cookies_initialize at h ⊢
  simp only [] at h ⊢
  generalize hr : cookies_initialize_loop N buffer_ok text_ok present
    { s with translate_buffer_mask := 512 / 4 - 1 } = r at h ⊢
  obtain ⟨e, s2⟩ := r
  simp only [] at h ⊢
  by_cases h0 : e = 0
  · subst h0
    rw [if_pos rfl]
    obtain ⟨hm, hu⟩ := cookies_initialize_loop_unit N buffer_ok text_ok cpu present _ _ hr
    exact ⟨hm, hu (Or.inl hcpu)⟩
  · rw [if_neg h0] at h
    exact absurd h h0

/-- C24. For every key, `cookiemap_code key` is a multiple of `MAX_COLLISIONS` and
`cookiemap_code key + MAX_COLLISIONS ≤ COOKIEMAP_ENTRIES * MAX_COLLISIONS`.  So the
slots `cookiemap_code key + x`, `x < MAX_COLLISIONS`, lie inside the arrays of
`COOKIEMAP_ENTRIES * MAX_COLLISIONS` entries that `cookies_initialize` zeroes for every
present CPU; `cookiemap_exists` reads and writes only these slots and `cookiemap_add`
writes only these slots; and the buckets of two keys with different codes share no
slot. -/
theorem cookiemap_code_bucket_in_range (key : Nat) :
    cookiemap_code key % MAX_COLLISIONS = 0 ∧
    cookiemap_code key + MAX_COLLISIONS ≤ COOKIEMAP_ENTRIES * MAX_COLLISIONS ∧
    (∀ (N : Nat) (buffer_ok text_ok : Nat → Bool) (present : List Nat) (pre : State)
        (cpu x : Nat),
      ( cookies_initialize N buffer_ok text_ok present pre).1 = 0 → cpu ∈ present →
      x < MAX_COLLISIONS →
      ( cookies_initialize N buffer_ok text_ok present pre).2.cookie_keys cpu
          (cookiemap_code key + x) = 0 ∧
      ( cookies_initialize N buffer_ok text_ok present pre).2.cookie_values cpu
          (cookiemap_code key + x) = 0) ∧
    (∀ (cpu : Nat) (s : State) (i : Nat),
      (i < cookiemap_code key ∨ cookiemap_code key + MAX_COLLISIONS ≤ i) →
      (cookiemap_exists cpu key s).2.cookie_keys cpu i = s.cookie_keys cpu i ∧
      (cookiemap_exists cpu key s).2.cookie_values cpu i = s.cookie_values cpu i) ∧
    (∀ (cpu : Nat) (s t : State),
      (∀ x, x < MAX_COLLISIONS →
        s.cookie_keys cpu (cookiemap_code key + x) = t.cookie_keys cpu (cookiemap_code key + x) ∧
        s.cookie_values cpu (cookiemap_code key + x) =
          t.cookie_values cpu (cookiemap_code key + x)) →
      (cookiemap_exists cpu key s).1 = (cookiemap_exists cpu key t).1) ∧
    (∀ (cpu value : Nat) (s : State) (i : Nat),
      (i < cookiemap_code key ∨ cookiemap_code key + MAX_COLLISIONS ≤ i) →
      (cookiemap_add cpu key value s).cookie_keys cpu i = s.cookie_keys cpu i ∧
      (cookiemap_add cpu key value s).cookie_values cpu i = s.cookie_values cpu i) ∧
    (∀ (key2 x y : Nat), cookiemap_code key ≠ cookiemap_code key2 →
      x < MAX_COLLISIONS → y < MAX_COLLISIONS →
      cookiemap_code key + x ≠ cookiemap_code key2 + y) := by
  obtain ⟨c, hc, hcode⟩ := cookiemap_code_bound key
  have hmul : cookiemap_code key % MAX_COLLISIONS = 0 := by
    rw [hcode]; exact Nat.mul_mod_left c MAX_COLLISIONS
  have hle : cookiemap_code key + MAX_COLLISIONS ≤ COOKIEMAP_ENTRIES * MAX_COLLISIONS := by
    rw [hcode]
    simp only [COOKIEMAP_ENTRIES, MAX_COLLISIONS] at hc ⊢
    omega
  refine ⟨hmul, hle, ?_, ?_, ?_, ?_, ?_⟩
  · intro N buffer_ok text_ok present pre cpu x hinit hcpu hx
    exact (cookies_initialize_unit N buffer_ok text_ok present cpu pre hinit hcpu).2.2.2
      (cookiemap_code key + x) (by omega)
  · intro cpu s i hi
    simp only [cookiemap_exists, store_same]
    exact cookiemap_exists_loop_outside key (cookiemap_code key) _ _ MAX_COLLISIONS 0 i
      (by omega)
  · intro cpu s t h
    exact cookiemap_exists_reads_bucket cpu key s t h
  · intro cpu value s i hi
    simp only [cookiemap_add, store_same]
    have h1 := cookiemap_add_shift_outside (cookiemap_code key) (MAX_COLLISIONS - 1)
      (s.cookie_keys cpu) (s.cookie_values cpu) i
      (by simp only [MAX_COLLISIONS] at hi ⊢; omega)
    rw [store_other _ _ _ _ (by simp only [MAX_COLLISIONS] at hi; omega),
      store_other _ _ _ _ (by simp only [MAX_COLLISIONS] at hi; omega)]
    exact h1
  · intro key2 x y hne hx hy
    obtain ⟨c2, _, hcode2⟩ := cookiemap_code_bound key2
    rw [hcode, hcode2] at hne ⊢
    simp only [MAX_COLLISIONS] at hne hx hy ⊢
    omega

/-! ## Unit isolation -/

theorem cookiemap_exists_unit_view (cpu key : Nat) (s : State) (j : Nat) (hj : j ≠ cpu) :
    unit_view (cookiemap_exists cpu key s).2 j = unit_view s j := by
  simp only [unit_view, cookiemap_exists, store_other _ _ _ _ hj]

theorem cookiemap_add_unit_view (cpu key value : Nat) (s : State) (j : Nat) (hj : j ≠ cpu) :
    unit_view (cookiemap_add cpu key value s) j = unit_view s j := by
  simp only [unit_view, cookiemap_add, store_other _ _ _ _ hj]

theorem translate_buffer_write_int_unit_view (cpu x : Nat) (s : State) (j : Nat) (hj : j ≠ cpu) :
    unit_view (translate_buffer_write_int cpu x s) j = unit_view s j := by
  simp only [unit_view, translate_buffer_write_int, store_other _ _ _ _ hj]

theorem translate_buffer_read_int_unit_view (cpu : Nat) (s : State) (j : Nat) (hj : j ≠ cpu) :
    unit_view (translate_buffer_read_int cpu s).2 j = unit_view s j := by
  simp only [unit_view, translate_buffer_read_int, store_other _ _ _ _ hj]

theorem translate_enqueue_unit_view (cpu task vma : Nat) (s : State) (j : Nat) (hj : j ≠ cpu) :
    unit_view (translate_enqueue cpu task vma s) j = unit_view s j := by
  simp only [unit_view, translate_enqueue, translate_buffer_write_int, store_other _ _ _ _ hj]

theorem translate_app_process_unit_view (in_irq : Bool) (text : TextPtr) (cpu : Nat)
    (task : task_struct) (vma : Nat) (s s1 : State) (r : Nat) (t1 : TextPtr) (j : Nat)
    (hj : j ≠ cpu)
    (h : translate_app_process in_irq text cpu task vma s = some (r, t1, s1)) :
    unit_view s1 j = unit_view s j := by
  cases in_irq with
  | true =>
    rw [translate_app_process_irq] at h
    split at h
    · cases h
    · simp only [Option.some.injEq, Prod.mk.injEq] at h
      rw [← h.2.2]
    · simp only [Option.some.injEq, Prod.mk.injEq] at h
      rw [← h.2.2]
      exact translate_enqueue_unit_view cpu task.ptr vma s j hj
  | false =>
    unfold translate_app_process at h
    simp only [Bool.false_eq_true, if_false] at h
    repeat' (split at h)
    all_goals first
      | (cases h; rfl)
      | cases h

theorem get_cookie_insert_unit_view (cfg : Config) (cpu key : Nat) (text : List Nat) (s : State)
    (j : Nat) (hj : j ≠ cpu) :
    unit_view (get_cookie_insert cfg cpu key text s).2 j = unit_view s j := by
  simp only [unit_view, get_cookie_insert, gator_buffer_write_string,
    gator_buffer_write_packed_int, cookiemap_add, store_other _ _ _ _ hj]

theorem get_cookie_translate_unit_view (in_irq : Bool) (cpu : Nat) (task : task_struct)
    (vma : Option vm_area_struct) (mod : Option module) (text : List Nat) (s s1 : State)
    (t : Option (List Nat)) (j : Nat) (hj : j ≠ cpu)
    (h : get_cookie_translate in_irq cpu task vma mod text s = some (t, s1)) :
    unit_view s1 j = unit_view s j := by
  unfold get_cookie_translate at h
  split at h
  · split at h
    · cases h
    · rename_i retval text1 s2 htr
      have hv := translate_app_process_unit_view _ _ _ _ _ _ _ _ _ j hj htr
      split at h
      · simp only [Option.some.injEq, Prod.mk.injEq] at h
        rw [← h.2]; exact hv
      · split at h
        · cases h
        · simp only [Option.some.injEq, Prod.mk.injEq] at h
          rw [← h.2]; exact hv
  · simp only [Option.some.injEq, Prod.mk.injEq] at h
    rw [← h.2]

theorem get_cookie_unit_view (cfg : Config) (in_irq : Bool) (cpu : Nat) (task : task_struct)
    (vma : Option vm_area_struct) (mod : Option module) (s s1 : State) (c : Nat) (j : Nat)
    (hj : j ≠ cpu) (h : get_cookie cfg in_irq cpu task vma mod s = some (c, s1)) :
    unit_view s1 j = unit_view s j := by
  unfold get_cookie at h
  split at h
  · simp only [Option.some.injEq, Prod.mk.injEq] at h
    rw [← h.2]
  · rename_i text htext
    simp only [] at h
    have hex := cookiemap_exists_unit_view cpu (get_cookie_key s text task) s j hj
    split at h
    · simp only [Option.some.injEq, Prod.mk.injEq] at h
      rw [← h.2]; exact hex
    · split at h
      · cases h
      · rename_i s2 htr
        have hv := get_cookie_translate_unit_view _ _ _ _ _ _ _ _ _ j hj htr
        simp only [Option.some.injEq, Prod.mk.injEq] at h
        rw [← h.2, hv]; exact hex
      · rename_i t s2 htr
        have hv := get_cookie_translate_unit_view _ _ _ _ _ _ _ _ _ j hj htr
        have h2 := congrArg Prod.snd (Option.some.inj h)
        simp only [] at h2
        rw [← h2, get_cookie_insert_unit_view cfg cpu _ t s2 j hj, hv]; exact hex

theorem wq_cookie_handler_loop_unit_view (cfg : Config) (heap : Heap) (cpu commit : Nat) (j : Nat)
    (hj : j ≠ cpu) :
    ∀ (n : Nat) (s s1 : State) (calls : List (Nat × Nat)),
      wq_cookie_handler_loop cfg heap cpu commit n s = some (calls, s1) →
      unit_view s1 j = unit_view s j := by
  intro n
  induction n with
  | zero =>
    intro s s1 calls h
    rw [wq_cookie_handler_loop] at h
    split at h
    · simp only [Option.some.injEq, Prod.mk.injEq] at h
      rw [← h.2]
    · cases h
  | succ n ih =>
    intro s s1 calls h
    rw [wq_cookie_handler_loop] at h
    split at h
    · simp only [Option.some.injEq, Prod.mk.injEq] at h
      rw [← h.2]
    · simp only [] at h
      split at h
      · cases h
      · rename_i c s2 hg
        have hv := get_cookie_unit_view _ _ _ _ _ _ _ _ _ j hj hg
        rw [translate_buffer_read_int_unit_view cpu _ j hj,
          translate_buffer_read_int_unit_view cpu _ j hj] at hv
        cases hl : wq_cookie_handler_loop cfg heap cpu commit n s2 with
        | none => rw [hl] at h; cases h
        | some p =>
          obtain ⟨calls2, s3⟩ := p
          rw [hl] at h
          simp only [Option.map_some', Option.some.injEq, Prod.mk.injEq] at h
          rw [← h.2, ih s2 s3 calls2 hl, hv]

/-- C23. Unit isolation: `cookiemap_exists`, `cookiemap_add`, `get_cookie`, the enqueue
branch of `translate_app_process` and `wq_cookie_handler`, run on CPU `i`, leave
unchanged the cookie cache (keys and values), the cookie counter, the translate queue
(buffer, read and write index) and the output buffer of every other CPU `j`. -/
theorem unit_isolation (cfg : Config) (i j : Nat) (hij : j ≠ i) (s : State) :
    (∀ key, unit_view (cookiemap_exists i key s).2 j = unit_view s j) ∧
    (∀ key value, unit_view (cookiemap_add i key value s) j = unit_view s j) ∧
    (∀ in_irq task vma mod c s1, get_cookie cfg in_irq i task vma mod s = some (c, s1) →
      unit_view s1 j = unit_view s j) ∧
    (∀ text task vma r t1 s1, translate_app_process true text i task vma s = some (r, t1, s1) →
      unit_view s1 j = unit_view s j) ∧
    (∀ heap calls s1, wq_cookie_handler cfg heap i s = some (calls, s1) →
      unit_view s1 j = unit_view s j) :=
  ⟨fun key => cookiemap_exists_unit_view i key s j hij,
   fun key value => cookiemap_add_unit_view i key value s j hij,
   fun _ _ _ _ _ _ h => get_cookie_unit_view _ _ _ _ _ _ _ _ _ j hij h,
   fun _ _ _ _ _ _ h => translate_app_process_unit_view _ _ _ _ _ _ _ _ _ j hij h,
   fun _ _ _ h => wq_cookie_handler_loop_unit_view _ _ _ _ j hij _ _ _ _ h⟩

/-- C23 on a session of two CPUs: `cookiemap_add` and a call of `get_cookie` that
allocates a cookie on CPU 0 leave what belongs to CPU 1 unchanged. -/
theorem unit_isolation_witness :
    (1 : Nat) ≠ 0 ∧
    unit_view (cookiemap_add 0 5 7 (session_start 2)) 1 = unit_view (session_start 2) 1 ∧
    ∃ c s1, get_cookie (sample_config 2) false 0 (sample_call "libc.so" 42).task
        (sample_call "libc.so" 42).vma none (session_start 2) = some (c, s1) ∧
      unit_view s1 1 = unit_view (session_start 2) 1 :=
  ⟨by decide,
   (unit_isolation (sample_config 2) 0 1 (by decide) (session_start 2)).2.1 5 7,
   let ⟨p, h⟩ := Option.isSome_iff_exists.mp
     (by decide : (get_cookie (sample_config 2) false 0 (sample_call "libc.so" 42).task
        (sample_call "libc.so" 42).vma none (session_start 2)).isSome = true)
   ⟨p.1, p.2, h,
    (unit_isolation (sample_config 2) 0 1 (by decide) (session_start 2)).2.2.1 _ _ _ _ _ _ h⟩⟩

/-! ## The translate-queue invariant -/

/-- Whenever the worker loop returns, the read index is at `commit`, and the buffer,
the write index and the mask are as on entry. -/
theorem wq_cookie_handler_loop_queue (cfg : Config) (heap : Heap) (cpu commit : Nat) :
    ∀ (n : Nat) (s s1 : State) (calls : List (Nat × Nat)),
      wq_cookie_handler_loop cfg heap cpu commit n s = some (calls, s1) →
      s1.translate_buffer_read cpu = commit ∧
      s1.translate_buffer_write = s.translate_buffer_write ∧
      s1.translate_buffer_mask = s.translate_buffer_mask ∧
      s1.translate_buffer = s.translate_buffer := by
  intro n
  induction n with
  | zero =>
    intro s s1 calls h
    rw [wq_cookie_handler_loop] at h
    split at h
    · rename_i hr
      simp only [Option.some.injEq, Prod.mk.injEq] at h
      rw [← h.2]
      exact ⟨hr, rfl, rfl, rfl⟩
    · cases h
  | succ n ih =>
    intro s s1 calls h
    rw [wq_cookie_handler_loop] at h
    split at h
    · rename_i hr
      simp only [Option.some.injEq, Prod.mk.injEq] at h
      rw [← h.2]
      exact ⟨hr, rfl, rfl, rfl⟩
    · simp only [] at h
      split at h
      · cases h
      · rename_i c s2 hg
        have hq := get_cookie_queue_fields _ _ _ _ _ _ _ _ hg
        obtain ⟨_, _, a3, a4, a5⟩ := translate_buffer_read_int_spec cpu s
        obtain ⟨_, _, b3, b4, b5⟩ :=
          translate_buffer_read_int_spec cpu (translate_buffer_read_int cpu s).2
        have q1 : s2.translate_buffer = s.translate_buffer :=
          ((congrArg (fun p => p.1) hq).trans b3).trans a3
        have q3 : s2.translate_buffer_write = s.translate_buffer_write :=
          ((congrArg (fun p => p.2.2.1) hq).trans b5).trans a5
        have q4 : s2.translate_buffer_mask = s.translate_buffer_mask :=
          ((congrArg (fun p => p.2.2.2) hq).trans b4).trans a4
        cases hl : wq_cookie_handler_loop cfg heap cpu commit n s2 with
        | none => rw [hl] at h; cases h
        | some p =>
          obtain ⟨calls2, s3⟩ := p
          rw [hl] at h
          simp only [Option.map_some', Option.some.injEq, Prod.mk.injEq] at h
          obtain ⟨i1, i2, i3, i4⟩ := ih s2 s3 calls2 hl
          rw [← h.2]
          exact ⟨i1, i2.trans q3, i3.trans q4, i4.trans q1⟩

theorem queue_wf_wq_cookie_handler (cfg : Config) (heap : Heap) (cpu : Nat) (s s1 : State)
    (calls : List (Nat × Nat)) (hwf : queue_wf s cpu)
    (h : wq_cookie_handler cfg heap cpu s = some (calls, s1)) : queue_wf s1 cpu := by
  obtain ⟨hm, hr, hr2, hw, hw2⟩ := hwf
  obtain ⟨i1, i2, i3, _⟩ := wq_cookie_handler_loop_queue cfg heap cpu _ _ _ _ _ h
  refine ⟨i3.trans hm, ?_, ?_, ?_, ?_⟩
  · rw [i1]; exact hw
  · rw [i1]; exact hw2
  · rw [i2]; exact hw
  · rw [i2]; exact hw2

theorem queue_wf_translate_app_process (text : TextPtr) (cpu : Nat) (task : task_struct)
    (vma : Nat) (s s1 : State) (r : Nat) (t1 : TextPtr) (hwf : queue_wf s cpu)
    (h : translate_app_process true text cpu task vma s = some (r, t1, s1)) :
    queue_wf s1 cpu := by
  rw [translate_app_process_irq] at h
  split at h
  · cases h
  · simp only [Option.some.injEq, Prod.mk.injEq] at h
    rw [← h.2.2]; exact hwf
  · simp only [Option.some.injEq, Prod.mk.injEq] at h
    rw [← h.2.2]; exact queue_wf_enqueue cpu task.ptr vma s hwf

theorem queue_wf_queue_run (cfg : Config) (cpu : Nat) :
    ∀ (ops : List QueueOp) (s s1 : State), queue_wf s cpu →
      queue_run cfg cpu ops s = some s1 → queue_wf s1 cpu := by
  intro ops
  induction ops with
  | nil =>
    intro s s1 hwf h
    simp only [queue_run, Option.some.injEq] at h
    rw [← h]; exact hwf
  | cons op ops ih =>
    intro s s1 hwf h
    cases op with
    | enqueue task vma =>
      rw [queue_run] at h
      split at h
      · cases h
      · rename_i r t1 s2 htr
        exact ih s2 s1 (queue_wf_translate_app_process _ _ _ _ _ _ _ _ hwf htr) h
    | worker heap =>
      rw [queue_run] at h
      split at h
      · cases h
      · rename_i calls s2 hw
        exact ih s2 s1 (queue_wf_wq_cookie_handler _ _ _ _ _ _ hwf hw) h

/-- C25. Starting from a successful `cookies_initialize` (mask 127, read and write
index 0 on every present CPU), after any sequence of enqueues (interrupt branch of
`translate_app_process`) and runs of `wq_cookie_handler` on a present CPU, each run to
its end before the next starts and with a defined result, the mask is 127 and the read and write index are even and at most
the mask.  Hence both words of the pair at either index lie inside the 128-word
buffer, the duplicate scan of any task ends with an answer, and the interrupt
branch of `translate_app_process` returns. -/
theorem translate_queue_invariant (cfg : Config) (N : Nat) (buffer_ok text_ok : Nat → Bool)
    (present : List Nat) (pre : State) (cpu : Nat) (ops : List QueueOp)
    (hinit : ( cookies_initialize N buffer_ok text_ok present pre).1 = 0) (hcpu : cpu ∈ present)
    (hrun : (queue_run cfg cpu ops
      ( cookies_initialize N buffer_ok text_ok present pre).2).isSome = true) :
    ∃ s1, queue_run cfg cpu ops ( cookies_initialize N buffer_ok text_ok present pre).2 = some s1 ∧
      s1.translate_buffer_mask = 127 ∧
      s1.translate_buffer_read cpu % 2 = 0 ∧ s1.translate_buffer_write cpu % 2 = 0 ∧
      s1.translate_buffer_read cpu ≤ s1.translate_buffer_mask ∧
      s1.translate_buffer_write cpu ≤ s1.translate_buffer_mask ∧
      s1.translate_buffer_read cpu + 1 ≤ s1.translate_buffer_mask ∧
      s1.translate_buffer_write cpu + 1 ≤ s1.translate_buffer_mask ∧
      (∀ task, ∃ b, task_pending s1 cpu task = some b) ∧
      (∀ text task vma, (translate_app_process true text cpu task vma s1).isSome = true) := by
  obtain ⟨s1, hs1⟩ := Option.isSome_iff_exists.mp hrun
  obtain ⟨im, ir, iw, _⟩ := cookies_initialize_unit N buffer_ok text_ok present cpu pre hinit hcpu
  have hwf0 : queue_wf ( cookies_initialize N buffer_ok text_ok present pre).2 cpu := by
    refine ⟨im, ?_, ?_, ?_, ?_⟩
    · rw [ir]
    · rw [ir]; omega
    · rw [iw]
    · rw [iw]; omega
  have hwf := queue_wf_queue_run cfg cpu ops _ s1 hwf0 hs1
  obtain ⟨hm, hr, hr2, hw, hw2⟩ := hwf
  refine ⟨s1, hs1, hm, hr, hw, ?_, ?_, ?_, ?_, ?_, ?_⟩
  · rw [hm]; exact hr2
  · rw [hm]; exact hw2
  · rw [hm]; omega
  · rw [hm]; omega
  · intro task
    obtain ⟨b, hb, _⟩ := task_pending_eq s1 cpu task ⟨hm, hr, hr2, hw, hw2⟩
    exact ⟨b, hb⟩
  · intro text task vma
    obtain ⟨b, hb, _⟩ := task_pending_eq s1 cpu task.ptr ⟨hm, hr, hr2, hw, hw2⟩
    rw [translate_app_process_irq, hb]
    cases b <;> rfl

/-- C25 on a session of one CPU: three enqueues, a run of the worker and one more
enqueue. -/
theorem translate_queue_invariant_witness :
    (( cookies_initialize 1 (fun _ => true) (fun _ => true) [0] State.blank).1 = 0 ∧ 0 ∈ [0]) ∧
    ∃ s1, queue_run (sample_config 1) 0
        [QueueOp.enqueue (irq_call 1000 1).task 8192, QueueOp.enqueue (irq_call 1001 2).task 8193,
         QueueOp.enqueue (irq_call 1000 1).task 8192, QueueOp.worker sample_heap,
         QueueOp.enqueue (irq_call 1002 3).task 8194]
        ( cookies_initialize 1 (fun _ => true) (fun _ => true) [0] State.blank).2 = some s1 ∧
      s1.translate_buffer_mask = 127 ∧
      s1.translate_buffer_read 0 % 2 = 0 ∧ s1.translate_buffer_write 0 % 2 = 0 :=
  ⟨⟨by decide, by decide⟩,
   let ⟨s1, h1, h2, h3, h4, _⟩ :=
     translate_queue_invariant (sample_config 1) 1 (fun _ => true) (fun _ => true) [0]
       State.blank 0
       [QueueOp.enqueue (irq_call 1000 1).task 8192, QueueOp.enqueue (irq_call 1001 2).task 8193,
        QueueOp.enqueue (irq_call 1000 1).task 8192, QueueOp.worker sample_heap,
        QueueOp.enqueue (irq_call 1002 3).task 8194]
       (by decide) (by decide) (by decide)
   ⟨s1, h1, h2, h3, h4⟩⟩

/-! ## The write loop of `MaliVideoDriver::start` -/

theorem fits_append_length (bufsize : Nat) (buf bytes r : List Nat)
    (h : fits_append bufsize buf bytes = some r) : r.length ≤ bufsize := by
  unfold fits_append at h
  split at h
  · rename_i hle
    cases h
    rw [List.length_append]
    exact hle
  · cases h

theorem start_buffer_length (enc : Int → List Nat) (mCounters : List MaliVideoCounter)
    (mSampleRate mLiveRate : Int) (buf : List Nat)
    (h : MaliVideoDriver.start_buffer enc mCounters mSampleRate mLiveRate = some buf) :
    buf.length ≤ 256 := by
  unfold MaliVideoDriver.start_buffer at h
  simp only [Option.bind_eq_some] at h
  obtain ⟨b1, _, b2, _, b3, _, h4⟩ := h
  rw [start_enable_eq] at h4
  exact fits_append_length _ _ _ _ h4

theorem to_int32_small (x : Int) (h0 : 0 ≤ x) (h1 : x < 2 ^ 31) : to_int32 x = x := by
  unfold to_int32
  have h2 : (x + 2 ^ 31) % 2 ^ 32 = x + 2 ^ 31 :=
    Int.emod_eq_of_lt (by omega) (by omega)
  rw [h2]
  omega

theorem size_t_small (size_bits : Nat) (hbits : 32 ≤ size_bits) (x : Int) (h0 : 0 ≤ x)
    (h1 : x < 2 ^ 31) : x % 2 ^ size_bits = x := by
  have hp : (2 : Int) ^ 32 ≤ 2 ^ size_bits := pow_le_pow_right₀ (by decide) hbits
  exact Int.emod_eq_of_lt h0 (by omega)

/-- The write loop on results that are positive and no larger than the count asked
for: it ends with `true`, call `k` is made at the offset `written` plus the sum of
the earlier results, and the bytes accepted are those of the buffer from `written`
on. -/
theorem start_write_loop_short_writes (size_bits : Nat) (hbits : 32 ≤ size_bits)
    (buf : List Nat) (hbuf : buf.length ≤ 256) :
    ∀ (results : List Int) (written : Int), 0 ≤ written → written ≤ buf.length →
      writes_valid buf.length results written = true →
      ∃ calls, MaliVideoDriver.start_write_loop size_bits buf.length results written =
          some (true, calls) ∧
        (∀ (k : Nat) (hk : k < calls.length),
          calls.get ⟨k, hk⟩ =
            (written + (results.take k).sum, buf.length - (written + (results.take k).sum))) ∧
        accepted_bytes buf calls results = buf.drop written.toNat := by
  intro results
  induction results with
  | nil =>
    intro written h0 h1 hv
    rw [writes_valid, decide_eq_true_eq] at hv
    have hw : ¬ written < buf.length := by omega
    refine ⟨[], ?_, ?_, ?_⟩
    · rw [MaliVideoDriver.start_write_loop, if_neg hw]
    · intro k hk; cases hk
    · have : written.toNat = buf.length := by omega
      rw [this, List.drop_length]; rfl
  | cons r rest ih =>
    intro written h0 h1 hv
    by_cases hw : written < buf.length
    · rw [writes_valid, if_pos hw] at hv
      simp only [Bool.and_eq_true, decide_eq_true_eq] at hv
      obtain ⟨⟨hr0, hr1⟩, hv2⟩ := hv
      have hbytes : r % 2 ^ size_bits = r := size_t_small size_bits hbits r (by omega) (by omega)
      have hwr : written % 2 ^ size_bits = written :=
        size_t_small size_bits hbits written h0 (by omega)
      have hsum : (written + r) % 2 ^ size_bits = written + r :=
        size_t_small size_bits hbits (written + r) (by omega) (by omega)
      have hint : to_int32 (written + r) = written + r :=
        to_int32_small (written + r) (by omega) (by omega)
      obtain ⟨calls, hc1, hc2, hc3⟩ := ih (written + r) (by omega) (by omega) hv2
      refine ⟨(written, (buf.length : Int) - written) :: calls, ?_, ?_, ?_⟩
      · rw [MaliVideoDriver.start_write_loop, if_pos hw]
        simp only [hbytes, hwr, hsum, hint]
        rw [if_neg (by omega), hc1]
        rfl
      · intro k hk
        cases k with
        | zero => simp
        | succ k =>
          simp only [List.length_cons, Nat.add_lt_add_iff_right] at hk
          have := hc2 k hk
          simp only [List.get_eq_getElem, List.getElem_cons_succ, List.take_succ_cons,
            List.sum_cons] at this ⊢
          rw [this, add_assoc]
      · rw [accepted_bytes, hc3]
        have e1 : (written + r).toNat = written.toNat + r.toNat := by omega
        rw [e1, ← List.drop_drop]
        exact List.take_append_drop _ _
    · refine ⟨[], ?_, ?_, ?_⟩
      · rw [MaliVideoDriver.start_write_loop, if_neg hw]
      · intro k hk; cases hk
      · have : written.toNat = buf.length := by omega
        rw [this, List.drop_length]; rfl

/-- C22. Short writes are retried to completion: when `size_t` has at least 32 bits
and every `::write` call returns a positive byte count no larger than the count it
was asked to write,
`MaliVideoDriver::start` ends and returns true, call `k` is issued at the offset equal
to the sum of the earlier results with the count of the bytes left, and the bytes
accepted by the calls, concatenated, are the whole buffer `buf[0..pos)` in order. -/
theorem start_retries_short_writes (enc : Int → List Nat) (size_bits : Nat)
    (mCounters : List MaliVideoCounter) (mSampleRate mLiveRate : Int) (buf : List Nat)
    (results : List Int) (hbits : 32 ≤ size_bits)
    (hbuf : MaliVideoDriver.start_buffer enc mCounters mSampleRate mLiveRate = some buf)
    (hvalid : writes_valid buf.length results 0 = true) :
    ∃ calls, MaliVideoDriver.start enc size_bits mCounters mSampleRate mLiveRate results =
        some (true, calls) ∧
      (∀ (k : Nat) (hk : k < calls.length),
        calls.get ⟨k, hk⟩ = ((results.take k).sum, buf.length - (results.take k).sum)) ∧
      accepted_bytes buf calls results = buf := by
  have hl := start_buffer_length enc mCounters mSampleRate mLiveRate buf hbuf
  obtain ⟨calls, h1, h2, h3⟩ := start_write_loop_short_writes size_bits hbits buf hl results 0
    (le_refl 0) (by omega) hvalid
  refine ⟨calls, ?_, ?_, ?_⟩
  · unfold MaliVideoDriver.start
    rw [hbuf]
    exact h1
  · intro k hk
    have := h2 k hk
    rw [this, zero_add]
  · rw [h3]; rfl

/-- C22 at a concrete input: the 56-byte handshake of the sample rate 100 and the live
rate 2000000 with no counter, accepted in pieces of 10, 1, 40 and 5 bytes by four
`::write` calls at the offsets 0, 10, 11 and 51. -/
theorem start_retries_short_writes_witness :
    ((32 : Nat) ≤ 64 ∧
      (MaliVideoDriver.start_buffer le32 [] 100 2000000).map List.length = some 56 ∧
      writes_valid 56 [10, 1, 40, 5] 0 = true) ∧
    MaliVideoDriver.start le32 64 [] 100 2000000 [10, 1, 40, 5] =
      some (true, [(0, 56), (10, 46), (11, 45), (51, 5)]) ∧
    ∃ buf calls, MaliVideoDriver.start_buffer le32 [] 100 2000000 = some buf ∧
      MaliVideoDriver.start le32 64 [] 100 2000000 [10, 1, 40, 5] = some (true, calls) ∧
      accepted_bytes buf calls [10, 1, 40, 5] = buf :=
  ⟨⟨by decide, by decide, by decide⟩, by decide,
   let ⟨buf, hb⟩ := Option.isSome_iff_exists.mp
     (by decide : (MaliVideoDriver.start_buffer le32 [] 100 2000000).isSome = true)
   have hl : (buf.length : Int) = 56 := by
     have h := congrArg (Option.map List.length) hb
     rw [show (MaliVideoDriver.start_buffer le32 [] 100 2000000).map List.length = some 56
       from by decide] at h
     simp only [Option.map_some', Option.some.injEq] at h
     omega
   let ⟨calls, h1, _, h3⟩ :=
     start_retries_short_writes le32 64 [] 100 2000000 buf [10, 1, 40, 5] (by decide) hb
       (by rw [hl]; decide)
   ⟨buf, calls, hb, h1, h3⟩⟩

/-! ## `gator_events_irq_read` -/

/-- C26. `gator_events_irq_read` on CPU `cpu`: the count of each enabled counter is reset
to 0 and that of a disabled counter is kept; the value last reported for a counter
is replaced by the count exactly when the counter is enabled and the count differs
from it; the pairs (key, count) of these counters are written to the start of the
result buffer of the CPU, the hard-irq pair first; the returned length is twice the
number of pairs, hence 0, 2 or 4 and at most `2 * TOTALIRQ`. -/
theorem gator_events_irq_read_reports_changes (cpu : Nat) (s : IrqState) :
    ((gator_events_irq_read cpu s).2.irqCnt cpu HARDIRQ =
      if s.hardirq_enabled ≠ 0 then 0 else s.irqCnt cpu HARDIRQ) ∧
    ((gator_events_irq_read cpu s).2.irqCnt cpu SOFTIRQ =
      if s.softirq_enabled ≠ 0 then 0 else s.irqCnt cpu SOFTIRQ) ∧
    ((gator_events_irq_read cpu s).2.irqPrev cpu HARDIRQ =
      if s.hardirq_enabled ≠ 0 ∧ s.irqCnt cpu HARDIRQ ≠ s.irqPrev cpu HARDIRQ
      then s.irqCnt cpu HARDIRQ else s.irqPrev cpu HARDIRQ) ∧
    ((gator_events_irq_read cpu s).2.irqPrev cpu SOFTIRQ =
      if s.softirq_enabled ≠ 0 ∧ s.irqCnt cpu SOFTIRQ ≠ s.irqPrev cpu SOFTIRQ
      then s.irqCnt cpu SOFTIRQ else s.irqPrev cpu SOFTIRQ) ∧
    (gator_events_irq_read cpu s).1 = 2 * (irq_pairs cpu s).length ∧
    buffer_pairs ((gator_events_irq_read cpu s).2.irqGet cpu) (irq_pairs cpu s).length =
      irq_pairs cpu s ∧
    ((gator_events_irq_read cpu s).1 = 0 ∨ (gator_events_irq_read cpu s).1 = 2 ∨
      (gator_events_irq_read cpu s).1 = 4) ∧
    (gator_events_irq_read cpu s).1 ≤ 2 * TOTALIRQ := by
  simp only [HARDIRQ, SOFTIRQ, TOTALIRQ]
  by_cases he1 : s.hardirq_enabled = 0 <;> by_cases he2 : s.softirq_enabled = 0 <;>
    by_cases hc1 : s.irqCnt cpu 0 = s.irqPrev cpu 0 <;>
    by_cases hc2 : s.irqCnt cpu 1 = s.irqPrev cpu 1 <;>
    simp [gator_events_irq_read, gator_events_irq_read_hard, gator_events_irq_read_soft,
      irq_pairs, buffer_pairs, store, HARDIRQ, SOFTIRQ, he1, he2, hc1, hc2]

end Gator
